import Mathlib

/-!
# OpenColorIO operator-chain optimizer

A shallow embedding of `src/OpenColorIO/OpOptimizers.cpp` and theorems about it.

The optimizer works on a vector of operators (`OpRcPtrVec`).  The operator classes
themselves (`Op.h`, the `ops/` directories other than `ops/log/LogOpData.cpp`), the
public header with the enumerations and the bit-depth helpers are not part of the
sources at hand, so the optimizer is embedded over an arbitrary operator type `Op`
together with a record `Externals Op` holding everything the optimizer calls.
-/

namespace OCIO

/-! ## Data model -/

/-- Modelled from the spec: the operator variant type tag `OpData::Type` (declared in
`OpData.h`, which is not among the sources).  The constructors are the tags named in
`OpOptimizers.cpp` plus `ReferenceType`, which stands for the tags handled by the
`default:` branches. -/
inductive OpDataType where
  | CDLType
  | ExponentType
  | ExposureContrastType
  | FixedFunctionType
  | GammaType
  | LogType
  | Lut1DType
  | Lut3DType
  | MatrixType
  | RangeType
  | ReferenceType
  | NoOpType
  deriving DecidableEq, Repr

/-- Modelled from the spec: `TransformDirection` (declared in `OpenColorIO.h`). -/
inductive TransformDirection where
  | TRANSFORM_DIR_UNKNOWN
  | TRANSFORM_DIR_FORWARD
  | TRANSFORM_DIR_INVERSE
  deriving DecidableEq, Repr

/-- Modelled from the spec: `BitDepth` (declared in `OpenColorIO.h`): 8/10/12/14/16/32-bit
unsigned integer, 16/32-bit float, unknown. -/
inductive BitDepth where
  | BIT_DEPTH_UNKNOWN
  | BIT_DEPTH_UINT8
  | BIT_DEPTH_UINT10
  | BIT_DEPTH_UINT12
  | BIT_DEPTH_UINT14
  | BIT_DEPTH_UINT16
  | BIT_DEPTH_UINT32
  | BIT_DEPTH_F16
  | BIT_DEPTH_F32
  deriving DecidableEq, Repr

/-- The bitmask type `OptimizationFlags` (an unsigned enumeration). -/
abbrev OptimizationFlags := Nat

/-- Modelled from the spec: the distinguished all-zero flag value `OPTIMIZATION_NONE`
(declared in `OpenColorIO.h`). -/
def OPTIMIZATION_NONE : OptimizationFlags := 0

/-- Everything `OpOptimizers.cpp` uses and does not define: the operator capability
contract of `Op.h` (virtual methods, here functions of the operator), the values of the
optimization flag bits of `OpenColorIO.h`, `IsFloatBitDepth` of `BitDepthUtils.h`, and the
Lut1D construction used by the prefix fusion.  All of it is a parameter of the embedding. -/
structure Externals (Op : Type) where
  /-- `op->data()->getType()`. -/
  getType : Op → OpDataType
  /-- `op->isNoOp()`. -/
  isNoOp : Op → Bool
  /-- `op->isIdentity()`. -/
  isIdentity : Op → Bool
  /-- `op->data()->isIdentity()`, the predicate of the parameter data. -/
  dataIsIdentity : Op → Bool
  /-- `op->getIdentityReplacement()`. -/
  getIdentityReplacement : Op → Op
  /-- `op1->isInverse(op2)`. -/
  isInverse : Op → Op → Bool
  /-- `op1->canCombineWith(op2)`. -/
  canCombineWith : Op → Op → Bool
  /-- The operators `op1->combineWith(tmpops, op2)` appends to the empty `tmpops`. -/
  combineWith : Op → Op → List Op
  /-- `op->hasChannelCrosstalk()`. -/
  hasChannelCrosstalk : Op → Bool
  /-- `op->isDynamic()`. -/
  isDynamic : Op → Bool
  /-- `op->clone()`. -/
  clone : Op → Op
  /-- The operator after `op->removeDynamicProperties()`. -/
  removeDynamicProperties : Op → Op
  /-- `lutData->getDirection()` of the data of a Lut1D operator. -/
  getDirection : Op → TransformDirection
  /-- `IsFloatBitDepth` of `BitDepthUtils.h`. -/
  IsFloatBitDepth : BitDepth → Bool
  /-- The vector `lutOps` that `Lut1DOpData::MakeLookupDomain(in)`, `Lut1DOpData::ComposeVec`
  over the cloned separable operators and `CreateLut1DOp(lutOps, newDomain, TRANSFORM_DIR_FORWARD)`
  produce. -/
  makeSeparableLut : BitDepth → List Op → List Op
  OPTIMIZATION_IDENTITY : OptimizationFlags
  OPTIMIZATION_IDENTITY_GAMMA : OptimizationFlags
  OPTIMIZATION_PAIR_IDENTITY_CDL : OptimizationFlags
  OPTIMIZATION_PAIR_IDENTITY_EXPOSURE_CONTRAST : OptimizationFlags
  OPTIMIZATION_PAIR_IDENTITY_FIXED_FUNCTION : OptimizationFlags
  OPTIMIZATION_PAIR_IDENTITY_GAMMA : OptimizationFlags
  OPTIMIZATION_PAIR_IDENTITY_LUT1D : OptimizationFlags
  OPTIMIZATION_PAIR_IDENTITY_LUT3D : OptimizationFlags
  OPTIMIZATION_PAIR_IDENTITY_LOG : OptimizationFlags
  OPTIMIZATION_COMP_EXPONENT : OptimizationFlags
  OPTIMIZATION_COMP_GAMMA : OptimizationFlags
  OPTIMIZATION_COMP_LUT1D : OptimizationFlags
  OPTIMIZATION_COMP_LUT3D : OptimizationFlags
  OPTIMIZATION_COMP_MATRIX : OptimizationFlags
  OPTIMIZATION_COMP_RANGE : OptimizationFlags
  OPTIMIZATION_COMP_SEPARABLE_PREFIX : OptimizationFlags
  OPTIMIZATION_NO_DYNAMIC_PROPERTIES : OptimizationFlags

/-- How a run of the embedded code can fail to produce a chain. -/
inductive Failure where
  /-- The step budget of the model ran out (the loop did not finish within it). -/
  | outOfFuel
  /-- An element access `opVec[i]` outside of the vector. -/
  | outOfRange
  /-- A C++ `Exception` with its message. -/
  | exception (msg : String)
  deriving DecidableEq, Repr

deriving instance DecidableEq for Except

section Rules

variable {Op : Type}

/-! ## Flag gating (`OpOptimizers.cpp`, lines 22-68) -/

/-- `HasFlag`: all bits of `queryFlag` are set in `flags`. -/
def HasFlag (flags queryFlag : OptimizationFlags) : Bool :=
  (flags &&& queryFlag) == queryFlag

/-- `IsPairInverseEnabled`. -/
def IsPairInverseEnabled (I : Externals Op) (type : OpDataType) (flags : OptimizationFlags) : Bool :=
  match type with
  | .CDLType => HasFlag flags I.OPTIMIZATION_PAIR_IDENTITY_CDL
  | .ExposureContrastType => HasFlag flags I.OPTIMIZATION_PAIR_IDENTITY_EXPOSURE_CONTRAST
  | .FixedFunctionType => HasFlag flags I.OPTIMIZATION_PAIR_IDENTITY_FIXED_FUNCTION
  | .GammaType => HasFlag flags I.OPTIMIZATION_PAIR_IDENTITY_GAMMA
  | .Lut1DType => HasFlag flags I.OPTIMIZATION_PAIR_IDENTITY_LUT1D
  | .Lut3DType => HasFlag flags I.OPTIMIZATION_PAIR_IDENTITY_LUT3D
  | .LogType => HasFlag flags I.OPTIMIZATION_PAIR_IDENTITY_LOG
  | .ExponentType => false
  | .MatrixType => false
  | .RangeType => false
  | _ => true

/-- `IsCombineEnabled`. -/
def IsCombineEnabled (I : Externals Op) (type : OpDataType) (flags : OptimizationFlags) : Bool :=
  (type == .ExponentType && HasFlag flags I.OPTIMIZATION_COMP_EXPONENT) ||
  (type == .GammaType && HasFlag flags I.OPTIMIZATION_COMP_GAMMA) ||
  (type == .Lut1DType && HasFlag flags I.OPTIMIZATION_COMP_LUT1D) ||
  (type == .Lut3DType && HasFlag flags I.OPTIMIZATION_COMP_LUT3D) ||
  (type == .MatrixType && HasFlag flags I.OPTIMIZATION_COMP_MATRIX) ||
  (type == .RangeType && HasFlag flags I.OPTIMIZATION_COMP_RANGE)

/-- `MAX_OPTIMIZATION_PASSES`. -/
def MAX_OPTIMIZATION_PASSES : Nat := 8

/-! ## Vector primitives -/

/-- `opVec.erase(opVec.begin() + first, opVec.begin() + last)`. -/
def eraseRange (opVec : List Op) (first last : Nat) : List Op :=
  opVec.take first ++ opVec.drop last

/-- `opVec.erase(opVec.begin() + pos)`: erases the one entry at `pos`. -/
def eraseAt (opVec : List Op) (pos : Nat) : List Op :=
  eraseRange opVec pos (pos + 1)

/-- `opVec.insert(opVec.begin() + pos, items.begin(), items.end())`. -/
def insertAt (opVec : List Op) (pos : Nat) (items : List Op) : List Op :=
  opVec.take pos ++ items ++ opVec.drop pos

/-- `opVec[i]` for a signed index; `none` stands for an access outside of the vector. -/
def opAt (opVec : List Op) (i : Int) : Option Op :=
  if i < 0 then none else opVec[i.toNat]?

/-- `static_cast<int>(opVec.size() - 1)`.  For an empty vector the unsigned subtraction
wraps around to the largest `size_t` and the cast to `int` gives `-1`; for a non-empty one
it is `size - 1`.  Chain lengths are taken to be within the range of `int`, and `int` is
embedded as an unbounded integer. -/
def sizeMinusOne (size : Nat) : Int :=
  (size : Int) - 1

/-- The loop bound `static_cast<int>(opVec.size() - 1)` as the machine computes it: the
subtraction in the unsigned 64-bit type of `size()`, which wraps around for the empty
vector, then the conversion to the 32-bit `int`, which keeps the value modulo `2^32` in two's
complement. -/
def sizeMinusOneWrapped (size : Nat) : Int :=
  let u : Nat := (size + 2 ^ 64 - 1) % 2 ^ 64
  let w : Nat := u % 2 ^ 32
  if w < 2 ^ 31 then (w : Int) else (w : Int) - 2 ^ 32


/-! ## Rule passes (`OpOptimizers.cpp`, lines 70-315) -/

/-- `RemoveNoOpTypes`: drops the entries whose type is `NoOpType`. -/
def RemoveNoOpTypes (I : Externals Op) : List Op → List Op
  | [] => []
  | o :: rest =>
    if I.getType o = .NoOpType then RemoveNoOpTypes I rest
    else o :: RemoveNoOpTypes I rest

/-- `RemoveDynamicProperties`: every dynamic entry is replaced by its clone with the dynamic
properties removed. -/
def RemoveDynamicProperties (I : Externals Op) (opVec : List Op) : List Op :=
  opVec.map (fun op => if I.isDynamic op then I.removeDynamicProperties (I.clone op) else op)

/-- `RemoveNoOps`: drops the entries with `isNoOp()`, returns the chain and the count. -/
def RemoveNoOps (I : Externals Op) : List Op → List Op × Nat
  | [] => ([], 0)
  | o :: rest =>
    let r := RemoveNoOps I rest
    if I.isNoOp o then (r.1, r.2 + 1) else (o :: r.1, r.2)

/-- The condition of lines 139-142 of `ReplaceIdentityOps`. -/
def replacesIdentity (I : Externals Op) (optIdentity optIdGamma : Bool) (op : Op) : Bool :=
  let type := I.getType op
  type != .RangeType &&
    ((type == .GammaType && optIdGamma) || (type != .GammaType && optIdentity)) &&
    I.isIdentity op

/-- The `for` loop of `ReplaceIdentityOps`. -/
def ReplaceIdentityOpsLoop (I : Externals Op) (optIdentity optIdGamma : Bool) :
    List Op → List Op × Nat
  | [] => ([], 0)
  | op :: rest =>
    let r := ReplaceIdentityOpsLoop I optIdentity optIdGamma rest
    if replacesIdentity I optIdentity optIdGamma op then
      (I.getIdentityReplacement op :: r.1, r.2 + 1)
    else (op :: r.1, r.2)

/-- `ReplaceIdentityOps`. -/
def ReplaceIdentityOps (I : Externals Op) (opVec : List Op) (oFlags : OptimizationFlags) :
    List Op × Nat :=
  let optIdentity := HasFlag oFlags I.OPTIMIZATION_IDENTITY
  let optIdGamma := HasFlag oFlags I.OPTIMIZATION_IDENTITY_GAMMA
  if optIdentity || optIdGamma then ReplaceIdentityOpsLoop I optIdentity optIdGamma opVec
  else (opVec, 0)

/-- The condition of lines 186-188 of `RemoveInverseOps`. -/
def isInversePair (I : Externals Op) (oFlags : OptimizationFlags) (op1 op2 : Op) : Bool :=
  I.getType op1 == I.getType op2 &&
    IsPairInverseEnabled I (I.getType op1) oFlags &&
    I.isInverse op1 op2

/-- The `while` loop of `RemoveInverseOps`, with the state `opVec`, `firstindex`, `count`.
The first argument bounds the number of iterations. -/
def RemoveInverseOpsLoop (I : Externals Op) (oFlags : OptimizationFlags) :
    Nat → List Op → Int → Nat → Except Failure (List Op × Nat)
  | 0, _, _, _ => .error .outOfFuel
  | fuel + 1, opVec, firstindex, count =>
    if firstindex < sizeMinusOne opVec.length then
      match opAt opVec firstindex, opAt opVec (firstindex + 1) with
      | some op1, some op2 =>
        if isInversePair I oFlags op1 op2 then
          let replacedBy := I.getIdentityReplacement op1
          if I.isNoOp replacedBy then
            RemoveInverseOpsLoop I oFlags fuel
              (eraseRange opVec firstindex.toNat (firstindex.toNat + 2))
              (max 0 (firstindex - 1)) (count + 1)
          else
            RemoveInverseOpsLoop I oFlags fuel
              (eraseAt (opVec.set firstindex.toNat replacedBy) (firstindex.toNat + 1))
              (firstindex + 1) (count + 1)
        else
          RemoveInverseOpsLoop I oFlags fuel opVec (firstindex + 1) count
      | _, _ => .error .outOfRange
    else .ok (opVec, count)

/-- `RemoveInverseOps`. -/
def RemoveInverseOps (I : Externals Op) (fuel : Nat) (opVec : List Op)
    (oFlags : OptimizationFlags) : Except Failure (List Op × Nat) :=
  RemoveInverseOpsLoop I oFlags fuel opVec 0 0

/-- The condition of line 230 of `CombineOps`. -/
def isCombinePair (I : Externals Op) (oFlags : OptimizationFlags) (op1 op2 : Op) : Bool :=
  IsCombineEnabled I (I.getType op1) oFlags && I.canCombineWith op1 op2

/-- The `while` loop of `CombineOps`, with the state `opVec`, `firstindex`, `count`.
The first argument bounds the number of iterations. -/
def CombineOpsLoop (I : Externals Op) (oFlags : OptimizationFlags) :
    Nat → List Op → Int → Nat → Except Failure (List Op × Nat)
  | 0, _, _, _ => .error .outOfFuel
  | fuel + 1, opVec, firstindex, count =>
    if firstindex < sizeMinusOne opVec.length then
      match opAt opVec firstindex, opAt opVec (firstindex + 1) with
      | some op1, some op2 =>
        if isCombinePair I oFlags op1 op2 then
          let tmpops := I.combineWith op1 op2
          CombineOpsLoop I oFlags fuel
            (insertAt (eraseRange opVec firstindex.toNat (firstindex.toNat + 2))
              firstindex.toNat tmpops)
            (max 0 (firstindex - 1)) (count + 1)
        else
          CombineOpsLoop I oFlags fuel opVec (firstindex + 1) count
      | _, _ => .error .outOfRange
    else .ok (opVec, count)

/-- `CombineOps`. -/
def CombineOps (I : Externals Op) (fuel : Nat) (opVec : List Op)
    (oFlags : OptimizationFlags) : Except Failure (List Op × Nat) :=
  CombineOpsLoop I oFlags fuel opVec 0 0

/-- The common shape of the two pair scans `RemoveInverseOps` and `CombineOps`: a cursor
walks over the adjacent pairs; a pair passing `test` is rewritten by `rewrite`, which gives
the new chain and the new cursor, and counted; otherwise the cursor advances.  Used to
prove the properties both scans share. -/
def pairScan (test : Op → Op → Bool) (rewrite : List Op → Int → Op → Op → List Op × Int) :
    Nat → List Op → Int → Nat → Except Failure (List Op × Nat)
  | 0, _, _, _ => .error .outOfFuel
  | fuel + 1, opVec, firstindex, count =>
    if firstindex < sizeMinusOne opVec.length then
      match opAt opVec firstindex, opAt opVec (firstindex + 1) with
      | some op1, some op2 =>
        if test op1 op2 then
          pairScan test rewrite fuel (rewrite opVec firstindex op1 op2).1
            (rewrite opVec firstindex op1 op2).2 (count + 1)
        else
          pairScan test rewrite fuel opVec (firstindex + 1) count
      | _, _ => .error .outOfRange
    else .ok (opVec, count)

/-- The rewrite of `RemoveInverseOps` (lines 193-205) as a function of the state. -/
def inverseRewrite (I : Externals Op) (opVec : List Op) (firstindex : Int) (op1 _op2 : Op) :
    List Op × Int :=
  if I.isNoOp (I.getIdentityReplacement op1) then
    (eraseRange opVec firstindex.toNat (firstindex.toNat + 2), max 0 (firstindex - 1))
  else
    (eraseAt (opVec.set firstindex.toNat (I.getIdentityReplacement op1))
      (firstindex.toNat + 1), firstindex + 1)

/-- The rewrite of `CombineOps` (lines 232-250) as a function of the state. -/
def combineRewrite (I : Externals Op) (opVec : List Op) (firstindex : Int) (op1 op2 : Op) :
    List Op × Int :=
  (insertAt (eraseRange opVec firstindex.toNat (firstindex.toNat + 2)) firstindex.toNat
    (I.combineWith op1 op2), max 0 (firstindex - 1))

/-- The test of lines 272 and 298: a Range whose data is an identity. -/
def isClampIdentity (I : Externals Op) (o : Op) : Bool :=
  I.getType o == .RangeType && I.dataIsIdentity o

/-- The counting loop of `RemoveLeadingClampIdentity` (lines 268-281). -/
def leadingClampCount (I : Externals Op) : List Op → Nat
  | [] => 0
  | o :: rest => if isClampIdentity I o then leadingClampCount I rest + 1 else 0

/-- `RemoveLeadingClampIdentity`. -/
def RemoveLeadingClampIdentity (I : Externals Op) (opVec : List Op) : List Op × Nat :=
  let count := leadingClampCount I opVec
  if count != 0 then (eraseRange opVec 0 count, count) else (opVec, count)

/-- The counting loop of `RemoveTrailingClampIdentity` (lines 294-307).  The first argument
is `current + 1` (so `0` stands for `current = -1`, where the loop ends); the result is the
final `count` and the final `current + 1`. -/
def trailingClampLoop (I : Externals Op) (opVec : List Op) :
    Nat → Nat → Except Failure (Nat × Nat)
  | 0, count => .ok (count, 0)
  | current + 1, count =>
    match opVec[current]? with
    | some o =>
      if isClampIdentity I o then trailingClampLoop I opVec current (count + 1)
      else .ok (count, current + 1)
    | none => .error .outOfRange

/-- `RemoveTrailingClampIdentity`. -/
def RemoveTrailingClampIdentity (I : Externals Op) (opVec : List Op) :
    Except Failure (List Op × Nat) :=
  match trailingClampLoop I opVec opVec.length 0 with
  | .error e => .error e
  | .ok (count, currentPlusOne) =>
    if count != 0 then .ok (eraseRange opVec currentPlusOne opVec.length, count)
    else .ok (opVec, count)

/-! ## Separable prefix fusion (`OpOptimizers.cpp`, lines 327-455) -/

/-- The first loop of `FindSeparablePrefix` (lines 335-345): the number of leading entries
before the first one that has channel crosstalk or is dynamic. -/
def separablePrefixLen (I : Externals Op) : List Op → Nat
  | [] => 0
  | op :: rest =>
    if I.hasChannelCrosstalk op || I.isDynamic op then 0
    else separablePrefixLen I rest + 1

/-- The second loop of `FindSeparablePrefix` (lines 368-396) over the entries `ops[i]`,
`ops[i+1]`, ...: the first argument is `prefixLen - i`, the second the entries from `i` on,
the third `expensiveOps`. -/
def expensiveOpsLoop (I : Externals Op) : Nat → List Op → Nat → Except Failure Nat
  | 0, _, expensiveOps => .ok expensiveOps
  | _ + 1, [], _ => .error .outOfRange
  | n + 1, op :: rest, expensiveOps =>
    if I.hasChannelCrosstalk op then .error (.exception "Non-separable op.")
    else
      match I.getType op with
      | .MatrixType => expensiveOpsLoop I n rest expensiveOps
      | .RangeType => expensiveOpsLoop I n rest expensiveOps
      | _ => expensiveOpsLoop I n rest (expensiveOps + 1)

/-- `FindSeparablePrefix`. -/
def FindSeparablePrefix (I : Externals Op) (ops : List Op) : Except Failure Nat :=
  let prefixLen := separablePrefixLen I ops
  let singleForwardLut : Bool :=
    prefixLen == 1 &&
      (match ops with
       | constOp0 :: _ =>
         I.getType constOp0 == .Lut1DType &&
           I.getDirection constOp0 == .TRANSFORM_DIR_FORWARD
       | [] => false)
  if singleForwardLut then .ok 0
  else
    match expensiveOpsLoop I prefixLen ops 0 with
    | .error e => .error e
    | .ok expensiveOps => if expensiveOps == 0 then .ok 0 else .ok prefixLen

/-- `OptimizeSeparablePrefix`. -/
def OptimizeSeparablePrefix (I : Externals Op) (ops : List Op) (inBitDepth : BitDepth) :
    Except Failure (List Op) :=
  if ops.isEmpty then .ok ops
  else if inBitDepth == .BIT_DEPTH_F32 || inBitDepth == .BIT_DEPTH_UINT32 then .ok ops
  else
    match FindSeparablePrefix I ops with
    | .error e => .error e
    | .ok prefixLen =>
      if prefixLen == 0 then .ok ops
      else
        let prefixOps := (ops.take prefixLen).map I.clone
        let lutOps := I.makeSeparableLut inBitDepth prefixOps
        .ok (insertAt (eraseRange ops 0 prefixLen) 0 lutOps)

/-! ## The driver (`OpOptimizers.cpp`, lines 458-565) -/

/-- The fixed-point loop of `OptimizeOpVec` (lines 501-520) with the state `ops`, `passes`;
the result is the chain and `passes` when the loop is left.  `fuel` is the iteration bound
handed to the two pair scans, the first argument bounds the rounds of this loop. -/
def OptimizeLoop (I : Externals Op) (fuel : Nat) (oFlags : OptimizationFlags) :
    Nat → List Op → Nat → Except Failure (List Op × Nat)
  | 0, _, _ => .error .outOfFuel
  | n + 1, ops, passes =>
    if passes ≤ MAX_OPTIMIZATION_PASSES then
      let optimizeIdentity := HasFlag oFlags I.OPTIMIZATION_IDENTITY
      let noops := if optimizeIdentity then RemoveNoOps I ops else (ops, 0)
      let identityops := ReplaceIdentityOps I noops.1 oFlags
      match RemoveInverseOps I fuel identityops.1 oFlags with
      | .error e => .error e
      | .ok inverseops =>
        match CombineOps I fuel inverseops.1 oFlags with
        | .error e => .error e
        | .ok combines =>
          if noops.2 + identityops.2 + inverseops.2 + combines.2 == 0 then
            .ok (combines.1, passes)
          else OptimizeLoop I fuel oFlags n combines.1 (passes + 1)
    else .ok (ops, passes)

/-- The two boundary trims of `OptimizeOpVec` (lines 524-531). -/
def BoundaryTrim (I : Externals Op) (ops : List Op) (inBitDepth outBitDepth : BitDepth) :
    Except Failure (List Op) :=
  let ops1 := if !I.IsFloatBitDepth inBitDepth then (RemoveLeadingClampIdentity I ops).1 else ops
  if !I.IsFloatBitDepth outBitDepth then
    match RemoveTrailingClampIdentity I ops1 with
    | .error e => .error e
    | .ok r => .ok r.1
  else .ok ops1

/-- The chain that enters the loop of `OptimizeOpVec` (lines 473-486): the `NoOpType`
entries removed and, under `OPTIMIZATION_NO_DYNAMIC_PROPERTIES`, the dynamic properties
removed. -/
def chainBeforeLoop (I : Externals Op) (ops : List Op) (oFlags : OptimizationFlags) :
    List Op :=
  if HasFlag oFlags I.OPTIMIZATION_NO_DYNAMIC_PROPERTIES then
    RemoveDynamicProperties I (RemoveNoOpTypes I ops)
  else RemoveNoOpTypes I ops

/-- What a run of `OptimizeOpVec` leaves behind: the chain `ops` on return, the value of the
local variable `passes` (0 on the two early returns, where it is not yet declared), and the
chain as it stood before the separable prefix step of lines 533-536 (`trimmed`). -/
structure OptimizeTrace (Op : Type) where
  ops : List Op
  passes : Nat
  trimmed : List Op

/-- `OptimizeOpVec`, returning the final chain together with `passes` and the chain before
the prefix fusion.  The debug logging is a side channel and is left out. -/
def OptimizeOpVecTrace (I : Externals Op) (fuel : Nat) (ops : List Op)
    (inBitDepth outBitDepth : BitDepth) (oFlags : OptimizationFlags) :
    Except Failure (OptimizeTrace Op) :=
  if ops.isEmpty then .ok ⟨ops, 0, ops⟩
  else
    let ops1 := RemoveNoOpTypes I ops
    if oFlags == OPTIMIZATION_NONE then .ok ⟨ops1, 0, ops1⟩
    else
      let removeDynamic := HasFlag oFlags I.OPTIMIZATION_NO_DYNAMIC_PROPERTIES
      let ops2 := if removeDynamic then RemoveDynamicProperties I ops1 else ops1
      match OptimizeLoop I fuel oFlags fuel ops2 0 with
      | .error e => .error e
      | .ok (ops3, passes) =>
        if !ops3.isEmpty then
          match BoundaryTrim I ops3 inBitDepth outBitDepth with
          | .error e => .error e
          | .ok ops4 =>
            if HasFlag oFlags I.OPTIMIZATION_COMP_SEPARABLE_PREFIX then
              match OptimizeSeparablePrefix I ops4 inBitDepth with
              | .error e => .error e
              | .ok ops5 => .ok ⟨ops5, passes, ops4⟩
            else .ok ⟨ops4, passes, ops4⟩
        else .ok ⟨ops3, passes, ops3⟩

/-- `OptimizeOpVec`: the chain after the call. -/
def OptimizeOpVec (I : Externals Op) (fuel : Nat) (ops : List Op)
    (inBitDepth outBitDepth : BitDepth) (oFlags : OptimizationFlags) :
    Except Failure (List Op) :=
  match OptimizeOpVecTrace I fuel ops inBitDepth outBitDepth oFlags with
  | .error e => .error e
  | .ok t => .ok t.ops

/-- The part of `OptimizeOpVec` that follows the removal of the dynamic properties (lines
488-565), as a function of the chain `ops2` that reaches line 488: the loop, the boundary
trims and the separable prefix step. -/
def OptimizeOpVecAfterDynamic (I : Externals Op) (fuel : Nat) (ops2 : List Op)
    (inBitDepth outBitDepth : BitDepth) (oFlags : OptimizationFlags) :
    Except Failure (OptimizeTrace Op) :=
  match OptimizeLoop I fuel oFlags fuel ops2 0 with
  | .error e => .error e
  | .ok (ops3, passes) =>
    if !ops3.isEmpty then
      match BoundaryTrim I ops3 inBitDepth outBitDepth with
      | .error e => .error e
      | .ok ops4 =>
        if HasFlag oFlags I.OPTIMIZATION_COMP_SEPARABLE_PREFIX then
          match OptimizeSeparablePrefix I ops4 inBitDepth with
          | .error e => .error e
          | .ok ops5 => .ok ⟨ops5, passes, ops4⟩
        else .ok ⟨ops4, passes, ops4⟩
    else .ok ⟨ops3, passes, ops3⟩


/-! ## The driver with its log (`OpOptimizers.cpp`, lines 458-565) -/

/-- The messages `OptimizeOpVec` hands to `LogDebug` (`Logging.h` is not among the sources;
the text of a message is built from the values kept here).
* `optimizingOpVec`: the text "Optimizing Op Vec..." (line 468);
* `serializedOpVec ops`: `SerializeOpVec(ops, 4)` (line 469);
* `maxPassesReached passes`: "The max number of passes, `passes`, was reached during
  optimization. ..." (lines 543-549);
* `optimized ...`: "Optimized `originalSize`->`finalSize`, `passes` passes, ... noops removed,
  ... identity ops replaced, ... inverse ops removed, ... ops combines" followed by
  `SerializeOpVec(ops, 4)` (lines 554-563). -/
inductive LogMessage (Op : Type) where
  | optimizingOpVec
  | serializedOpVec (ops : List Op)
  | maxPassesReached (passes : Nat)
  | optimized (originalSize finalSize passes total_noops total_identityops
      total_inverseops total_combines : Nat) (ops : List Op)
  deriving DecidableEq, Repr

/-- The variables the loop of `OptimizeOpVec` works on (lines 493-497 and `ops`). -/
structure LoopState (Op : Type) where
  ops : List Op
  passes : Nat
  total_noops : Nat
  total_identityops : Nat
  total_inverseops : Nat
  total_combines : Nat

/-- The loop of `OptimizeOpVec` (lines 501-520) on all of its variables, the four totals
included.  `fuel` is the iteration bound handed to the two pair scans, the first argument
bounds the rounds of this loop. -/
def OptimizeLoopLogged (I : Externals Op) (fuel : Nat) (oFlags : OptimizationFlags) :
    Nat → LoopState Op → Except Failure (LoopState Op)
  | 0, _ => .error .outOfFuel
  | n + 1, s =>
    if s.passes ≤ MAX_OPTIMIZATION_PASSES then
      let optimizeIdentity := HasFlag oFlags I.OPTIMIZATION_IDENTITY
      let noops := if optimizeIdentity then RemoveNoOps I s.ops else (s.ops, 0)
      let identityops := ReplaceIdentityOps I noops.1 oFlags
      match RemoveInverseOps I fuel identityops.1 oFlags with
      | .error e => .error e
      | .ok inverseops =>
        match CombineOps I fuel inverseops.1 oFlags with
        | .error e => .error e
        | .ok combines =>
          if noops.2 + identityops.2 + inverseops.2 + combines.2 == 0 then
            .ok { s with ops := combines.1 }
          else
            OptimizeLoopLogged I fuel oFlags n
              { ops := combines.1
                passes := s.passes + 1
                total_noops := s.total_noops + noops.2
                total_identityops := s.total_identityops + identityops.2
                total_inverseops := s.total_inverseops + inverseops.2
                total_combines := s.total_combines + combines.2 }
    else .ok s

/-- `OptimizeOpVec` with the messages it hands to `LogDebug`, in order.  `debug` is the
answer of `IsDebugLoggingEnabled()`. -/
def OptimizeOpVecLogged (I : Externals Op) (debug : Bool) (fuel : Nat) (ops : List Op)
    (inBitDepth outBitDepth : BitDepth) (oFlags : OptimizationFlags) :
    Except Failure (List Op × List (LogMessage Op)) :=
  if ops.isEmpty then .ok (ops, [])
  else
    let log0 : List (LogMessage Op) :=
      if debug then [.optimizingOpVec, .serializedOpVec ops] else []
    let ops1 := RemoveNoOpTypes I ops
    if oFlags == OPTIMIZATION_NONE then .ok (ops1, log0)
    else
      let removeDynamic := HasFlag oFlags I.OPTIMIZATION_NO_DYNAMIC_PROPERTIES
      let ops2 := if removeDynamic then RemoveDynamicProperties I ops1 else ops1
      let originalSize := ops2.length
      match OptimizeLoopLogged I fuel oFlags fuel ⟨ops2, 0, 0, 0, 0, 0⟩ with
      | .error e => .error e
      | .ok s =>
        let finished : Except Failure (List Op) :=
          if !s.ops.isEmpty then
            match BoundaryTrim I s.ops inBitDepth outBitDepth with
            | .error e => .error e
            | .ok ops4 =>
              if HasFlag oFlags I.OPTIMIZATION_COMP_SEPARABLE_PREFIX then
                OptimizeSeparablePrefix I ops4 inBitDepth
              else .ok ops4
          else .ok s.ops
        match finished with
        | .error e => .error e
        | .ok ops5 =>
          let finalSize := ops5.length
          let log1 :=
            if s.passes == MAX_OPTIMIZATION_PASSES then log0 ++ [.maxPassesReached s.passes]
            else log0
          let log2 :=
            if debug then
              log1 ++ [.optimized originalSize finalSize s.passes s.total_noops
                s.total_identityops s.total_inverseops s.total_combines ops5]
            else log1
          .ok (ops5, log2)

/-! ## What the contract says about the operators it hands back -/

/-- Modelled from the spec: the operators that the methods of the capability contract hand
back are real operators, never the structural placeholder of type `NoOpType`: an identity
replacement is "a lower-bound Range clamp" or "a Matrix identity" (section 4.1, and
`LogOpData::getIdentityReplacement`), a combination gives a "replacement chain" of
operators, removing the dynamic properties gives the same operator "with the tunable
frozen", hence of the same type, and the prefix fusion gives "a single Lut1D".  The
operator classes that decide this are not among the sources. -/
def ProducesNoNoOpType (I : Externals Op) : Prop :=
  (∀ o, I.getType (I.getIdentityReplacement o) ≠ .NoOpType) ∧
  (∀ a b, ∀ x ∈ I.combineWith a b, I.getType x ≠ .NoOpType) ∧
  (∀ o, I.getType (I.removeDynamicProperties (I.clone o)) = I.getType o) ∧
  (∀ bitDepth ops, ∀ x ∈ I.makeSeparableLut bitDepth ops, I.getType x ≠ .NoOpType)

/-- Modelled from the spec: the Lut1D construction of the prefix fusion
(`Lut1DOpData::MakeLookupDomain`, `Lut1DOpData::ComposeVec`, `CreateLut1DOp` with
`TRANSFORM_DIR_FORWARD`, none of them among the sources) yields "the resulting single
Lut1D": exactly one operator, of type Lut1D and forward direction. -/
def MakesSingleForwardLut (I : Externals Op) : Prop :=
  ∀ bitDepth ops, ∃ lut, I.makeSeparableLut bitDepth ops = [lut] ∧
    I.getType lut = .Lut1DType ∧ I.getDirection lut = .TRANSFORM_DIR_FORWARD

end Rules

/-! ## A concrete operator family

The theorems below hold for every `Externals Op`.  To evaluate the optimizer on explicit
chains, the contract is instantiated with a small family of operators whose answers follow
the spec (section 4.1) and, for Log, `ops/log/LogOpData.cpp`. -/

/-- Modelled from the spec: concrete operator variants (the operator classes are not among
the sources).
* `noop`: the structural placeholder of type `NoOpType`;
* `matrix k`: the diagonal Matrix scaling every channel by `2^k` (`matrix 0` is the identity
  matrix);
* `range lo hi`: a Range that clamps to the optional bounds and does not scale;
* `exponent k`: the Exponent `x^(2^k)` on every channel;
* `log dir p`: a Log of direction `dir` whose three channels share the parameter set
  number `p`;
* `lut1d dir ramp`: a Lut1D of direction `dir` over an integer domain; `ramp` tells whether
  its table is the identity ramp. -/
inductive FxOp where
  | noop
  | matrix (k : Int)
  | range (lo hi : Option Int)
  | exponent (k : Int)
  | log (dir : TransformDirection) (p : Nat)
  | lut1d (dir : TransformDirection) (ramp : Bool)
  deriving DecidableEq, Repr

namespace FxOp

/-- Modelled from the spec: the type tag of each variant. -/
def getType : FxOp → OpDataType
  | noop => .NoOpType
  | matrix _ => .MatrixType
  | range _ _ => .RangeType
  | exponent _ => .ExponentType
  | log _ _ => .LogType
  | lut1d _ _ => .Lut1DType

/-- Modelled from the spec: `isNoOp()`, true when applying the operator changes no value:
the placeholder, the identity matrix, the exponent 1 and a Range without bounds.  A Log is
never a no-op (`LogOpData::isNoOp`), nor is a Lut1D over an integer domain (it clamps). -/
def isNoOp : FxOp → Bool
  | noop => true
  | matrix k => k == 0
  | range lo hi => lo.isNone && hi.isNone
  | exponent k => k == 0
  | log _ _ => false
  | lut1d _ _ => false

/-- Modelled from the spec: `isIdentity()`, true when the parameters describe the identity:
identity matrix, exponent 1, a Range that does not scale, a ramp table.  A Log is never an
identity (`LogOpData::isIdentity`). -/
def isIdentity : FxOp → Bool
  | noop => true
  | matrix k => k == 0
  | range _ _ => true
  | exponent k => k == 0
  | log _ _ => false
  | lut1d _ ramp => ramp

/-- Modelled from the spec: `getIdentityReplacement()`.  For Log this is
`LogOpData::getIdentityReplacement`: a forward Log gives a Range clamping from below only,
an inverse Log the identity Matrix.  A Lut1D over an integer domain gives the Range
clamping to [0, 1]; the other variants give the identity Matrix, a Range itself. -/
def getIdentityReplacement : FxOp → FxOp
  | log .TRANSFORM_DIR_FORWARD _ => range (some 0) none
  | log _ _ => matrix 0
  | lut1d _ _ => range (some 0) (some 1)
  | range lo hi => range lo hi
  | _ => matrix 0

/-- The inverse of a known direction (`GetInverseTransformDirection`). -/
def opposite : TransformDirection → TransformDirection → Bool
  | .TRANSFORM_DIR_FORWARD, .TRANSFORM_DIR_INVERSE => true
  | .TRANSFORM_DIR_INVERSE, .TRANSFORM_DIR_FORWARD => true
  | _, _ => false

/-- Modelled from the spec: `isInverse`.  For Log this is `LogOpData::isInverse` on operators
with equal channels: opposite directions and equal parameters.  Two Lut1D are inverse when
they hold the same table in opposite directions (here: both ramps).  Matrix, Range and
Exponent pairs are left to the combine rule. -/
def isInverse : FxOp → FxOp → Bool
  | log d p, log e q => opposite d e && p == q
  | lut1d d r, lut1d e s => opposite d e && r && s
  | _, _ => false

/-- Modelled from the spec: `canCombineWith`: Matrix with Matrix, Exponent with Exponent. -/
def canCombineWith : FxOp → FxOp → Bool
  | matrix _, matrix _ => true
  | exponent _, exponent _ => true
  | _, _ => false

/-- Modelled from the spec: `combineWith`: the product of two matrices, the product of two
exponents; nothing when the combination is a no-op. -/
def combineWith : FxOp → FxOp → List FxOp
  | matrix a, matrix b => if a + b == 0 then [] else [matrix (a + b)]
  | exponent a, exponent b => if a + b == 0 then [] else [exponent (a + b)]
  | _, _ => []

/-- Whether `second` undoes `first` as a function of one channel. -/
def undoes : FxOp → FxOp → Bool
  | matrix a, matrix b => a + b == 0
  | exponent a, exponent b => a + b == 0
  | log d p, log e q => opposite d e && p == q
  | _, _ => false

/-- Cancels adjacent mutually undoing operators of a composition, left to right; the first
argument is the stack of operators kept so far (last one first). -/
def cancelAdjacent : List FxOp → List FxOp → List FxOp
  | kept, [] => kept
  | [], op :: rest => cancelAdjacent [op] rest
  | top :: kept, op :: rest =>
    if undoes top op then cancelAdjacent kept rest
    else cancelAdjacent (op :: top :: kept) rest

/-- Whether the composition of the operators is the identity function on the unit interval:
after dropping the operators that change no value there, everything cancels. -/
def composesToRamp (ops : List FxOp) : Bool :=
  (cancelAdjacent [] (ops.filter (fun op => !(isNoOp op || isIdentity op)))).isEmpty

/-- Modelled from the spec: the prefix fusion "splices the resulting single Lut1D": one
forward Lut1D tabulating the composition of the separable operators. -/
def makeSeparableLut (_inBitDepth : BitDepth) (prefixOps : List FxOp) : List FxOp :=
  [lut1d .TRANSFORM_DIR_FORWARD (composesToRamp prefixOps)]

/-- The direction of a Lut1D (forward for the variants without a direction). -/
def getDirection : FxOp → TransformDirection
  | lut1d d _ => d
  | log d _ => d
  | _ => .TRANSFORM_DIR_FORWARD

end FxOp

/-- Modelled from the spec: `IsFloatBitDepth` (`BitDepthUtils.h`), true for the 16-bit and
32-bit float depths. -/
def fxIsFloatBitDepth : BitDepth → Bool
  | .BIT_DEPTH_F16 => true
  | .BIT_DEPTH_F32 => true
  | _ => false

/-- The contract instantiated with the operators of `FxOp`.  None of them has channel
crosstalk or a dynamic property; the flag bits are distinct single bits. -/
def fx : Externals FxOp where
  getType := FxOp.getType
  isNoOp := FxOp.isNoOp
  isIdentity := FxOp.isIdentity
  dataIsIdentity := FxOp.isIdentity
  getIdentityReplacement := FxOp.getIdentityReplacement
  isInverse := FxOp.isInverse
  canCombineWith := FxOp.canCombineWith
  combineWith := FxOp.combineWith
  hasChannelCrosstalk := fun _ => false
  isDynamic := fun _ => false
  clone := fun op => op
  removeDynamicProperties := fun op => op
  getDirection := FxOp.getDirection
  IsFloatBitDepth := fxIsFloatBitDepth
  makeSeparableLut := FxOp.makeSeparableLut
  OPTIMIZATION_IDENTITY := 0x1
  OPTIMIZATION_IDENTITY_GAMMA := 0x2
  OPTIMIZATION_PAIR_IDENTITY_CDL := 0x4
  OPTIMIZATION_PAIR_IDENTITY_EXPOSURE_CONTRAST := 0x8
  OPTIMIZATION_PAIR_IDENTITY_FIXED_FUNCTION := 0x10
  OPTIMIZATION_PAIR_IDENTITY_GAMMA := 0x20
  OPTIMIZATION_PAIR_IDENTITY_LUT1D := 0x40
  OPTIMIZATION_PAIR_IDENTITY_LUT3D := 0x80
  OPTIMIZATION_PAIR_IDENTITY_LOG := 0x100
  OPTIMIZATION_COMP_EXPONENT := 0x200
  OPTIMIZATION_COMP_GAMMA := 0x400
  OPTIMIZATION_COMP_LUT1D := 0x800
  OPTIMIZATION_COMP_LUT3D := 0x1000
  OPTIMIZATION_COMP_MATRIX := 0x2000
  OPTIMIZATION_COMP_RANGE := 0x4000
  OPTIMIZATION_COMP_SEPARABLE_PREFIX := 0x8000
  OPTIMIZATION_NO_DYNAMIC_PROPERTIES := 0x10000

/-- The chain `G M G M ... G M  M' G' ... M' G'` with `depth` levels: `G` an inverse Log,
`G'` the forward Log with the same parameters, `M` the Matrix scaling by 2 and `M'` the
Matrix scaling by 1/2. -/
def fxNested (depth : Nat) : List FxOp :=
  (List.replicate depth [FxOp.log .TRANSFORM_DIR_INVERSE 1, FxOp.matrix 1]).flatten ++
  (List.replicate depth [FxOp.matrix (-1), FxOp.log .TRANSFORM_DIR_FORWARD 1]).flatten


/-! ## Transform directions (`ParseUtils.cpp`, lines 88-126) -/

/-- `GetInverseTransformDirection`. -/
def GetInverseTransformDirection (dir : TransformDirection) : TransformDirection :=
  if dir = .TRANSFORM_DIR_FORWARD then .TRANSFORM_DIR_INVERSE
  else if dir = .TRANSFORM_DIR_INVERSE then .TRANSFORM_DIR_FORWARD
  else .TRANSFORM_DIR_UNKNOWN

/-! ## `LogOpData` (`ops/log/LogOpData.cpp`)

The parameters of a Log are of type `double`.  The code compares them with `==` and `<=`,
negates and divides them; these operations are kept abstract (`DoubleOps`), so that nothing
is assumed about rounding, and `==` is not assumed to hold between a value and itself (it
does not for a not-a-number). -/

/-- What `LogOpData.cpp` uses from outside: the arithmetic of `double`, the literals it
writes, `IsScalarEqualToZero` (`MathUtils.h`) and the positions of the four parameters in a
`Params` vector (enumeration `LogAffineParameter`, each in `[0..3]`, see the `static_assert`
at line 342). -/
structure DoubleOps (D : Type) where
  /-- The comparison `==`. -/
  eq : D → D → Bool
  /-- The comparison `<=`. -/
  le : D → D → Bool
  /-- Unary minus. -/
  neg : D → D
  /-- Division `/`. -/
  div : D → D → D
  /-- The literal `0.0`. -/
  zero : D
  /-- The literal `1.0`. -/
  one : D
  /-- The literal `2.0`. -/
  two : D
  /-- The literal `10.0`. -/
  ten : D
  IsScalarEqualToZero : D → Bool
  LOG_SIDE_SLOPE : Fin 4
  LOG_SIDE_OFFSET : Fin 4
  LIN_SIDE_SLOPE : Fin 4
  LIN_SIDE_OFFSET : Fin 4

/-- The data members of `LogOpData`; `Params` is `std::vector<double>`. -/
structure LogOpData (D : Type) where
  m_redParams : List D
  m_greenParams : List D
  m_blueParams : List D
  m_base : D
  m_direction : TransformDirection
  deriving DecidableEq

/-- An argument of the `RangeOpData` constructor: a number, or `RangeOpData::EmptyValue()`,
which stands for a bound that is not set. -/
inductive RangeBound (D : Type) where
  | value (d : D)
  | EmptyValue
  deriving DecidableEq

/-- Modelled from the spec: the operator data `getIdentityReplacement` builds (the classes
`RangeOpData` and `MatrixOpData` are not among the sources), kept as the constructor call:
`RangeOpData(minInValue, maxInValue, minOutValue, maxOutValue)` is the Range that clamps the
input to the bounds that are set and maps `minInValue` to `minOutValue`; `MatrixOpData()` is
the identity Matrix. -/
inductive ReplacementOpData (D : Type) where
  | RangeOpData (minInValue maxInValue minOutValue maxOutValue : RangeBound D)
  | MatrixOpData
  deriving DecidableEq

namespace LogOpData

variable {D : Type}

/-- The comparison `==` of two `std::vector<double>`: same size and `==` at every position. -/
def vectorEq (X : DoubleOps D) : List D → List D → Bool
  | [], [] => true
  | x :: xs, y :: ys => X.eq x y && vectorEq X xs ys
  | _, _ => false

/-- The element access `params[i]`. -/
def paramAt (params : List D) (i : Fin 4) : Except Failure D :=
  match params[i.val]? with
  | some d => .ok d
  | none => .error .outOfRange

/-- `ValidateParams` (lines 32-63); the text of the offending value is left out of the
messages. -/
def ValidateParams (X : DoubleOps D) (params : List D) (direction : TransformDirection) :
    Except Failure Unit :=
  if params.length ≠ 4 then .error (.exception "Log: expecting 4 parameters.")
  else if direction ≠ .TRANSFORM_DIR_UNKNOWN then
    match paramAt params X.LIN_SIDE_SLOPE with
    | .error e => .error e
    | .ok linSlope =>
      if X.IsScalarEqualToZero linSlope then
        .error (.exception "Log: Invalid linear slope value, linear slope cannot be 0.")
      else
        match paramAt params X.LOG_SIDE_SLOPE with
        | .error e => .error e
        | .ok logSlope =>
          if X.IsScalarEqualToZero logSlope then
            .error (.exception "Log: Invalid log slope value, log slope cannot be 0.")
          else .ok ()
  else .error (.exception "Log: Invalid direction.")

/-- `LogOpData::validate` (lines 169-194); `OpData::validate` of the base class is not among
the sources and is taken not to throw. -/
def validate (X : DoubleOps D) (a : LogOpData D) : Except Failure Unit :=
  match ValidateParams X a.m_redParams a.m_direction with
  | .error e => .error e
  | .ok _ =>
    match ValidateParams X a.m_greenParams a.m_direction with
    | .error e => .error e
    | .ok _ =>
      match ValidateParams X a.m_blueParams a.m_direction with
      | .error e => .error e
      | .ok _ =>
        if X.eq a.m_base X.one then
          .error (.exception "Log: Invalid base value, base cannot be 1.")
        else if X.le a.m_base X.zero then
          .error (.exception "Log: Invalid base value, base must be greater than 0.")
        else .ok ()

/-- `LogOpData::allComponentsEqual` (lines 330-336). -/
def allComponentsEqual (X : DoubleOps D) (a : LogOpData D) : Bool :=
  vectorEq X a.m_redParams a.m_greenParams && vectorEq X a.m_redParams a.m_blueParams

/-- `LogOpData::clone` (lines 289-298); the format metadata is not modelled. -/
def clone (a : LogOpData D) : LogOpData D :=
  ⟨a.m_redParams, a.m_greenParams, a.m_blueParams, a.m_base, a.m_direction⟩

/-- `LogOpData::inverse` (lines 300-311): the clone with the inverse direction, validated. -/
def inverse (X : DoubleOps D) (a : LogOpData D) : Except Failure (LogOpData D) :=
  let invOp : LogOpData D :=
    { clone a with m_direction := GetInverseTransformDirection a.m_direction }
  match validate X invOp with
  | .error e => .error e
  | .ok _ => .ok invOp

/-- `LogOpData::isInverse` (lines 313-328). -/
def isInverse (X : DoubleOps D) (a r : LogOpData D) : Bool :=
  decide (GetInverseTransformDirection a.m_direction = r.m_direction) &&
    allComponentsEqual X a && allComponentsEqual X r &&
    vectorEq X a.m_redParams r.m_redParams &&
    X.eq a.m_base r.m_base

/-- `LogOpData::isLogBase` (lines 386-400); the conjunction reads the parameters from left to
right and stops at the first comparison that fails. -/
def isLogBase (X : DoubleOps D) (a : LogOpData D) (base : D) : Except Failure Bool :=
  if allComponentsEqual X a then
    match paramAt a.m_redParams X.LOG_SIDE_SLOPE with
    | .error e => .error e
    | .ok logSideSlope =>
      if X.eq logSideSlope X.one then
        match paramAt a.m_redParams X.LIN_SIDE_SLOPE with
        | .error e => .error e
        | .ok linSideSlope =>
          if X.eq linSideSlope X.one then
            match paramAt a.m_redParams X.LIN_SIDE_OFFSET with
            | .error e => .error e
            | .ok linSideOffset =>
              if X.eq linSideOffset X.zero then
                match paramAt a.m_redParams X.LOG_SIDE_OFFSET with
                | .error e => .error e
                | .ok logSideOffset =>
                  if X.eq logSideOffset X.zero then .ok (X.eq a.m_base base)
                  else .ok false
              else .ok false
          else .ok false
      else .ok false
  else .ok false

/-- `LogOpData::isLog2` (lines 402-405). -/
def isLog2 (X : DoubleOps D) (a : LogOpData D) : Except Failure Bool :=
  isLogBase X a X.two

/-- `LogOpData::isLog10` (lines 407-410). -/
def isLog10 (X : DoubleOps D) (a : LogOpData D) : Except Failure Bool :=
  isLogBase X a X.ten

/-- `LogOpData::getIdentityReplacement` (lines 204-244). -/
def getIdentityReplacement (X : DoubleOps D) (a : LogOpData D) :
    Except Failure (ReplacementOpData D) :=
  let log2or10 : Except Failure Bool :=
    match isLog2 X a with
    | .error e => .error e
    | .ok true => .ok true
    | .ok false => isLog10 X a
  match log2or10 with
  | .error e => .error e
  | .ok true =>
    if a.m_direction = .TRANSFORM_DIR_FORWARD then
      .ok (.RangeOpData (.value X.zero) .EmptyValue (.value X.zero) .EmptyValue)
    else .ok .MatrixOpData
  | .ok false =>
    if a.m_direction = .TRANSFORM_DIR_FORWARD then
      match paramAt a.m_redParams X.LIN_SIDE_OFFSET with
      | .error e => .error e
      | .ok linSideOffset =>
        match paramAt a.m_redParams X.LIN_SIDE_SLOPE with
        | .error e => .error e
        | .ok linSideSlope =>
          let minValue := X.div (X.neg linSideOffset) linSideSlope
          .ok (.RangeOpData (.value minValue) .EmptyValue (.value minValue) .EmptyValue)
    else .ok .MatrixOpData


end LogOpData


/-- A stand-in for the arithmetic of `double`, to evaluate the definitions on explicit
values: a value is a rational number, computed exactly, or the not-a-number `none`, which
compares unequal to everything, itself included, and is not `<=` anything; a division by
zero gives the not-a-number.  It agrees with the arithmetic of `double` wherever the exact
result is a `double` and neither an infinity nor a signed zero is involved.
`IsScalarEqualToZero` is the comparison with `0.0`; the four parameters stand in the order
`LOG_SIDE_SLOPE`, `LOG_SIDE_OFFSET`, `LIN_SIDE_SLOPE`, `LIN_SIDE_OFFSET`. -/
def exactDouble : DoubleOps (Option ℚ) where
  eq := fun x y =>
    match x, y with
    | some p, some q => decide (p = q)
    | _, _ => false
  le := fun x y =>
    match x, y with
    | some p, some q => decide (p ≤ q)
    | _, _ => false
  neg := fun x => x.map (fun p => -p)
  div := fun x y =>
    match x, y with
    | some p, some q => if q = 0 then none else some (p / q)
    | _, _ => none
  zero := some 0
  one := some 1
  two := some 2
  ten := some 10
  IsScalarEqualToZero := fun x =>
    match x with
    | some p => decide (p = 0)
    | none => false
  LOG_SIDE_SLOPE := 0
  LOG_SIDE_OFFSET := 1
  LIN_SIDE_SLOPE := 2
  LIN_SIDE_OFFSET := 3

/-- The Log with the default parameters (slopes 1, offsets 0 on the three channels) and the
given base and direction, as the two-argument constructor of `LogOpData` builds it (lines
66-78). -/
def defaultLog (base : Option ℚ) (direction : TransformDirection) : LogOpData (Option ℚ) :=
  ⟨[some 1, some 0, some 1, some 0], [some 1, some 0, some 1, some 0],
    [some 1, some 0, some 1, some 0], base, direction⟩


/-! ## String helpers (`ParseUtils.cpp`)

A `std::string` is a `String`.  The functions of the pystring library that `ParseUtils.cpp`
calls are written out after the Python string methods they reproduce. -/

namespace pystring

/-- `pystring::lower`: every upper-case letter `A`..`Z` replaced by its lower-case letter,
the other characters kept. -/
def lower (str : String) : String :=
  ⟨str.data.map Char.toLower⟩

/-- The white space of `::isspace`: space, `\t`, `\n`, `\v`, `\f`, `\r`. -/
def isspace (c : Char) : Bool :=
  c = ' ' || c = '\t' || c = '\n' || c = '\x0b' || c = '\x0c' || c = '\r'

/-- `pystring::strip(str)`: `str` without its leading and trailing white space. -/
def strip (str : String) : String :=
  ⟨(str.data.dropWhile isspace).rdropWhile isspace⟩

/-- The search of `pystring::find` from position `i` on, over the characters from there. -/
def findFrom (sub : List Char) : List Char → Nat → Int
  | [], i => if sub = [] then (i : Int) else -1
  | c :: rest, i =>
    if sub.isPrefixOf (c :: rest) then (i : Int) else findFrom sub rest (i + 1)

/-- `pystring::find(str, sub)`: the lowest position where `sub` occurs in `str`, or -1. -/
def find (str sub : String) : Int :=
  findFrom sub.data str.data 0

/-- The loop of `pystring::split` for a separator that is not empty: the characters still
to read, the number of characters of a separator just met that are still to skip, and the
piece being read (last character first). -/
def splitAux (sep : List Char) : List Char → Nat → List Char → List String
  | [], _, cur => [⟨cur.reverse⟩]
  | _ :: rest, skip + 1, cur => splitAux sep rest skip cur
  | c :: rest, 0, cur =>
    if sep.isPrefixOf (c :: rest) then
      ⟨cur.reverse⟩ :: splitAux sep rest (sep.length - 1) []
    else splitAux sep rest 0 (c :: cur)

/-- `pystring::split(str, result, sep)` for a separator that is not empty: `result` is
cleared and receives the pieces of `str` between the occurrences of `sep`, in order (one
piece more than there are occurrences). -/
def split (str sep : String) : List String :=
  splitAux sep.data str.data 0 []

end pystring

/-- `TransformDirectionToString` (lines 88-93). -/
def TransformDirectionToString (dir : TransformDirection) : String :=
  if dir = .TRANSFORM_DIR_FORWARD then "forward"
  else if dir = .TRANSFORM_DIR_INVERSE then "inverse"
  else "unknown"

/-- `TransformDirectionFromString` (lines 95-101). -/
def TransformDirectionFromString (s : String) : TransformDirection :=
  let str := pystring.lower s
  if str = "forward" then .TRANSFORM_DIR_FORWARD
  else if str = "inverse" then .TRANSFORM_DIR_INVERSE
  else .TRANSFORM_DIR_UNKNOWN

/-- Modelled from the spec: `ExposureContrastStyle` (declared in `OpenColorTypes.h`). -/
inductive ExposureContrastStyle where
  | EXPOSURE_CONTRAST_LINEAR
  | EXPOSURE_CONTRAST_VIDEO
  | EXPOSURE_CONTRAST_LOGARITHMIC
  deriving DecidableEq, Repr

/-- The constant `EC_STYLE_VIDEO` (line 316). -/
def EC_STYLE_VIDEO : String := "video"

/-- The constant `EC_STYLE_LOGARITHMIC` (line 317). -/
def EC_STYLE_LOGARITHMIC : String := "log"

/-- The constant `EC_STYLE_LINEAR` (line 318). -/
def EC_STYLE_LINEAR : String := "linear"

/-- `ExposureContrastStyleToString` (lines 321-332).  The `throw` after the `switch` is
reached only by a value outside of the enumeration. -/
def ExposureContrastStyleToString (style : ExposureContrastStyle) : String :=
  match style with
  | .EXPOSURE_CONTRAST_VIDEO => EC_STYLE_VIDEO
  | .EXPOSURE_CONTRAST_LOGARITHMIC => EC_STYLE_LOGARITHMIC
  | .EXPOSURE_CONTRAST_LINEAR => EC_STYLE_LINEAR

/-- `ExposureContrastStyleFromString` (lines 334-347). -/
def ExposureContrastStyleFromString (style : String) :
    Except Failure ExposureContrastStyle :=
  let str := pystring.lower style
  if str = EC_STYLE_LINEAR then .ok .EXPOSURE_CONTRAST_LINEAR
  else if str = EC_STYLE_VIDEO then .ok .EXPOSURE_CONTRAST_VIDEO
  else if str = EC_STYLE_LOGARITHMIC then .ok .EXPOSURE_CONTRAST_LOGARITHMIC
  else .error (.exception ("Unknown exposure contrast style: " ++ style))

/-- `SplitStringEnvStyle` (lines 514-536): the vector `outputvec` after the call; `str` is
`none` for the null pointer. -/
def SplitStringEnvStyle (outputvec : List String) (str : Option String) : List String :=
  match str with
  | none => outputvec
  | some str =>
    let s := pystring.strip str
    let outputvec1 :=
      if pystring.find s "," > -1 then pystring.split s ","
      else if pystring.find s ":" > -1 then pystring.split s ":"
      else outputvec ++ [s]
    outputvec1.map pystring.strip

/-- `IntersectStringVecsCaseIgnore` (lines 546-568).  The `std::set` `allvalues` is kept as
the list of the keys inserted; `find` succeeds on a key exactly when it was inserted. -/
def IntersectStringVecsCaseIgnore (vec1 vec2 : List String) : List String :=
  let allvalues : List String :=
    vec2.foldl (fun set v => if pystring.lower v ∈ set then set else set ++ [pystring.lower v]) []
  vec1.foldl
    (fun newvec v => if pystring.lower v ∈ allvalues then newvec ++ [v] else newvec) []


/-- `CombineTransformDirections` (`ParseUtils.cpp`, lines 103-117). -/
def CombineTransformDirections (d1 d2 : TransformDirection) : TransformDirection :=
  if d1 = .TRANSFORM_DIR_UNKNOWN ∨ d2 = .TRANSFORM_DIR_UNKNOWN then .TRANSFORM_DIR_UNKNOWN
  else if d1 = .TRANSFORM_DIR_FORWARD ∧ d2 = .TRANSFORM_DIR_FORWARD then .TRANSFORM_DIR_FORWARD
  else if d1 = .TRANSFORM_DIR_INVERSE ∧ d2 = .TRANSFORM_DIR_INVERSE then .TRANSFORM_DIR_FORWARD
  else .TRANSFORM_DIR_INVERSE

/-- Modelled from the spec: `Interpolation` (declared in `OpenColorTypes.h`), with the values
`ParseUtils.cpp` names. -/
inductive Interpolation where
  | INTERP_UNKNOWN
  | INTERP_NEAREST
  | INTERP_LINEAR
  | INTERP_TETRAHEDRAL
  | INTERP_DEFAULT
  | INTERP_BEST
  deriving DecidableEq, Repr

/-- `InterpolationToString` (`ParseUtils.cpp`, lines 202-210). -/
def InterpolationToString (interp : Interpolation) : String :=
  if interp = .INTERP_NEAREST then "nearest"
  else if interp = .INTERP_LINEAR then "linear"
  else if interp = .INTERP_TETRAHEDRAL then "tetrahedral"
  else if interp = .INTERP_BEST then "best"
  else if interp = .INTERP_DEFAULT then "default"
  else "unknown"

/-- `InterpolationFromString` (`ParseUtils.cpp`, lines 212-220). -/
def InterpolationFromString (s : String) : Interpolation :=
  let str := pystring.lower s
  if str = "nearest" then .INTERP_NEAREST
  else if str = "linear" then .INTERP_LINEAR
  else if str = "tetrahedral" then .INTERP_TETRAHEDRAL
  else if str = "best" then .INTERP_BEST
  else .INTERP_UNKNOWN


/-- `struct Element` (`ParseUtils.cpp`, lines 16-20). -/
structure Element where
  str : String
  c : Char

/-- The table `elts` (lines 22-28): the five special characters with their XML tokens, and
the entry with the empty token that ends the table. -/
def elts : List Element :=
  [⟨"&quot;", '\x22'⟩, ⟨"&apos;", '\x27'⟩, ⟨"&lt;", '<'⟩, ⟨"&gt;", '>'⟩, ⟨"&amp;", '&'⟩,
    ⟨"", ' '⟩]

/-- The inner loop of `ConvertSpecialCharToXmlToken` (lines 38-47) over the entries from
`idx` on: the token of the first entry holding the character, `none` when the entry with
the empty token is met first (`found` stays false).  The table ends with that entry, so the
loop never runs past its end. -/
def findToken : List Element → Char → Option String
  | [], _ => none
  | elt :: rest, ch =>
    if elt.str = "" then none
    else if ch = elt.c then some elt.str
    else findToken rest ch

/-- `ConvertSpecialCharToXmlToken` (lines 30-54). -/
def ConvertSpecialCharToXmlToken (str : String) : String :=
  str.data.foldl
    (fun res ch =>
      match findToken elts ch with
      | some token => res ++ token
      | none => res.push ch)
    ""


/-- The characters `ConvertSpecialCharToXmlToken` appends to `res` for one character of its
input (lines 37-52). -/
def xmlTokenOf (ch : Char) : List Char :=
  match findToken elts ch with
  | some token => token.data
  | none => [ch]


/-! ## Building the operators of a CTF/CLF file (`fileformats/FileFormatCTF.cpp`, lines
1063-1145) -/

/-- What `BuildOp` uses from outside: the type of an operator data, for a Reference whether
its style is `REF_PATH` and its direction, and the two builders `BuildFileTransformOps`
(called on the forward file transform made for the path of the Reference) and
`CreateOpVecFromOpData`, each giving the vector `ops` after the call or the exception it
throws. -/
structure FileExternals (OpData Op : Type) where
  getType : OpData → OpDataType
  isPathReference : OpData → Bool
  getDirection : OpData → TransformDirection
  BuildFileTransformOps : List Op → OpData → TransformDirection → Except Failure (List Op)
  CreateOpVecFromOpData : List Op → OpData → TransformDirection → Except Failure (List Op)

section FileOps

variable {OpData Op : Type}

/-- `BuildOp` (lines 1063-1093): the vector `ops` after the call. -/
def BuildOp (E : FileExternals OpData Op) (ops : List Op) (opData : OpData)
    (dir : TransformDirection) : Except Failure (List Op) :=
  if E.getType opData = .ReferenceType then
    if E.isPathReference opData then
      E.BuildFileTransformOps ops opData
        (CombineTransformDirections dir (E.getDirection opData))
    else .ok ops
  else E.CreateOpVecFromOpData ops opData dir

/-- The loop of lines 1133-1136 over the operator data still to come. -/
def buildForwardLoop (E : FileExternals OpData Op) (newDir : TransformDirection) :
    List OpData → List Op → Except Failure (List Op)
  | [], ops => .ok ops
  | opData :: rest, ops =>
    match BuildOp E ops opData newDir with
    | .error e => .error e
    | .ok ops1 => buildForwardLoop E newDir rest ops1

/-- The loop of lines 1140-1143; the first argument is `idx + 1` (so `0` stands for
`idx = -1`, where the loop ends). -/
def buildInverseLoop (E : FileExternals OpData Op) (newDir : TransformDirection)
    (opDataVec : List OpData) : Nat → List Op → Except Failure (List Op)
  | 0, ops => .ok ops
  | idx + 1, ops =>
    match opDataVec[idx]? with
    | none => .error .outOfRange
    | some opData =>
      match BuildOp E ops opData newDir with
      | .error e => .error e
      | .ok ops1 => buildInverseLoop E newDir opDataVec idx ops1

/-- `LocalFileFormat::buildFileOps` (lines 1096-1145): the vector `ops` after the call.
`cachedFile` is the result of the cast to `LocalCachedFile`, given by the operator data of
its transform, `none` for the null pointer; `fileTransformDirection` is
`fileTransform.getDirection()`.  The format metadata is not modelled. -/
def buildFileOps (E : FileExternals OpData Op) (ops : List Op)
    (cachedFile : Option (List OpData))
    (fileTransformDirection dir : TransformDirection) : Except Failure (List Op) :=
  match cachedFile with
  | none => .error (.exception "Cannot build clf ops. Invalid cache type.")
  | some opDataVec =>
    let newDir := CombineTransformDirections dir fileTransformDirection
    if newDir = .TRANSFORM_DIR_UNKNOWN then
      .error (.exception
        "Cannot build file format transform, unspecified transform direction.")
    else if newDir = .TRANSFORM_DIR_FORWARD then
      buildForwardLoop E newDir opDataVec ops
    else
      buildInverseLoop E newDir opDataVec opDataVec.length ops

end FileOps

/-- A builder for evaluating `buildFileOps` on explicit files: an operator data is a number,
none is a Reference, and `CreateOpVecFromOpData` appends one operator, recorded as the
number with the direction it was built for. -/
def fileFx : FileExternals Nat (Nat × TransformDirection) where
  getType := fun _ => .MatrixType
  isPathReference := fun _ => false
  getDirection := fun _ => .TRANSFORM_DIR_FORWARD
  BuildFileTransformOps := fun ops _ _ => .ok ops
  CreateOpVecFromOpData := fun ops opData dir => .ok (ops ++ [(opData, dir)])


/-! ## Properties of the pair scans -/

section ScanLemmas

variable {Op : Type}

theorem RemoveInverseOpsLoop_eq_pairScan (I : Externals Op) (oFlags : OptimizationFlags)
    (fuel : Nat) (opVec : List Op) (i : Int) (c : Nat) :
    RemoveInverseOpsLoop I oFlags fuel opVec i c =
      pairScan (isInversePair I oFlags) (inverseRewrite I) fuel opVec i c := by
  induction fuel generalizing opVec i c with
  | zero => rfl
  | succ n ih =>
    unfold RemoveInverseOpsLoop pairScan
    split
    · split
      · simp only [inverseRewrite]
        split
        · split <;> simp [ih]
        · simp [ih]
      · rfl
    · rfl

theorem CombineOpsLoop_eq_pairScan (I : Externals Op) (oFlags : OptimizationFlags)
    (fuel : Nat) (opVec : List Op) (i : Int) (c : Nat) :
    CombineOpsLoop I oFlags fuel opVec i c =
      pairScan (isCombinePair I oFlags) (combineRewrite I) fuel opVec i c := by
  induction fuel generalizing opVec i c with
  | zero => rfl
  | succ n ih =>
    unfold CombineOpsLoop pairScan
    split
    · split
      · simp only [combineRewrite]
        split
        · simp [ih]
        · simp [ih]
      · rfl
    · rfl

theorem pairScan_succ (test : Op → Op → Bool) (rw : List Op → Int → Op → Op → List Op × Int)
    (fuel : Nat) (opVec : List Op) (k c : Nat) :
    pairScan test rw (fuel + 1) opVec (k : Int) c =
      if k + 1 < opVec.length then
        match opVec[k]?, opVec[k + 1]? with
        | some op1, some op2 =>
          if test op1 op2 then
            pairScan test rw fuel (rw opVec k op1 op2).1 (rw opVec k op1 op2).2 (c + 1)
          else pairScan test rw fuel opVec ((k + 1 : Nat) : Int) c
        | _, _ => .error .outOfRange
      else .ok (opVec, c) := by
  have h1 : ((k : Int) < sizeMinusOne opVec.length) ↔ k + 1 < opVec.length := by
    unfold sizeMinusOne; omega
  have h2 : opAt opVec (k : Int) = opVec[k]? := by
    unfold opAt; simp
  have h3 : opAt opVec ((k : Int) + 1) = opVec[k + 1]? := by
    unfold opAt
    have : ¬ ((k : Int) + 1 < 0) := by omega
    simp only [this, if_false]
    congr 1
  rw [pairScan]
  simp only [h1, h2, h3]
  rfl
theorem pairScan_count_le (test : Op → Op → Bool)
    (rw : List Op → Int → Op → Op → List Op × Int) (fuel : Nat) :
    ∀ (opVec : List Op) (i : Int) (c : Nat) (r : List Op) (c' : Nat),
      pairScan test rw fuel opVec i c = .ok (r, c') → c ≤ c' := by
  induction fuel with
  | zero => intro opVec i c r c' h; simp [pairScan] at h
  | succ n ih =>
    intro opVec i c r c' h
    unfold pairScan at h
    split at h
    · split at h
      · split at h
        · have := ih _ _ _ _ _ h; omega
        · exact ih _ _ _ _ _ h
      · simp at h
    · simp only [Except.ok.injEq, Prod.mk.injEq] at h
      omega

theorem pairScan_same_count (test : Op → Op → Bool)
    (rw : List Op → Int → Op → Op → List Op × Int) (fuel : Nat) :
    ∀ (opVec : List Op) (k c : Nat) (r : List Op),
      pairScan test rw fuel opVec (k : Int) c = .ok (r, c) →
        r = opVec ∧ List.Chain' (fun a b => test a b = false) (opVec.drop k) ∧
          opVec.length - k ≤ fuel ∧ 1 ≤ fuel := by
  induction fuel with
  | zero => intro opVec k c r h; simp [pairScan] at h
  | succ n ih =>
    intro opVec k c r h
    rw [pairScan_succ] at h
    by_cases hk : k + 1 < opVec.length
    · have hk0 : k < opVec.length := by omega
      simp only [hk, if_true, List.getElem?_eq_getElem hk, List.getElem?_eq_getElem hk0] at h
      by_cases ht : test opVec[k] opVec[k + 1] = true
      · simp only [ht, if_true] at h
        have := pairScan_count_le test rw n _ _ _ _ _ h
        omega
      · simp only [ht] at h
        obtain ⟨h1, h2, h3, h4⟩ := ih opVec (k + 1) c r h
        refine ⟨h1, ?_, by omega, by omega⟩
        rw [List.drop_eq_getElem_cons hk0]
        rw [List.drop_eq_getElem_cons hk] at h2 ⊢
        rw [List.chain'_cons]
        exact ⟨by simpa using ht, h2⟩
    · simp only [hk, if_false, Except.ok.injEq, Prod.mk.injEq, and_true] at h
      refine ⟨h.symm, ?_, by omega, by omega⟩
      have hl : (opVec.drop k).length ≤ 1 := by simp; omega
      match hd : opVec.drop k, hl with
      | [], _ => exact List.chain'_nil
      | [a], _ => exact List.chain'_singleton a

theorem pairScan_of_chain (test : Op → Op → Bool)
    (rw : List Op → Int → Op → Op → List Op × Int) (fuel : Nat) :
    ∀ (opVec : List Op) (k c : Nat),
      List.Chain' (fun a b => test a b = false) (opVec.drop k) →
      opVec.length - k ≤ fuel → 1 ≤ fuel →
        pairScan test rw fuel opVec (k : Int) c = .ok (opVec, c) := by
  induction fuel with
  | zero => intro opVec k c _ _ h; omega
  | succ n ih =>
    intro opVec k c hc hl _
    rw [pairScan_succ]
    by_cases hk : k + 1 < opVec.length
    · have hk0 : k < opVec.length := by omega
      simp only [hk, if_true, List.getElem?_eq_getElem hk, List.getElem?_eq_getElem hk0]
      rw [List.drop_eq_getElem_cons hk0, List.drop_eq_getElem_cons hk, List.chain'_cons] at hc
      have ht : test opVec[k] opVec[k + 1] = false := hc.1
      simp only [ht]
      apply ih opVec (k + 1) c
      · rw [List.drop_eq_getElem_cons hk]; exact hc.2
      · omega
      · omega
    · simp only [hk, if_false]


theorem getElem?_pair_left (pre post : List Op) (a b : Op) :
    (pre ++ a :: b :: post)[pre.length]? = some a := by
  rw [List.getElem?_append_right (by omega)]
  simp

theorem getElem?_pair_right (pre post : List Op) (a b : Op) :
    (pre ++ a :: b :: post)[pre.length + 1]? = some b := by
  rw [List.getElem?_append_right (by omega)]
  simp

theorem eraseRange_pair (pre post : List Op) (a b : Op) :
    eraseRange (pre ++ a :: b :: post) pre.length (pre.length + 2) = pre ++ post := by
  unfold eraseRange
  rw [List.take_left, List.drop_append]
  simp

theorem eraseAt_set_pair (pre post : List Op) (a b x : Op) :
    eraseAt ((pre ++ a :: b :: post).set pre.length x) (pre.length + 1) =
      pre ++ x :: post := by
  unfold eraseAt eraseRange
  have h1 : (pre ++ a :: b :: post).set pre.length x = (pre ++ [x]) ++ b :: post := by
    simp
  rw [h1]
  have h2 : (pre ++ [x]).length = pre.length + 1 := by simp
  have h3 : (pre ++ [x]).length + 1 = ((pre ++ [x]) ++ [b]).length := by simp
  have h4 : (pre ++ [x]) ++ b :: post = ((pre ++ [x]) ++ [b]) ++ post := by simp
  rw [← h2, List.take_left, h3, h4, List.drop_left]
  simp

theorem pred_cast (k : Nat) : max (0 : Int) ((k : Int) - 1) = ((k - 1 : Nat) : Int) := by
  omega

theorem RemoveInverseOpsLoop_done (I : Externals Op) (oFlags : OptimizationFlags)
    (fuel : Nat) (opVec : List Op) (k c : Nat) (h : opVec.length ≤ k + 1) :
    RemoveInverseOpsLoop I oFlags (fuel + 1) opVec (k : Int) c = .ok (opVec, c) := by
  rw [RemoveInverseOpsLoop_eq_pairScan, pairScan_succ, if_neg (by omega)]

theorem RemoveInverseOpsLoop_skip (I : Externals Op) (oFlags : OptimizationFlags)
    (fuel : Nat) (pre post : List Op) (a b : Op) (c : Nat)
    (h : isInversePair I oFlags a b = false) :
    RemoveInverseOpsLoop I oFlags (fuel + 1) (pre ++ a :: b :: post) (pre.length : Int) c =
      RemoveInverseOpsLoop I oFlags fuel (pre ++ a :: b :: post)
        ((pre.length + 1 : Nat) : Int) c := by
  rw [RemoveInverseOpsLoop_eq_pairScan, pairScan_succ, if_pos (by simp),
    getElem?_pair_left, getElem?_pair_right, RemoveInverseOpsLoop_eq_pairScan]
  simp [h]

theorem RemoveInverseOpsLoop_erase (I : Externals Op) (oFlags : OptimizationFlags)
    (fuel : Nat) (pre post : List Op) (a b : Op) (c : Nat)
    (h : isInversePair I oFlags a b = true)
    (hn : I.isNoOp (I.getIdentityReplacement a) = true) :
    RemoveInverseOpsLoop I oFlags (fuel + 1) (pre ++ a :: b :: post) (pre.length : Int) c =
      RemoveInverseOpsLoop I oFlags fuel (pre ++ post) ((pre.length - 1 : Nat) : Int)
        (c + 1) := by
  rw [RemoveInverseOpsLoop_eq_pairScan, pairScan_succ, if_pos (by simp),
    getElem?_pair_left, getElem?_pair_right, RemoveInverseOpsLoop_eq_pairScan]
  simp only [h, if_true, inverseRewrite, hn, Int.toNat_ofNat, eraseRange_pair, pred_cast]

theorem RemoveInverseOpsLoop_replace (I : Externals Op) (oFlags : OptimizationFlags)
    (fuel : Nat) (pre post : List Op) (a b : Op) (c : Nat)
    (h : isInversePair I oFlags a b = true)
    (hn : I.isNoOp (I.getIdentityReplacement a) = false) :
    RemoveInverseOpsLoop I oFlags (fuel + 1) (pre ++ a :: b :: post) (pre.length : Int) c =
      RemoveInverseOpsLoop I oFlags fuel (pre ++ I.getIdentityReplacement a :: post)
        ((pre.length + 1 : Nat) : Int) (c + 1) := by
  rw [RemoveInverseOpsLoop_eq_pairScan, pairScan_succ, if_pos (by simp),
    getElem?_pair_left, getElem?_pair_right, RemoveInverseOpsLoop_eq_pairScan]
  simp only [h, if_true, inverseRewrite, hn, Int.toNat_ofNat, eraseAt_set_pair]
  simp

/-- A nest `A1 ... An An' ... A1'` standing between `pre` and `post`, with the cursor on
`A1`, collapses within the scan: `2n - 1` iterations later the chain is `pre ++ post`, the
cursor stands one before the place of the nest and `n` rewrites were counted. -/
theorem RemoveInverseOpsLoop_nest (I : Externals Op) (oFlags : OptimizationFlags) :
    ∀ (pairs : List (Op × Op)), pairs ≠ [] →
      (∀ p ∈ pairs, isInversePair I oFlags p.1 p.2 = true) →
      (∀ p ∈ pairs, I.isNoOp (I.getIdentityReplacement p.1) = true) →
      List.Chain' (fun p q => isInversePair I oFlags p.1 q.1 = false) pairs →
      ∀ (fuel : Nat) (pre post : List Op) (c : Nat),
        RemoveInverseOpsLoop I oFlags (fuel + (2 * pairs.length - 1))
            (pre ++ (pairs.map Prod.fst ++ (pairs.map Prod.snd).reverse) ++ post)
            (pre.length : Int) c =
          RemoveInverseOpsLoop I oFlags fuel (pre ++ post) ((pre.length - 1 : Nat) : Int)
            (c + pairs.length) := by
  intro pairs
  induction pairs with
  | nil => intro h; exact absurd rfl h
  | cons p rest ih =>
    intro _ hinv hnoop hchain fuel pre post c
    have hp := hinv p (List.mem_cons_self _ _)
    have hpn := hnoop p (List.mem_cons_self _ _)
    cases rest with
    | nil =>
      simp only [List.map_cons, List.map_nil, List.reverse_cons, List.reverse_nil,
        List.nil_append, List.length_singleton, List.singleton_append, List.append_assoc,
        List.cons_append]
      exact RemoveInverseOpsLoop_erase I oFlags fuel pre post p.1 p.2 c hp hpn
    | cons q rest2 =>
      have hih := ih (by simp)
        (fun x hx => hinv x (List.mem_cons_of_mem _ hx))
        (fun x hx => hnoop x (List.mem_cons_of_mem _ hx))
        (List.Chain'.tail hchain)
      have hpq : isInversePair I oFlags p.1 q.1 = false := by
        rw [List.chain'_cons] at hchain; exact hchain.1
      have hlen : fuel + (2 * (p :: q :: rest2).length - 1) =
          ((fuel + 1) + (2 * (q :: rest2).length - 1)) + 1 := by
        simp only [List.length_cons]; omega
      have hshape : pre ++ ((p :: q :: rest2).map Prod.fst ++
            ((p :: q :: rest2).map Prod.snd).reverse) ++ post =
          pre ++ p.1 :: q.1 :: (rest2.map Prod.fst ++
            ((q :: rest2).map Prod.snd).reverse ++ p.2 :: post) := by
        simp
      have hshape2 : pre ++ p.1 :: q.1 :: (rest2.map Prod.fst ++
            ((q :: rest2).map Prod.snd).reverse ++ p.2 :: post) =
          (pre ++ [p.1]) ++ ((q :: rest2).map Prod.fst ++
            ((q :: rest2).map Prod.snd).reverse) ++ (p.2 :: post) := by
        simp
      rw [hlen, hshape, RemoveInverseOpsLoop_skip I oFlags _ pre _ p.1 q.1 c hpq, hshape2]
      have hcur : ((pre.length + 1 : Nat) : Int) = (((pre ++ [p.1]).length : Nat) : Int) := by
        simp
      rw [hcur, hih (fuel + 1) (pre ++ [p.1]) (p.2 :: post) c]
      have hback : (pre ++ [p.1]).length - 1 = pre.length := by simp
      have hshape3 : (pre ++ [p.1]) ++ p.2 :: post = pre ++ p.1 :: p.2 :: post := by simp
      rw [hback, hshape3, RemoveInverseOpsLoop_erase I oFlags fuel pre post p.1 p.2 _ hp hpn]
      simp only [List.length_cons, Nat.add_assoc]


end ScanLemmas

/-! ## Properties of the element-wise rules -/

section RuleLemmas

variable {Op : Type}

theorem RemoveNoOpTypes_eq_filter (I : Externals Op) (ops : List Op) :
    RemoveNoOpTypes I ops = ops.filter (fun o => I.getType o != .NoOpType) := by
  induction ops with
  | nil => rfl
  | cons o rest ih =>
    by_cases h : I.getType o = .NoOpType
    · simp [RemoveNoOpTypes, h, ih]
    · simp [RemoveNoOpTypes, h, ih]

theorem RemoveNoOpTypes_of_forall (I : Externals Op) (ops : List Op)
    (h : ∀ o ∈ ops, I.getType o ≠ .NoOpType) : RemoveNoOpTypes I ops = ops := by
  rw [RemoveNoOpTypes_eq_filter, List.filter_eq_self]
  intro o ho
  simpa using h o ho

theorem RemoveNoOps_zero (I : Externals Op) (ops : List Op) :
    (RemoveNoOps I ops).2 = 0 ↔ ∀ o ∈ ops, I.isNoOp o = false := by
  induction ops with
  | nil => simp [RemoveNoOps]
  | cons o rest ih =>
    by_cases h : I.isNoOp o = true
    · simp [RemoveNoOps, h]
    · simp only [Bool.not_eq_true] at h
      simp [RemoveNoOps, h, ih]

theorem RemoveNoOps_of_forall (I : Externals Op) (ops : List Op)
    (h : ∀ o ∈ ops, I.isNoOp o = false) : RemoveNoOps I ops = (ops, 0) := by
  induction ops with
  | nil => rfl
  | cons o rest ih =>
    have h1 : I.isNoOp o = false := h o (List.mem_cons_self _ _)
    have h2 := ih (fun x hx => h x (List.mem_cons_of_mem _ hx))
    simp [RemoveNoOps, h1, h2]

theorem ReplaceIdentityOpsLoop_zero (I : Externals Op) (a b : Bool) (ops : List Op) :
    (ReplaceIdentityOpsLoop I a b ops).2 = 0 ↔ ∀ o ∈ ops, replacesIdentity I a b o = false := by
  induction ops with
  | nil => simp [ReplaceIdentityOpsLoop]
  | cons o rest ih =>
    by_cases h : replacesIdentity I a b o = true
    · simp [ReplaceIdentityOpsLoop, h]
    · simp only [Bool.not_eq_true] at h
      simp [ReplaceIdentityOpsLoop, h, ih]

theorem ReplaceIdentityOpsLoop_of_forall (I : Externals Op) (a b : Bool) (ops : List Op)
    (h : ∀ o ∈ ops, replacesIdentity I a b o = false) :
    ReplaceIdentityOpsLoop I a b ops = (ops, 0) := by
  induction ops with
  | nil => rfl
  | cons o rest ih =>
    have h1 : replacesIdentity I a b o = false := h o (List.mem_cons_self _ _)
    have h2 := ih (fun x hx => h x (List.mem_cons_of_mem _ hx))
    simp [ReplaceIdentityOpsLoop, h1, h2]

/-- The entries `ReplaceIdentityOps` would replace under the flags `oFlags`. -/
theorem ReplaceIdentityOps_zero (I : Externals Op) (ops : List Op) (oFlags : OptimizationFlags) :
    (ReplaceIdentityOps I ops oFlags).2 = 0 ↔
      ∀ o ∈ ops, replacesIdentity I (HasFlag oFlags I.OPTIMIZATION_IDENTITY)
        (HasFlag oFlags I.OPTIMIZATION_IDENTITY_GAMMA) o = false := by
  unfold ReplaceIdentityOps
  by_cases h : (HasFlag oFlags I.OPTIMIZATION_IDENTITY ||
      HasFlag oFlags I.OPTIMIZATION_IDENTITY_GAMMA) = true
  · simp only [h, if_true]
    exact ReplaceIdentityOpsLoop_zero I _ _ ops
  · simp only [h]
    simp only [Bool.or_eq_true, not_or, Bool.not_eq_true] at h
    simp [replacesIdentity, h.1, h.2]

theorem ReplaceIdentityOps_of_forall (I : Externals Op) (ops : List Op)
    (oFlags : OptimizationFlags)
    (h : ∀ o ∈ ops, replacesIdentity I (HasFlag oFlags I.OPTIMIZATION_IDENTITY)
        (HasFlag oFlags I.OPTIMIZATION_IDENTITY_GAMMA) o = false) :
    ReplaceIdentityOps I ops oFlags = (ops, 0) := by
  unfold ReplaceIdentityOps
  dsimp only
  split
  · exact ReplaceIdentityOpsLoop_of_forall I _ _ ops h
  · rfl

theorem RemoveInverseOps_same_count (I : Externals Op) (fuel : Nat) (ops r : List Op)
    (oFlags : OptimizationFlags) (h : RemoveInverseOps I fuel ops oFlags = .ok (r, 0)) :
    r = ops ∧ List.Chain' (fun a b => isInversePair I oFlags a b = false) ops ∧
      ops.length ≤ fuel ∧ 1 ≤ fuel := by
  unfold RemoveInverseOps at h
  rw [RemoveInverseOpsLoop_eq_pairScan] at h
  simpa using pairScan_same_count _ _ fuel ops 0 0 r h

theorem RemoveInverseOps_of_chain (I : Externals Op) (fuel : Nat) (ops : List Op)
    (oFlags : OptimizationFlags)
    (hc : List.Chain' (fun a b => isInversePair I oFlags a b = false) ops)
    (hl : ops.length ≤ fuel) (h1 : 1 ≤ fuel) :
    RemoveInverseOps I fuel ops oFlags = .ok (ops, 0) := by
  unfold RemoveInverseOps
  rw [RemoveInverseOpsLoop_eq_pairScan]
  exact pairScan_of_chain _ _ fuel ops 0 0 (by simpa using hc) (by simpa using hl) h1

theorem CombineOps_same_count (I : Externals Op) (fuel : Nat) (ops r : List Op)
    (oFlags : OptimizationFlags) (h : CombineOps I fuel ops oFlags = .ok (r, 0)) :
    r = ops ∧ List.Chain' (fun a b => isCombinePair I oFlags a b = false) ops ∧
      ops.length ≤ fuel ∧ 1 ≤ fuel := by
  unfold CombineOps at h
  rw [CombineOpsLoop_eq_pairScan] at h
  simpa using pairScan_same_count _ _ fuel ops 0 0 r h

theorem CombineOps_of_chain (I : Externals Op) (fuel : Nat) (ops : List Op)
    (oFlags : OptimizationFlags)
    (hc : List.Chain' (fun a b => isCombinePair I oFlags a b = false) ops)
    (hl : ops.length ≤ fuel) (h1 : 1 ≤ fuel) :
    CombineOps I fuel ops oFlags = .ok (ops, 0) := by
  unfold CombineOps
  rw [CombineOpsLoop_eq_pairScan]
  exact pairScan_of_chain _ _ fuel ops 0 0 (by simpa using hc) (by simpa using hl) h1

/-- What it means for a chain to be a fixed point of the four loop rules under `oFlags`,
in terms of its entries and adjacent pairs. -/
theorem OptimizeLoop_fixed (I : Externals Op) (fuel : Nat) (oFlags : OptimizationFlags)
    (n : Nat) :
    ∀ (ops : List Op) (passes : Nat) (r : List Op) (p : Nat),
      OptimizeLoop I fuel oFlags n ops passes = .ok (r, p) → p ≤ MAX_OPTIMIZATION_PASSES →
        (HasFlag oFlags I.OPTIMIZATION_IDENTITY = true → ∀ o ∈ r, I.isNoOp o = false) ∧
        (∀ o ∈ r, replacesIdentity I (HasFlag oFlags I.OPTIMIZATION_IDENTITY)
          (HasFlag oFlags I.OPTIMIZATION_IDENTITY_GAMMA) o = false) ∧
        List.Chain' (fun a b => isInversePair I oFlags a b = false) r ∧
        List.Chain' (fun a b => isCombinePair I oFlags a b = false) r ∧
        r.length ≤ fuel ∧ 1 ≤ fuel := by
  induction n with
  | zero => intro ops passes r p h; simp [OptimizeLoop] at h
  | succ n ih =>
    intro ops passes r p h hp
    unfold OptimizeLoop at h
    dsimp only at h
    generalize hN : (if HasFlag oFlags I.OPTIMIZATION_IDENTITY = true then RemoveNoOps I ops
      else (ops, 0)) = N at h
    generalize hR : ReplaceIdentityOps I N.1 oFlags = R at h
    by_cases hpass : passes ≤ MAX_OPTIMIZATION_PASSES
    · rw [if_pos hpass] at h
      cases hinv : RemoveInverseOps I fuel R.1 oFlags with
      | error e => rw [hinv] at h; simp at h
      | ok inverseops =>
        rw [hinv] at h
        dsimp only at h
        cases hcomb : CombineOps I fuel inverseops.1 oFlags with
        | error e => rw [hcomb] at h; simp at h
        | ok combines =>
          rw [hcomb] at h
          dsimp only at h
          by_cases hsum : (N.2 + R.2 + inverseops.2 + combines.2 == 0) = true
          · rw [if_pos hsum] at h
            simp only [beq_iff_eq, Nat.add_eq_zero_iff] at hsum
            obtain ⟨⟨⟨hs1, hs2⟩, hs3⟩, hs4⟩ := hsum
            simp only [Except.ok.injEq, Prod.mk.injEq] at h
            obtain ⟨hr, _⟩ := h
            have hc := CombineOps_same_count I fuel inverseops.1 combines.1 oFlags
              (by rw [hcomb, ← hs4])
            have hi := RemoveInverseOps_same_count I fuel R.1 inverseops.1 oFlags
              (by rw [hinv, ← hs3])
            have hid := (ReplaceIdentityOps_zero I N.1 oFlags).1 (by rw [hR]; exact hs2)
            have eR : R.1 = N.1 := by
              rw [← hR, ReplaceIdentityOps_of_forall I N.1 oFlags hid]
            have eN : N.1 = ops ∧
                (HasFlag oFlags I.OPTIMIZATION_IDENTITY = true → ∀ o ∈ ops, I.isNoOp o = false) := by
              by_cases hflag : HasFlag oFlags I.OPTIMIZATION_IDENTITY = true
              · rw [if_pos hflag] at hN
                have hno := (RemoveNoOps_zero I ops).1 (by rw [hN]; exact hs1)
                rw [RemoveNoOps_of_forall I ops hno] at hN
                exact ⟨by rw [← hN], fun _ => hno⟩
              · rw [if_neg hflag] at hN
                exact ⟨by rw [← hN], fun hcontra => absurd hcontra hflag⟩
            have er : r = ops := by rw [← hr, hc.1, hi.1, eR, eN.1]
            have e1 : inverseops.1 = ops := by rw [hi.1, eR, eN.1]
            have e2 : R.1 = ops := by rw [eR, eN.1]
            rw [eN.1] at hid
            rw [e2] at hi
            rw [e1] at hc
            subst er
            exact ⟨eN.2, hid, hi.2.1, hc.2.1, hc.2.2.1, hc.2.2.2⟩
          · rw [if_neg hsum] at h
            exact ih _ _ _ _ h hp
    · rw [if_neg hpass] at h
      simp only [Except.ok.injEq, Prod.mk.injEq] at h
      omega

theorem OptimizeLoop_of_fixed (I : Externals Op) (fuel : Nat) (oFlags : OptimizationFlags)
    (n : Nat) (ops : List Op) (passes : Nat)
    (hp : passes ≤ MAX_OPTIMIZATION_PASSES)
    (hno : HasFlag oFlags I.OPTIMIZATION_IDENTITY = true → ∀ o ∈ ops, I.isNoOp o = false)
    (hid : ∀ o ∈ ops, replacesIdentity I (HasFlag oFlags I.OPTIMIZATION_IDENTITY)
      (HasFlag oFlags I.OPTIMIZATION_IDENTITY_GAMMA) o = false)
    (hinv : List.Chain' (fun a b => isInversePair I oFlags a b = false) ops)
    (hcomb : List.Chain' (fun a b => isCombinePair I oFlags a b = false) ops)
    (hl : ops.length ≤ fuel) (h1 : 1 ≤ fuel) :
    OptimizeLoop I fuel oFlags (n + 1) ops passes = .ok (ops, passes) := by
  have eN : (if HasFlag oFlags I.OPTIMIZATION_IDENTITY = true then RemoveNoOps I ops
      else (ops, 0)) = (ops, 0) := by
    by_cases hflag : HasFlag oFlags I.OPTIMIZATION_IDENTITY = true
    · rw [if_pos hflag]; exact RemoveNoOps_of_forall I ops (hno hflag)
    · rw [if_neg hflag]
  unfold OptimizeLoop
  dsimp only
  rw [if_pos hp, eN]
  dsimp only
  rw [ReplaceIdentityOps_of_forall I ops oFlags hid]
  dsimp only
  rw [RemoveInverseOps_of_chain I fuel ops oFlags hinv hl h1]
  dsimp only
  rw [CombineOps_of_chain I fuel ops oFlags hcomb hl h1]
  simp


theorem RemoveDynamicProperties_of_forall (I : Externals Op) (ops : List Op)
    (h : ∀ o ∈ ops, I.isDynamic o = false) : RemoveDynamicProperties I ops = ops := by
  unfold RemoveDynamicProperties
  conv_rhs => rw [← List.map_id ops]
  apply List.map_congr_left
  intro o ho
  simp [h o ho]

theorem leadingClampCount_eq (I : Externals Op) (ops : List Op) :
    leadingClampCount I ops = (ops.takeWhile (isClampIdentity I)).length := by
  induction ops with
  | nil => rfl
  | cons o rest ih =>
    by_cases h : isClampIdentity I o = true
    · simp [leadingClampCount, List.takeWhile, h, ih]
    · simp only [Bool.not_eq_true] at h
      simp [leadingClampCount, List.takeWhile, h]

theorem drop_takeWhile_length (p : Op → Bool) (ops : List Op) :
    ops.drop (ops.takeWhile p).length = ops.dropWhile p := by
  induction ops with
  | nil => rfl
  | cons o rest ih =>
    by_cases h : p o = true
    · simp [List.takeWhile, List.dropWhile, h, ih]
    · simp only [Bool.not_eq_true] at h
      simp [List.takeWhile, List.dropWhile, h]

theorem RemoveLeadingClampIdentity_eq (I : Externals Op) (ops : List Op) :
    RemoveLeadingClampIdentity I ops =
      (ops.dropWhile (isClampIdentity I), (ops.takeWhile (isClampIdentity I)).length) := by
  unfold RemoveLeadingClampIdentity eraseRange
  dsimp only
  rw [leadingClampCount_eq]
  by_cases h : (ops.takeWhile (isClampIdentity I)).length = 0
  · have h2 := drop_takeWhile_length (isClampIdentity I) ops
    rw [h] at h2
    simp only [List.drop_zero] at h2
    simp [h, ← h2]
  · simp [h, drop_takeWhile_length]

theorem trailingClampLoop_eq (I : Externals Op) (opVec : List Op) :
    ∀ (k c : Nat), k ≤ opVec.length →
      trailingClampLoop I opVec k c =
        .ok (c + ((opVec.take k).rtakeWhile (isClampIdentity I)).length,
          ((opVec.take k).rdropWhile (isClampIdentity I)).length) := by
  intro k
  induction k with
  | zero => intro c _; simp [trailingClampLoop, List.rtakeWhile, List.rdropWhile]
  | succ k ih =>
    intro c hk
    have hk0 : k < opVec.length := by omega
    have htake : opVec.take (k + 1) = opVec.take k ++ [opVec[k]] := by
      rw [List.take_succ, List.getElem?_eq_getElem hk0]; rfl
    unfold trailingClampLoop
    rw [List.getElem?_eq_getElem hk0]
    dsimp only
    by_cases h : isClampIdentity I opVec[k] = true
    · rw [if_pos h, ih (c + 1) (by omega), htake, List.rtakeWhile_concat_pos _ _ _ h,
        List.rdropWhile_concat_pos _ _ _ h]
      simp only [List.length_append, List.length_singleton, Except.ok.injEq, Prod.mk.injEq,
        and_true]
      omega
    · rw [if_neg h, htake, List.rtakeWhile_concat_neg _ _ _ h,
        List.rdropWhile_concat_neg _ _ _ h]
      simp [List.length_take]
      omega

theorem RemoveTrailingClampIdentity_eq (I : Externals Op) (ops : List Op) :
    RemoveTrailingClampIdentity I ops =
      .ok (ops.rdropWhile (isClampIdentity I), (ops.rtakeWhile (isClampIdentity I)).length) := by
  unfold RemoveTrailingClampIdentity
  rw [trailingClampLoop_eq I ops ops.length 0 (Nat.le_refl _)]
  simp only [List.take_length, Nat.zero_add]
  have hsplit : ops.rdropWhile (isClampIdentity I) ++ ops.rtakeWhile (isClampIdentity I) = ops := by
    unfold List.rdropWhile List.rtakeWhile
    rw [← List.reverse_append, List.takeWhile_append_dropWhile, List.reverse_reverse]
  by_cases h : (ops.rtakeWhile (isClampIdentity I)).length = 0
  · have h0 : ops.rtakeWhile (isClampIdentity I) = [] := List.length_eq_zero.1 h
    rw [h0] at hsplit
    simp only [List.append_nil] at hsplit
    simp [h, hsplit]
  · have hne : ((ops.rtakeWhile (isClampIdentity I)).length != 0) = true := by simpa using h
    simp only [hne, if_true, Except.ok.injEq, Prod.mk.injEq, and_true]
    unfold eraseRange
    rw [List.drop_length, List.append_nil]
    exact (List.prefix_iff_eq_take.1 (List.rdropWhile_prefix _ _)).symm


/-- The test of the first loop of `FindSeparablePrefix`: no crosstalk and not dynamic. -/
theorem separablePrefixLen_eq (I : Externals Op) (ops : List Op) :
    separablePrefixLen I ops =
      (ops.takeWhile (fun o => !(I.hasChannelCrosstalk o || I.isDynamic o))).length := by
  induction ops with
  | nil => rfl
  | cons o rest ih =>
    by_cases h : (I.hasChannelCrosstalk o || I.isDynamic o) = true
    · simp [separablePrefixLen, List.takeWhile, h]
    · simp only [Bool.not_eq_true] at h
      simp [separablePrefixLen, List.takeWhile, h, ih]

theorem expensiveOpsLoop_cheap (I : Externals Op) :
    ∀ (ops : List Op) (e : Nat),
      (∀ o ∈ ops.takeWhile (fun o => !(I.hasChannelCrosstalk o || I.isDynamic o)),
        I.getType o = .MatrixType ∨ I.getType o = .RangeType) →
      expensiveOpsLoop I (separablePrefixLen I ops) ops e = .ok e := by
  intro ops
  induction ops with
  | nil => intro e _; rfl
  | cons o rest ih =>
    intro e h
    by_cases hc : (I.hasChannelCrosstalk o || I.isDynamic o) = true
    · simp [separablePrefixLen, hc, expensiveOpsLoop]
    · simp only [Bool.not_eq_true] at hc
      have hc1 : I.hasChannelCrosstalk o = false := by
        simp only [Bool.or_eq_false_iff] at hc; exact hc.1
      have hsep : (fun o => !(I.hasChannelCrosstalk o || I.isDynamic o)) o = true := by
        simp only [hc, Bool.not_false]
      rw [@List.takeWhile_cons_of_pos Op
        (fun o => !(I.hasChannelCrosstalk o || I.isDynamic o)) o rest hsep] at h
      have ho : I.getType o = .MatrixType ∨ I.getType o = .RangeType :=
        h o (List.mem_cons_self _ _)
      have hrest := ih e (fun x hx => h x (List.mem_cons_of_mem _ hx))
      have hlen : separablePrefixLen I (o :: rest) = separablePrefixLen I rest + 1 := by
        show (if (I.hasChannelCrosstalk o || I.isDynamic o) = true then 0
          else separablePrefixLen I rest + 1) = _
        rw [hc]; rfl
      rw [hlen]
      unfold expensiveOpsLoop
      rw [hc1]
      simp only [Bool.false_eq_true, if_false]
      rcases ho with ho | ho <;> rw [ho] <;> exact hrest

theorem FindSeparablePrefix_cheap (I : Externals Op) (ops : List Op)
    (h : ∀ o ∈ ops.takeWhile (fun o => !(I.hasChannelCrosstalk o || I.isDynamic o)),
      I.getType o = .MatrixType ∨ I.getType o = .RangeType) :
    FindSeparablePrefix I ops = .ok 0 := by
  unfold FindSeparablePrefix
  dsimp only
  rw [expensiveOpsLoop_cheap I ops 0 h]
  split
  · rfl
  · simp

theorem OptimizeSeparablePrefix_of_zero (I : Externals Op) (ops : List Op)
    (inBitDepth : BitDepth) (h : FindSeparablePrefix I ops = .ok 0) :
    OptimizeSeparablePrefix I ops inBitDepth = .ok ops := by
  unfold OptimizeSeparablePrefix
  rw [h]
  split
  · rfl
  · split
    · rfl
    · simp

theorem FindSeparablePrefix_single_forward_lut (I : Externals Op) (lut : Op)
    (ht : I.getType lut = .Lut1DType)
    (hd : I.getDirection lut = .TRANSFORM_DIR_FORWARD) :
    FindSeparablePrefix I [lut] = .ok 0 := by
  unfold FindSeparablePrefix
  dsimp only
  by_cases hc : (I.hasChannelCrosstalk lut || I.isDynamic lut) = true
  · simp [separablePrefixLen, hc, expensiveOpsLoop]
  · simp only [Bool.not_eq_true] at hc
    simp [separablePrefixLen, hc, ht, hd]

/-- One round of the loop of `OptimizeOpVec`, given what the four rules return. -/
theorem OptimizeLoop_round (I : Externals Op) (fuel : Nat) (oFlags : OptimizationFlags)
    (n : Nat) (ops ops1 ops2 ops3 ops4 : List Op) (passes c1 c2 c3 c4 : Nat)
    (hp : passes ≤ MAX_OPTIMIZATION_PASSES)
    (h1 : (if HasFlag oFlags I.OPTIMIZATION_IDENTITY = true then RemoveNoOps I ops
      else (ops, 0)) = (ops1, c1))
    (h2 : ReplaceIdentityOps I ops1 oFlags = (ops2, c2))
    (h3 : RemoveInverseOps I fuel ops2 oFlags = .ok (ops3, c3))
    (h4 : CombineOps I fuel ops3 oFlags = .ok (ops4, c4)) :
    OptimizeLoop I fuel oFlags (n + 1) ops passes =
      if c1 + c2 + c3 + c4 = 0 then .ok (ops4, passes)
      else OptimizeLoop I fuel oFlags n ops4 (passes + 1) := by
  conv_lhs => unfold OptimizeLoop
  dsimp only
  rw [if_pos hp, h1]
  dsimp only
  rw [h2]
  dsimp only
  rw [h3]
  dsimp only
  rw [h4]
  simp


theorem BoundaryTrim_eq (I : Externals Op) (ops : List Op) (inBitDepth outBitDepth : BitDepth) :
    BoundaryTrim I ops inBitDepth outBitDepth =
      .ok (if I.IsFloatBitDepth outBitDepth = true then
          (if I.IsFloatBitDepth inBitDepth = true then ops
            else ops.dropWhile (isClampIdentity I))
        else (if I.IsFloatBitDepth inBitDepth = true then ops
            else ops.dropWhile (isClampIdentity I)).rdropWhile (isClampIdentity I)) := by
  unfold BoundaryTrim
  dsimp only
  rw [RemoveLeadingClampIdentity_eq, RemoveTrailingClampIdentity_eq]
  cases h1 : I.IsFloatBitDepth inBitDepth <;> cases h2 : I.IsFloatBitDepth outBitDepth <;> simp

theorem BoundaryTrim_nil (I : Externals Op) (inBitDepth outBitDepth : BitDepth) :
    BoundaryTrim I [] inBitDepth outBitDepth = .ok [] := by
  rw [BoundaryTrim_eq]
  simp [List.rdropWhile]

theorem OptimizeSeparablePrefix_nil (I : Externals Op) (inBitDepth : BitDepth) :
    OptimizeSeparablePrefix I [] inBitDepth = .ok [] := by
  simp [OptimizeSeparablePrefix]

/-- `OptimizeOpVec` on a non-empty chain with flags other than `OPTIMIZATION_NONE`, given
the result of its loop. -/
theorem OptimizeOpVecTrace_run (I : Externals Op) (fuel : Nat) (ops : List Op)
    (inBitDepth outBitDepth : BitDepth) (oFlags : OptimizationFlags)
    (hne : ops ≠ []) (hfl : oFlags ≠ OPTIMIZATION_NONE) (looped : List Op) (p : Nat)
    (hloop : OptimizeLoop I fuel oFlags fuel (chainBeforeLoop I ops oFlags) 0 =
      .ok (looped, p)) :
    OptimizeOpVecTrace I fuel ops inBitDepth outBitDepth oFlags =
      match BoundaryTrim I looped inBitDepth outBitDepth with
      | .error e => .error e
      | .ok ops4 =>
        if HasFlag oFlags I.OPTIMIZATION_COMP_SEPARABLE_PREFIX = true then
          match OptimizeSeparablePrefix I ops4 inBitDepth with
          | .error e => .error e
          | .ok ops5 => .ok ⟨ops5, p, ops4⟩
        else .ok ⟨ops4, p, ops4⟩ := by
  unfold OptimizeOpVecTrace
  have h1 : ops.isEmpty = false := by
    cases ops with
    | nil => exact absurd rfl hne
    | cons a l => rfl
  have h2 : (oFlags == OPTIMIZATION_NONE) = false := by simpa using hfl
  unfold chainBeforeLoop at hloop
  rw [h1, h2]
  simp only [Bool.false_eq_true, if_false]
  rw [hloop]
  dsimp only
  cases looped with
  | nil =>
    rw [BoundaryTrim_nil]
    simp [OptimizeSeparablePrefix_nil]
  | cons a l => simp

theorem OptimizeOpVecTrace_run_inv (I : Externals Op) (fuel : Nat) (ops : List Op)
    (inBitDepth outBitDepth : BitDepth) (oFlags : OptimizationFlags)
    (hne : ops ≠ []) (hfl : oFlags ≠ OPTIMIZATION_NONE) (t : OptimizeTrace Op)
    (h : OptimizeOpVecTrace I fuel ops inBitDepth outBitDepth oFlags = .ok t) :
    ∃ looped, OptimizeLoop I fuel oFlags fuel (chainBeforeLoop I ops oFlags) 0 =
        .ok (looped, t.passes) ∧
      BoundaryTrim I looped inBitDepth outBitDepth = .ok t.trimmed ∧
      (if HasFlag oFlags I.OPTIMIZATION_COMP_SEPARABLE_PREFIX = true then
        OptimizeSeparablePrefix I t.trimmed inBitDepth = .ok t.ops
       else t.ops = t.trimmed) := by
  cases hloop : OptimizeLoop I fuel oFlags fuel (chainBeforeLoop I ops oFlags) 0 with
  | error e =>
    have h1 : ops.isEmpty = false := by
      cases ops with
      | nil => exact absurd rfl hne
      | cons a l => rfl
    have h2 : (oFlags == OPTIMIZATION_NONE) = false := by simpa using hfl
    unfold OptimizeOpVecTrace at h
    unfold chainBeforeLoop at hloop
    rw [h1, h2] at h
    simp only [Bool.false_eq_true, if_false] at h
    rw [hloop] at h
    simp at h
  | ok res =>
    obtain ⟨looped, p⟩ := res
    rw [OptimizeOpVecTrace_run I fuel ops inBitDepth outBitDepth oFlags hne hfl looped p hloop]
      at h
    rw [BoundaryTrim_eq] at h
    dsimp only at h
    by_cases hf : HasFlag oFlags I.OPTIMIZATION_COMP_SEPARABLE_PREFIX = true
    · rw [if_pos hf] at h
      split at h
      · simp at h
      · rename_i ops5 h5
        simp only [Except.ok.injEq] at h
        subst h
        exact ⟨looped, rfl, BoundaryTrim_eq I looped _ _, by rw [if_pos hf]; exact h5⟩
    · rw [if_neg hf] at h
      simp only [Except.ok.injEq] at h
      subst h
      exact ⟨looped, rfl, BoundaryTrim_eq I looped _ _, by rw [if_neg hf]⟩

theorem BoundaryTrim_infix (I : Externals Op) (ops trimmed : List Op)
    (inBitDepth outBitDepth : BitDepth)
    (h : BoundaryTrim I ops inBitDepth outBitDepth = .ok trimmed) : trimmed <:+: ops := by
  rw [BoundaryTrim_eq] at h
  simp only [Except.ok.injEq] at h
  subst h
  have hs : ops.dropWhile (isClampIdentity I) <:+: ops :=
    (List.dropWhile_suffix (isClampIdentity I)).isInfix
  by_cases h1 : I.IsFloatBitDepth outBitDepth = true <;>
    by_cases h2 : I.IsFloatBitDepth inBitDepth = true
  · simp only [h1, h2, if_true]; exact List.infix_refl _
  · simp only [h1, h2, if_true, if_false]; exact hs
  · simp only [h1, h2, if_true, if_false]
    exact (List.rdropWhile_prefix _ _).isInfix
  · simp only [h1, h2, if_false]
    exact (List.rdropWhile_prefix _ _).isInfix.trans hs

theorem dropWhile_rdropWhile_dropWhile (p : Op → Bool) (l : List Op) :
    ((l.dropWhile p).rdropWhile p).dropWhile p = (l.dropWhile p).rdropWhile p := by
  have hm := List.dropWhile_idempotent p l
  obtain ⟨s, hs⟩ := List.rdropWhile_prefix p (l.dropWhile p)
  generalize (l.dropWhile p).rdropWhile p = l' at hs ⊢
  generalize l.dropWhile p = m at hm hs
  subst hs
  cases l' with
  | nil => rfl
  | cons a t =>
    by_cases ha : p a = true
    · exfalso
      rw [List.cons_append, List.dropWhile_cons_of_pos ha] at hm
      have h1 := congrArg List.length hm
      have h2 := (List.dropWhile_suffix p (l := t ++ s)).length_le
      rw [List.length_cons] at h1
      omega
    · simp only [Bool.not_eq_true] at ha
      simp [List.dropWhile, ha]

theorem BoundaryTrim_idempotent (I : Externals Op) (ops trimmed : List Op)
    (inBitDepth outBitDepth : BitDepth)
    (h : BoundaryTrim I ops inBitDepth outBitDepth = .ok trimmed) :
    BoundaryTrim I trimmed inBitDepth outBitDepth = .ok trimmed := by
  rw [BoundaryTrim_eq] at h ⊢
  simp only [Except.ok.injEq] at h ⊢
  subst h
  cases h1 : I.IsFloatBitDepth outBitDepth <;> cases h2 : I.IsFloatBitDepth inBitDepth
  · simp only [Bool.false_eq_true, if_false]
    rw [dropWhile_rdropWhile_dropWhile, List.rdropWhile_idempotent]
  · simp only [Bool.false_eq_true, if_false, if_true]
    exact List.rdropWhile_idempotent _ _
  · simp only [Bool.false_eq_true, if_false, if_true]
    exact List.dropWhile_idempotent _ _
  · simp only [if_true]

theorem chainBeforeLoop_of_clean (I : Externals Op) (ops : List Op)
    (oFlags : OptimizationFlags)
    (hno : ∀ o ∈ ops, I.getType o ≠ .NoOpType)
    (hdyn : HasFlag oFlags I.OPTIMIZATION_NO_DYNAMIC_PROPERTIES = true →
      ∀ o ∈ ops, I.isDynamic o = false) :
    chainBeforeLoop I ops oFlags = ops := by
  unfold chainBeforeLoop
  rw [RemoveNoOpTypes_of_forall I ops hno]
  split
  · rename_i hflag
    exact RemoveDynamicProperties_of_forall I ops (hdyn hflag)
  · rfl

theorem OptimizeOpVec_nil (I : Externals Op) (fuel : Nat) (inBitDepth outBitDepth : BitDepth)
    (oFlags : OptimizationFlags) :
    OptimizeOpVec I fuel [] inBitDepth outBitDepth oFlags = .ok [] := by
  simp [OptimizeOpVec, OptimizeOpVecTrace]

/-- A second run on a chain that is a fixed point of the loop rules, is trimmed and is left
alone by the prefix fusion returns that chain. -/
theorem OptimizeOpVec_of_settled (I : Externals Op) (fuel : Nat) (r : List Op)
    (inBitDepth outBitDepth : BitDepth) (oFlags : OptimizationFlags)
    (hfl : oFlags ≠ OPTIMIZATION_NONE)
    (hclean : chainBeforeLoop I r oFlags = r)
    (hloop : OptimizeLoop I fuel oFlags fuel r 0 = .ok (r, 0))
    (htrim : BoundaryTrim I r inBitDepth outBitDepth = .ok r)
    (hfuse : HasFlag oFlags I.OPTIMIZATION_COMP_SEPARABLE_PREFIX = true →
      OptimizeSeparablePrefix I r inBitDepth = .ok r) :
    OptimizeOpVec I fuel r inBitDepth outBitDepth oFlags = .ok r := by
  cases r with
  | nil => exact OptimizeOpVec_nil I fuel _ _ _
  | cons a l =>
    unfold OptimizeOpVec
    rw [OptimizeOpVecTrace_run I fuel (a :: l) inBitDepth outBitDepth oFlags (by simp) hfl
      (a :: l) 0 (by rw [hclean]; exact hloop), htrim]
    dsimp only
    by_cases hf : HasFlag oFlags I.OPTIMIZATION_COMP_SEPARABLE_PREFIX = true
    · rw [if_pos hf, hfuse hf]
    · rw [if_neg hf]


theorem OptimizeOpVec_none_removes_only_NoOpType_aux (I : Externals Op) (fuel : Nat)
    (ops : List Op) (inBitDepth outBitDepth : BitDepth) :
    OptimizeOpVec I fuel ops inBitDepth outBitDepth OPTIMIZATION_NONE =
        .ok (ops.filter (fun o => I.getType o != .NoOpType)) ∧
      ((∀ o ∈ ops, I.getType o ≠ .NoOpType) →
        OptimizeOpVec I fuel ops inBitDepth outBitDepth OPTIMIZATION_NONE = .ok ops) := by
  have key : OptimizeOpVec I fuel ops inBitDepth outBitDepth OPTIMIZATION_NONE =
      .ok (ops.filter (fun o => I.getType o != .NoOpType)) := by
    unfold OptimizeOpVec OptimizeOpVecTrace
    cases ops with
    | nil => simp
    | cons o rest => simp [RemoveNoOpTypes_eq_filter]
  refine ⟨key, fun h => ?_⟩
  rw [key, List.filter_eq_self.2]
  intro o ho
  simpa using h o ho


/-- `RemoveInverseOps` on `[A, B, B', A']` when the inner and the outer pair are inverse
pairs, `A, B` is not, and the identity replacement of `B` is a no-op. -/
theorem RemoveInverseOps_four (I : Externals Op) (oFlags : OptimizationFlags) (fuel : Nat)
    (A B B' A' : Op)
    (hA : isInversePair I oFlags A A' = true) (hB : isInversePair I oFlags B B' = true)
    (hAB : isInversePair I oFlags A B = false)
    (hrB : I.isNoOp (I.getIdentityReplacement B) = true)
    (hfuel : 4 ≤ fuel) :
    RemoveInverseOps I fuel [A, B, B', A'] oFlags =
      if I.isNoOp (I.getIdentityReplacement A) = true then .ok ([], 2)
      else .ok ([I.getIdentityReplacement A], 2) := by
  obtain ⟨m, hm⟩ : ∃ m, fuel = m + 1 + 1 + 1 + 1 := ⟨fuel - 4, by omega⟩
  subst hm
  unfold RemoveInverseOps
  have s1 := RemoveInverseOpsLoop_skip I oFlags (m + 1 + 1 + 1) [] [B', A'] A B 0 hAB
  have s2 := RemoveInverseOpsLoop_erase I oFlags (m + 1 + 1) [A] [A'] B B' 0 hB hrB
  simp only [List.nil_append, List.length_nil, List.singleton_append, List.length_singleton,
    Nat.zero_add, Nat.cast_zero, Nat.cast_one, Nat.sub_self] at s1 s2
  rw [s1, s2]
  by_cases hrA : I.isNoOp (I.getIdentityReplacement A) = true
  · have s3 := RemoveInverseOpsLoop_erase I oFlags (m + 1) [] [] A A' 1 hA hrA
    have s4 := RemoveInverseOpsLoop_done I oFlags m ([] : List Op) 0 2 (by simp)
    simp only [List.nil_append, List.length_nil, Nat.cast_zero, Nat.zero_sub] at s3 s4
    rw [if_pos hrA, s3, s4]
  · simp only [Bool.not_eq_true] at hrA
    have s3 := RemoveInverseOpsLoop_replace I oFlags (m + 1) [] [] A A' 1 hA hrA
    have s4 := RemoveInverseOpsLoop_done I oFlags m [I.getIdentityReplacement A] 1 2 (by simp)
    simp only [List.nil_append, List.length_nil, Nat.cast_zero, Nat.zero_add,
      Nat.cast_one] at s3 s4
    rw [if_neg (by simp [hrA]), s3, s4]

/-- `RemoveInverseOps` on `[A, B, B', A']` when the identity replacement of `B` is not a
no-op: the inner pair becomes that replacement and the scan ends. -/
theorem RemoveInverseOps_four_clamp (I : Externals Op) (oFlags : OptimizationFlags)
    (fuel : Nat) (A B B' A' : Op)
    (hB : isInversePair I oFlags B B' = true)
    (hAB : isInversePair I oFlags A B = false)
    (hrB : I.isNoOp (I.getIdentityReplacement B) = false)
    (hfuel : 3 ≤ fuel) :
    RemoveInverseOps I fuel [A, B, B', A'] oFlags =
      .ok ([A, I.getIdentityReplacement B, A'], 1) := by
  obtain ⟨m, hm⟩ : ∃ m, fuel = m + 1 + 1 + 1 := ⟨fuel - 3, by omega⟩
  subst hm
  unfold RemoveInverseOps
  have s1 := RemoveInverseOpsLoop_skip I oFlags (m + 1 + 1) [] [B', A'] A B 0 hAB
  have s2 := RemoveInverseOpsLoop_replace I oFlags (m + 1) [A] [A'] B B' 0 hB hrB
  have s3 := RemoveInverseOpsLoop_done I oFlags m [A, I.getIdentityReplacement B, A'] 2 1
    (by simp)
  simp only [List.nil_append, List.length_nil, List.singleton_append, List.length_singleton,
    Nat.zero_add, Nat.cast_zero, Nat.cast_one, Nat.cast_ofNat] at s1 s2 s3
  rw [s1, s2]
  exact s3


theorem separablePrefixLen_cons_of_separable (I : Externals Op) (o : Op) (rest : List Op)
    (hc : (I.hasChannelCrosstalk o || I.isDynamic o) = false) :
    separablePrefixLen I (o :: rest) = separablePrefixLen I rest + 1 := by
  show (if (I.hasChannelCrosstalk o || I.isDynamic o) = true then 0
    else separablePrefixLen I rest + 1) = _
  rw [hc]; rfl

theorem separablePrefixLen_cons_of_crosstalk (I : Externals Op) (o : Op) (rest : List Op)
    (hc : (I.hasChannelCrosstalk o || I.isDynamic o) = true) :
    separablePrefixLen I (o :: rest) = 0 := by
  show (if (I.hasChannelCrosstalk o || I.isDynamic o) = true then 0
    else separablePrefixLen I rest + 1) = _
  rw [hc]; rfl

theorem separablePrefixLen_le (I : Externals Op) (ops : List Op) :
    separablePrefixLen I ops ≤ ops.length := by
  induction ops with
  | nil => exact Nat.le_refl _
  | cons o rest ih =>
    by_cases hc : (I.hasChannelCrosstalk o || I.isDynamic o) = true
    · rw [separablePrefixLen_cons_of_crosstalk I o rest hc]; exact Nat.zero_le _
    · simp only [Bool.not_eq_true] at hc
      rw [separablePrefixLen_cons_of_separable I o rest hc, List.length_cons]
      omega

/-- The second loop of `FindSeparablePrefix` run over the prefix counted by the first one
never reaches the `throw` and never leaves the vector. -/
theorem expensiveOpsLoop_ok (I : Externals Op) :
    ∀ (ops : List Op) (e : Nat),
      ∃ e', expensiveOpsLoop I (separablePrefixLen I ops) ops e = .ok e' := by
  intro ops
  induction ops with
  | nil => intro e; exact ⟨e, rfl⟩
  | cons o rest ih =>
    intro e
    by_cases hc : (I.hasChannelCrosstalk o || I.isDynamic o) = true
    · rw [separablePrefixLen_cons_of_crosstalk I o rest hc]
      exact ⟨e, rfl⟩
    · simp only [Bool.not_eq_true] at hc
      have hc1 : I.hasChannelCrosstalk o = false := by
        simp only [Bool.or_eq_false_iff] at hc; exact hc.1
      rw [separablePrefixLen_cons_of_separable I o rest hc]
      unfold expensiveOpsLoop
      rw [hc1]
      simp only [Bool.false_eq_true, if_false]
      split
      · exact ih e
      · exact ih e
      · exact ih (e + 1)

theorem FindSeparablePrefix_ok (I : Externals Op) (ops : List Op) :
    ∃ p, FindSeparablePrefix I ops = .ok p ∧ (p = 0 ∨ p = separablePrefixLen I ops) := by
  obtain ⟨e, he⟩ := expensiveOpsLoop_ok I ops 0
  unfold FindSeparablePrefix
  dsimp only
  rw [he]
  split
  · exact ⟨0, rfl, Or.inl rfl⟩
  · dsimp only
    split
    · exact ⟨0, rfl, Or.inl rfl⟩
    · exact ⟨_, rfl, Or.inr rfl⟩

theorem OptimizeSeparablePrefix_eq (I : Externals Op) (ops : List Op) (inBitDepth : BitDepth)
    (p : Nat) (hp : FindSeparablePrefix I ops = .ok p) (hpos : 0 < p)
    (h32f : inBitDepth ≠ .BIT_DEPTH_F32) (h32i : inBitDepth ≠ .BIT_DEPTH_UINT32) :
    OptimizeSeparablePrefix I ops inBitDepth =
      .ok (I.makeSeparableLut inBitDepth ((ops.take p).map I.clone) ++ ops.drop p) := by
  have hne : ops.isEmpty = false := by
    cases ops with
    | nil =>
      have : FindSeparablePrefix I ([] : List Op) = .ok 0 := by
        simp [FindSeparablePrefix, separablePrefixLen, expensiveOpsLoop]
      rw [this] at hp
      simp only [Except.ok.injEq] at hp
      omega
    | cons a l => rfl
  have hbd : (inBitDepth == .BIT_DEPTH_F32 || inBitDepth == .BIT_DEPTH_UINT32) = false := by
    simp [h32f, h32i]
  have hp0 : (p == 0) = false := by
    simp only [beq_eq_false_iff_ne, ne_eq]; omega
  unfold OptimizeSeparablePrefix
  rw [hne, hbd, hp]
  simp only [Bool.false_eq_true, if_false, hp0, insertAt, eraseRange, List.take_zero,
    List.nil_append, List.drop_zero]

theorem OptimizeSeparablePrefix_ok (I : Externals Op) (ops : List Op) (inBitDepth : BitDepth) :
    ∃ r, OptimizeSeparablePrefix I ops inBitDepth = .ok r := by
  obtain ⟨p, hp, _⟩ := FindSeparablePrefix_ok I ops
  unfold OptimizeSeparablePrefix
  rw [hp]
  dsimp only
  split
  · exact ⟨_, rfl⟩
  · split
    · exact ⟨_, rfl⟩
    · split
      · exact ⟨_, rfl⟩
      · exact ⟨_, rfl⟩

theorem OptimizeSeparablePrefix_skip32 (I : Externals Op) (ops : List Op) :
    OptimizeSeparablePrefix I ops .BIT_DEPTH_F32 = .ok ops ∧
      OptimizeSeparablePrefix I ops .BIT_DEPTH_UINT32 = .ok ops := by
  constructor <;>
  · unfold OptimizeSeparablePrefix
    cases ops with
    | nil => rfl
    | cons a l => rfl


theorem chain'_of_forall_left (R : Op → Op → Prop) (l : List Op)
    (h : ∀ a ∈ l, ∀ b, R a b) : List.Chain' R l := by
  induction l with
  | nil => exact List.chain'_nil
  | cons a t ih =>
    cases t with
    | nil => exact List.chain'_singleton a
    | cons b t' =>
      exact List.chain'_cons.2 ⟨h a (List.mem_cons_self _ _) b,
        ih (fun x hx => h x (List.mem_cons_of_mem _ hx))⟩

theorem isInversePair_of_composed_type (I : Externals Op) (oFlags : OptimizationFlags)
    (op1 op2 : Op)
    (h : I.getType op1 = .MatrixType ∨ I.getType op1 = .RangeType ∨
      I.getType op1 = .ExponentType) :
    isInversePair I oFlags op1 op2 = false := by
  unfold isInversePair
  rcases h with h | h | h <;> simp [h, IsPairInverseEnabled]

theorem insertAt_eraseRange_pair (pre post tmpops : List Op) (a b : Op) :
    insertAt (eraseRange (pre ++ a :: b :: post) pre.length (pre.length + 2)) pre.length
      tmpops = pre ++ tmpops ++ post := by
  rw [eraseRange_pair]
  unfold insertAt
  rw [List.take_left, List.drop_left]

/-- One iteration of the loop of `CombineOps` with the cursor on the pair `a, b`. -/
theorem CombineOpsLoop_step (I : Externals Op) (oFlags : OptimizationFlags)
    (fuel : Nat) (pre post : List Op) (a b : Op) (c : Nat) :
    CombineOpsLoop I oFlags (fuel + 1) (pre ++ a :: b :: post) (pre.length : Int) c =
      if isCombinePair I oFlags a b = true then
        CombineOpsLoop I oFlags fuel (pre ++ I.combineWith a b ++ post)
          ((pre.length - 1 : Nat) : Int) (c + 1)
      else
        CombineOpsLoop I oFlags fuel (pre ++ a :: b :: post)
          ((pre.length + 1 : Nat) : Int) c := by
  rw [CombineOpsLoop_eq_pairScan, pairScan_succ, if_pos (by simp),
    getElem?_pair_left, getElem?_pair_right, CombineOpsLoop_eq_pairScan,
    CombineOpsLoop_eq_pairScan]
  by_cases h : isCombinePair I oFlags a b = true
  · simp only [h, if_true, combineRewrite, Int.toNat_ofNat, insertAt_eraseRange_pair, pred_cast]
  · simp only [h]
    simp

theorem isCombinePair_iff (I : Externals Op) (oFlags : OptimizationFlags) (op1 op2 : Op) :
    isCombinePair I oFlags op1 op2 = true ↔
      ((I.getType op1 = .ExponentType ∧ HasFlag oFlags I.OPTIMIZATION_COMP_EXPONENT = true) ∨
        (I.getType op1 = .GammaType ∧ HasFlag oFlags I.OPTIMIZATION_COMP_GAMMA = true) ∨
        (I.getType op1 = .Lut1DType ∧ HasFlag oFlags I.OPTIMIZATION_COMP_LUT1D = true) ∨
        (I.getType op1 = .Lut3DType ∧ HasFlag oFlags I.OPTIMIZATION_COMP_LUT3D = true) ∨
        (I.getType op1 = .MatrixType ∧ HasFlag oFlags I.OPTIMIZATION_COMP_MATRIX = true) ∨
        (I.getType op1 = .RangeType ∧ HasFlag oFlags I.OPTIMIZATION_COMP_RANGE = true)) ∧
      I.canCombineWith op1 op2 = true := by
  unfold isCombinePair IsCombineEnabled
  simp only [Bool.and_eq_true, Bool.or_eq_true, beq_iff_eq]
  tauto

theorem isCombinePair_of_other_type (I : Externals Op) (oFlags : OptimizationFlags)
    (op1 op2 : Op)
    (h : I.getType op1 ≠ .ExponentType ∧ I.getType op1 ≠ .GammaType ∧
      I.getType op1 ≠ .Lut1DType ∧ I.getType op1 ≠ .Lut3DType ∧
      I.getType op1 ≠ .MatrixType ∧ I.getType op1 ≠ .RangeType) :
    isCombinePair I oFlags op1 op2 = false := by
  rw [← Bool.not_eq_true, isCombinePair_iff]
  tauto

theorem replacesIdentity_eq (I : Externals Op) (oFlags : OptimizationFlags) (o : Op) :
    replacesIdentity I (HasFlag oFlags I.OPTIMIZATION_IDENTITY)
        (HasFlag oFlags I.OPTIMIZATION_IDENTITY_GAMMA) o =
      (I.isIdentity o && (I.getType o != .RangeType) &&
        ((I.getType o == .GammaType && HasFlag oFlags I.OPTIMIZATION_IDENTITY_GAMMA) ||
          (I.getType o != .GammaType && HasFlag oFlags I.OPTIMIZATION_IDENTITY))) := by
  unfold replacesIdentity
  dsimp only
  cases I.isIdentity o <;> cases (I.getType o != .RangeType) <;> simp

theorem ReplaceIdentityOpsLoop_eq_map (I : Externals Op) (a b : Bool) (ops : List Op) :
    ReplaceIdentityOpsLoop I a b ops =
      (ops.map (fun o => if replacesIdentity I a b o = true then I.getIdentityReplacement o
        else o), ops.countP (replacesIdentity I a b)) := by
  induction ops with
  | nil => rfl
  | cons o rest ih =>
    unfold ReplaceIdentityOpsLoop
    rw [ih]
    by_cases h : replacesIdentity I a b o = true
    · simp [h]
    · simp [h]

theorem ReplaceIdentityOps_eq_map (I : Externals Op) (ops : List Op)
    (oFlags : OptimizationFlags) :
    ReplaceIdentityOps I ops oFlags =
      (ops.map (fun o =>
          if replacesIdentity I (HasFlag oFlags I.OPTIMIZATION_IDENTITY)
              (HasFlag oFlags I.OPTIMIZATION_IDENTITY_GAMMA) o = true
          then I.getIdentityReplacement o else o),
        ops.countP (replacesIdentity I (HasFlag oFlags I.OPTIMIZATION_IDENTITY)
          (HasFlag oFlags I.OPTIMIZATION_IDENTITY_GAMMA))) := by
  unfold ReplaceIdentityOps
  dsimp only
  by_cases h : (HasFlag oFlags I.OPTIMIZATION_IDENTITY ||
      HasFlag oFlags I.OPTIMIZATION_IDENTITY_GAMMA) = true
  · rw [if_pos h, ReplaceIdentityOpsLoop_eq_map]
  · rw [if_neg h]
    simp only [Bool.or_eq_true, not_or, Bool.not_eq_true] at h
    have hz : ∀ o, replacesIdentity I (HasFlag oFlags I.OPTIMIZATION_IDENTITY)
        (HasFlag oFlags I.OPTIMIZATION_IDENTITY_GAMMA) o = false := by
      intro o; simp [replacesIdentity, h.1, h.2]
    have hc : ops.countP (replacesIdentity I (HasFlag oFlags I.OPTIMIZATION_IDENTITY)
        (HasFlag oFlags I.OPTIMIZATION_IDENTITY_GAMMA)) = 0 := by
      rw [List.countP_eq_zero]
      intro o _
      simp [hz o]
    rw [hc]
    simp [hz]

/-- `RemoveInverseOps` on a chain of two entries. -/
theorem RemoveInverseOps_two (I : Externals Op) (oFlags : OptimizationFlags) (fuel : Nat)
    (op1 op2 : Op) (hfuel : 2 ≤ fuel) :
    RemoveInverseOps I fuel [op1, op2] oFlags =
      if isInversePair I oFlags op1 op2 = true then
        (if I.isNoOp (I.getIdentityReplacement op1) = true then .ok ([], 1)
          else .ok ([I.getIdentityReplacement op1], 1))
      else .ok ([op1, op2], 0) := by
  obtain ⟨m, hm⟩ : ∃ m, fuel = m + 1 + 1 := ⟨fuel - 2, by omega⟩
  subst hm
  unfold RemoveInverseOps
  by_cases h : isInversePair I oFlags op1 op2 = true
  · rw [if_pos h]
    by_cases hn : I.isNoOp (I.getIdentityReplacement op1) = true
    · have s1 := RemoveInverseOpsLoop_erase I oFlags (m + 1) [] [] op1 op2 0 h hn
      have s2 := RemoveInverseOpsLoop_done I oFlags m ([] : List Op) 0 1 (by simp)
      simp only [List.nil_append, List.length_nil, Nat.cast_zero, Nat.zero_sub,
        Nat.zero_add] at s1 s2
      rw [if_pos hn, s1, s2]
    · have hn' : I.isNoOp (I.getIdentityReplacement op1) = false := by simpa using hn
      have s1 := RemoveInverseOpsLoop_replace I oFlags (m + 1) [] [] op1 op2 0 h hn'
      have s2 := RemoveInverseOpsLoop_done I oFlags m [I.getIdentityReplacement op1] 1 1
        (by simp)
      simp only [List.nil_append, List.length_nil, Nat.cast_zero, Nat.zero_add,
        Nat.cast_one] at s1 s2
      rw [if_neg hn, s1, s2]
  · have h' : isInversePair I oFlags op1 op2 = false := by simpa using h
    have s1 := RemoveInverseOpsLoop_skip I oFlags (m + 1) [] [] op1 op2 0 h'
    have s2 := RemoveInverseOpsLoop_done I oFlags m [op1, op2] 1 0 (by simp)
    simp only [List.nil_append, List.length_nil, Nat.cast_zero, Nat.zero_add,
      Nat.cast_one] at s1 s2
    rw [if_neg h, s1, s2]


theorem fx_makesSingleForwardLut : MakesSingleForwardLut fx := by
  intro bitDepth ops
  exact ⟨_, rfl, rfl, rfl⟩


theorem mem_of_mem_eraseRange (l : List Op) (a b : Nat) (x : Op)
    (h : x ∈ eraseRange l a b) : x ∈ l := by
  unfold eraseRange at h
  rcases List.mem_append.1 h with h | h
  · exact List.mem_of_mem_take h
  · exact List.mem_of_mem_drop h

theorem mem_of_mem_insertAt (l items : List Op) (pos : Nat) (x : Op)
    (h : x ∈ insertAt l pos items) : x ∈ l ∨ x ∈ items := by
  unfold insertAt at h
  rcases List.mem_append.1 h with h | h
  · rcases List.mem_append.1 h with h | h
    · exact Or.inl (List.mem_of_mem_take h)
    · exact Or.inr h
  · exact Or.inl (List.mem_of_mem_drop h)

/-- A property of all entries that the rewrite of a pair scan keeps is kept by the scan. -/
theorem pairScan_forall (P : Op → Prop) (test : Op → Op → Bool)
    (rw : List Op → Int → Op → Op → List Op × Int)
    (hrw : ∀ (opVec : List Op) (i : Int) (a b : Op), (∀ x ∈ opVec, P x) →
      ∀ x ∈ (rw opVec i a b).1, P x) (fuel : Nat) :
    ∀ (opVec : List Op) (i : Int) (c : Nat) (r : List Op) (c' : Nat),
      (∀ x ∈ opVec, P x) → pairScan test rw fuel opVec i c = .ok (r, c') →
        ∀ x ∈ r, P x := by
  induction fuel with
  | zero => intro opVec i c r c' _ h; simp [pairScan] at h
  | succ n ih =>
    intro opVec i c r c' hP h
    unfold pairScan at h
    split at h
    · split at h
      · split at h
        · exact ih _ _ _ _ _ (hrw opVec i _ _ hP) h
        · exact ih _ _ _ _ _ hP h
      · simp at h
    · simp only [Except.ok.injEq, Prod.mk.injEq] at h
      rw [← h.1]; exact hP

theorem RemoveInverseOps_forall (I : Externals Op) (P : Op → Prop)
    (hrepl : ∀ o, P (I.getIdentityReplacement o))
    (fuel : Nat) (ops r : List Op) (oFlags : OptimizationFlags) (c : Nat)
    (hP : ∀ x ∈ ops, P x) (h : RemoveInverseOps I fuel ops oFlags = .ok (r, c)) :
    ∀ x ∈ r, P x := by
  unfold RemoveInverseOps at h
  rw [RemoveInverseOpsLoop_eq_pairScan] at h
  refine pairScan_forall P _ _ ?_ fuel ops 0 0 r c hP h
  intro opVec i a b hall x hx
  unfold inverseRewrite at hx
  split at hx
  · exact hall x (mem_of_mem_eraseRange _ _ _ x hx)
  · unfold eraseAt at hx
    rcases List.mem_or_eq_of_mem_set (mem_of_mem_eraseRange _ _ _ x hx) with h1 | h1
    · exact hall x h1
    · rw [h1]; exact hrepl a

theorem CombineOps_forall (I : Externals Op) (P : Op → Prop)
    (hcomb : ∀ a b, ∀ x ∈ I.combineWith a b, P x)
    (fuel : Nat) (ops r : List Op) (oFlags : OptimizationFlags) (c : Nat)
    (hP : ∀ x ∈ ops, P x) (h : CombineOps I fuel ops oFlags = .ok (r, c)) :
    ∀ x ∈ r, P x := by
  unfold CombineOps at h
  rw [CombineOpsLoop_eq_pairScan] at h
  refine pairScan_forall P _ _ ?_ fuel ops 0 0 r c hP h
  intro opVec i a b hall x hx
  unfold combineRewrite at hx
  rcases mem_of_mem_insertAt _ _ _ x hx with h1 | h1
  · exact hall x (mem_of_mem_eraseRange _ _ _ x h1)
  · exact hcomb a b x h1

theorem RemoveNoOps_mem (I : Externals Op) (ops : List Op) (x : Op)
    (h : x ∈ (RemoveNoOps I ops).1) : x ∈ ops := by
  induction ops with
  | nil => simp [RemoveNoOps] at h
  | cons o rest ih =>
    unfold RemoveNoOps at h
    dsimp only at h
    split at h
    · exact List.mem_cons_of_mem _ (ih h)
    · rcases List.mem_cons.1 h with h1 | h1
      · rw [h1]; exact List.mem_cons_self _ _
      · exact List.mem_cons_of_mem _ (ih h1)

theorem ReplaceIdentityOps_forall (I : Externals Op) (P : Op → Prop)
    (hrepl : ∀ o, P (I.getIdentityReplacement o))
    (ops : List Op) (oFlags : OptimizationFlags) (hP : ∀ x ∈ ops, P x) :
    ∀ x ∈ (ReplaceIdentityOps I ops oFlags).1, P x := by
  rw [ReplaceIdentityOps_eq_map]
  intro x hx
  obtain ⟨o, ho, rfl⟩ := List.mem_map.1 hx
  split
  · exact hrepl o
  · exact hP o ho

/-- A property of all entries that identity replacement and combination keep is kept by
the loop of `OptimizeOpVec`. -/
theorem OptimizeLoop_forall (I : Externals Op) (P : Op → Prop)
    (hrepl : ∀ o, P (I.getIdentityReplacement o))
    (hcomb : ∀ a b, ∀ x ∈ I.combineWith a b, P x)
    (fuel : Nat) (oFlags : OptimizationFlags) (n : Nat) :
    ∀ (ops : List Op) (passes : Nat) (r : List Op) (p : Nat),
      (∀ x ∈ ops, P x) → OptimizeLoop I fuel oFlags n ops passes = .ok (r, p) →
        ∀ x ∈ r, P x := by
  induction n with
  | zero => intro ops passes r p _ h; simp [OptimizeLoop] at h
  | succ n ih =>
    intro ops passes r p hP h
    unfold OptimizeLoop at h
    dsimp only at h
    generalize hN : (if HasFlag oFlags I.OPTIMIZATION_IDENTITY = true then RemoveNoOps I ops
      else (ops, 0)) = N at h
    have hPN : ∀ x ∈ N.1, P x := by
      intro x hx
      by_cases hflag : HasFlag oFlags I.OPTIMIZATION_IDENTITY = true
      · rw [if_pos hflag] at hN
        rw [← hN] at hx
        exact hP x (RemoveNoOps_mem I ops x hx)
      · rw [if_neg hflag] at hN
        rw [← hN] at hx
        exact hP x hx
    have hPR := ReplaceIdentityOps_forall I P hrepl N.1 oFlags hPN
    generalize ReplaceIdentityOps I N.1 oFlags = R at h hPR
    by_cases hpass : passes ≤ MAX_OPTIMIZATION_PASSES
    · rw [if_pos hpass] at h
      cases hinv : RemoveInverseOps I fuel R.1 oFlags with
      | error e => rw [hinv] at h; simp at h
      | ok inverseops =>
        rw [hinv] at h
        dsimp only at h
        have hPI := RemoveInverseOps_forall I P hrepl fuel R.1 inverseops.1 oFlags
          inverseops.2 hPR hinv
        cases hcombr : CombineOps I fuel inverseops.1 oFlags with
        | error e => rw [hcombr] at h; simp at h
        | ok combines =>
          rw [hcombr] at h
          dsimp only at h
          have hPC := CombineOps_forall I P hcomb fuel inverseops.1 combines.1 oFlags
            combines.2 hPI hcombr
          by_cases hsum : (N.2 + R.2 + inverseops.2 + combines.2 == 0) = true
          · rw [if_pos hsum] at h
            simp only [Except.ok.injEq, Prod.mk.injEq] at h
            rw [← h.1]; exact hPC
          · rw [if_neg hsum] at h
            exact ih _ _ _ _ hPC h
    · rw [if_neg hpass] at h
      simp only [Except.ok.injEq, Prod.mk.injEq] at h
      rw [← h.1]; exact hP

theorem chainBeforeLoop_no_NoOpType (I : Externals Op) (ops : List Op)
    (oFlags : OptimizationFlags)
    (hdyn : ∀ o, I.getType (I.removeDynamicProperties (I.clone o)) = I.getType o) :
    ∀ x ∈ chainBeforeLoop I ops oFlags, I.getType x ≠ .NoOpType := by
  have h1 : ∀ x ∈ RemoveNoOpTypes I ops, I.getType x ≠ .NoOpType := by
    intro x hx
    rw [RemoveNoOpTypes_eq_filter] at hx
    have := (List.mem_filter.1 hx).2
    simpa using this
  unfold chainBeforeLoop
  split
  · intro x hx
    unfold RemoveDynamicProperties at hx
    obtain ⟨o, ho, rfl⟩ := List.mem_map.1 hx
    split
    · rw [hdyn o]; exact h1 o ho
    · exact h1 o ho
  · exact h1

theorem OptimizeSeparablePrefix_forall (I : Externals Op) (P : Op → Prop)
    (hlut : ∀ bitDepth l, ∀ x ∈ I.makeSeparableLut bitDepth l, P x)
    (ops r : List Op) (inBitDepth : BitDepth) (hP : ∀ x ∈ ops, P x)
    (h : OptimizeSeparablePrefix I ops inBitDepth = .ok r) : ∀ x ∈ r, P x := by
  unfold OptimizeSeparablePrefix at h
  split at h
  · simp only [Except.ok.injEq] at h; rw [← h]; exact hP
  · split at h
    · simp only [Except.ok.injEq] at h; rw [← h]; exact hP
    · split at h
      · simp at h
      · split at h
        · simp only [Except.ok.injEq] at h; rw [← h]; exact hP
        · simp only [Except.ok.injEq] at h
          rw [← h]
          intro x hx
          rcases mem_of_mem_insertAt _ _ _ x hx with h1 | h1
          · exact hP x (mem_of_mem_eraseRange _ _ _ x h1)
          · exact hlut _ _ x h1

/-- Under the contract of `ProducesNoNoOpType`, no entry of the chain `OptimizeOpVec`
returns is of type `NoOpType`. -/
theorem OptimizeOpVec_no_NoOpType_aux (I : Externals Op) (hI : ProducesNoNoOpType I)
    (fuel : Nat) (ops : List Op) (inBitDepth outBitDepth : BitDepth)
    (oFlags : OptimizationFlags) (r : List Op)
    (h : OptimizeOpVec I fuel ops inBitDepth outBitDepth oFlags = .ok r) :
    ∀ o ∈ r, I.getType o ≠ .NoOpType := by
  obtain ⟨hrepl, hcomb, hdyn, hlut⟩ := hI
  by_cases hne : ops = []
  · subst hne
    rw [OptimizeOpVec_nil] at h
    simp only [Except.ok.injEq] at h
    rw [← h]
    intro o ho
    exact absurd ho (List.not_mem_nil o)
  by_cases hfl : oFlags = OPTIMIZATION_NONE
  · subst hfl
    rw [(OptimizeOpVec_none_removes_only_NoOpType_aux I fuel ops inBitDepth outBitDepth).1]
      at h
    simp only [Except.ok.injEq] at h
    rw [← h]
    intro o ho
    have := (List.mem_filter.1 ho).2
    simpa using this
  unfold OptimizeOpVec at h
  cases ht : OptimizeOpVecTrace I fuel ops inBitDepth outBitDepth oFlags with
  | error e => rw [ht] at h; simp at h
  | ok t =>
    rw [ht] at h
    simp only [Except.ok.injEq] at h
    obtain ⟨looped, hloop, htrim, hfuse⟩ :=
      OptimizeOpVecTrace_run_inv I fuel ops inBitDepth outBitDepth oFlags hne hfl t ht
    have h0 := chainBeforeLoop_no_NoOpType I ops oFlags hdyn
    have h1 := OptimizeLoop_forall I (fun o => I.getType o ≠ .NoOpType) hrepl hcomb fuel
      oFlags fuel _ 0 looped t.passes h0 hloop
    have h2 : ∀ x ∈ t.trimmed, I.getType x ≠ .NoOpType := fun x hx =>
      h1 x (( BoundaryTrim_infix I looped t.trimmed _ _ htrim).subset hx)
    rw [← h]
    by_cases hf : HasFlag oFlags I.OPTIMIZATION_COMP_SEPARABLE_PREFIX = true
    · rw [if_pos hf] at hfuse
      exact OptimizeSeparablePrefix_forall I (fun o => I.getType o ≠ .NoOpType) hlut
        t.trimmed t.ops inBitDepth h2 hfuse
    · rw [if_neg hf] at hfuse
      rw [hfuse]; exact h2

theorem fx_producesNoNoOpType : ProducesNoNoOpType fx := by
  refine ⟨?_, ?_, fun o => rfl, ?_⟩
  · intro o
    cases o with
    | log d p => cases d <;> simp [fx, FxOp.getIdentityReplacement, FxOp.getType]
    | _ => simp [fx, FxOp.getIdentityReplacement, FxOp.getType]
  · intro a b x hx
    cases a <;> cases b <;>
      simp only [fx, FxOp.combineWith, List.not_mem_nil] at hx
    all_goals
      split at hx
      · exact absurd hx (List.not_mem_nil x)
      · rw [List.mem_singleton] at hx; rw [hx]; simp [fx, FxOp.getType]
  · intro bitDepth ops x hx
    simp only [fx, FxOp.makeSeparableLut, List.mem_singleton] at hx
    rw [hx]; simp [fx, FxOp.getType]

/-- The loop with the totals computes the chain and `passes` of the loop without them. -/
theorem OptimizeLoopLogged_ops_passes (I : Externals Op) (fuel : Nat)
    (oFlags : OptimizationFlags) (n : Nat) :
    ∀ (s : LoopState Op),
      (match OptimizeLoopLogged I fuel oFlags n s with
        | .error e => .error e
        | .ok s' => .ok (s'.ops, s'.passes)) =
      OptimizeLoop I fuel oFlags n s.ops s.passes := by
  induction n with
  | zero => intro s; rfl
  | succ n ih =>
    intro s
    unfold OptimizeLoopLogged OptimizeLoop
    dsimp only
    generalize (if HasFlag oFlags I.OPTIMIZATION_IDENTITY = true then RemoveNoOps I s.ops
      else (s.ops, 0)) = N
    generalize ReplaceIdentityOps I N.1 oFlags = R
    by_cases hpass : s.passes ≤ MAX_OPTIMIZATION_PASSES
    · rw [if_pos hpass, if_pos hpass]
      cases hinv : RemoveInverseOps I fuel R.1 oFlags with
      | error e => rfl
      | ok inverseops =>
        dsimp only
        cases hcomb : CombineOps I fuel inverseops.1 oFlags with
        | error e => rfl
        | ok combines =>
          dsimp only
          by_cases hsum : (N.2 + R.2 + inverseops.2 + combines.2 == 0) = true
          · rw [if_pos hsum, if_pos hsum]
          · rw [if_neg hsum, if_neg hsum]
            exact ih _
    · rw [if_neg hpass, if_neg hpass]

/-- The chain `OptimizeOpVec` returns does not depend on the logging. -/
theorem OptimizeOpVecLogged_chain (I : Externals Op) (debug : Bool) (fuel : Nat)
    (ops : List Op) (inBitDepth outBitDepth : BitDepth) (oFlags : OptimizationFlags) :
    (OptimizeOpVecLogged I debug fuel ops inBitDepth outBitDepth oFlags).map Prod.fst =
      OptimizeOpVec I fuel ops inBitDepth outBitDepth oFlags := by
  unfold OptimizeOpVecLogged OptimizeOpVec OptimizeOpVecTrace
  by_cases he : ops.isEmpty = true
  · rw [if_pos he, if_pos he]; rfl
  rw [if_neg he, if_neg he]
  dsimp only
  by_cases hfl : (oFlags == OPTIMIZATION_NONE) = true
  · rw [if_pos hfl, if_pos hfl]; rfl
  rw [if_neg hfl, if_neg hfl]
  have hloop := OptimizeLoopLogged_ops_passes I fuel oFlags fuel
    ⟨if HasFlag oFlags I.OPTIMIZATION_NO_DYNAMIC_PROPERTIES = true then
        RemoveDynamicProperties I (RemoveNoOpTypes I ops)
      else RemoveNoOpTypes I ops, 0, 0, 0, 0, 0⟩
  dsimp only at hloop
  rw [← hloop]
  cases hs : OptimizeLoopLogged I fuel oFlags fuel
      ⟨if HasFlag oFlags I.OPTIMIZATION_NO_DYNAMIC_PROPERTIES = true then
          RemoveDynamicProperties I (RemoveNoOpTypes I ops)
        else RemoveNoOpTypes I ops, 0, 0, 0, 0, 0⟩ with
  | error e => rfl
  | ok s =>
    dsimp only
    by_cases hemp : (!s.ops.isEmpty) = true
    · rw [if_pos hemp, if_pos hemp]
      cases htrim : BoundaryTrim I s.ops inBitDepth outBitDepth with
      | error e => rfl
      | ok ops4 =>
        dsimp only
        by_cases hf : HasFlag oFlags I.OPTIMIZATION_COMP_SEPARABLE_PREFIX = true
        · rw [if_pos hf, if_pos hf]
          cases hfuse : OptimizeSeparablePrefix I ops4 inBitDepth with
          | error e => rfl
          | ok ops5 => rfl
        · rw [if_neg hf, if_neg hf]; rfl
    · rw [if_neg hemp, if_neg hemp]; rfl


/-- What the first loop of `FindSeparablePrefix` counts: the entries below the count are
separable, the entry at the count (if there is one) is not. -/
theorem separablePrefixLen_spec (I : Externals Op) (ops : List Op) :
    (∀ i, i < separablePrefixLen I ops →
        ∃ o, ops[i]? = some o ∧ I.hasChannelCrosstalk o = false ∧ I.isDynamic o = false) ∧
      (separablePrefixLen I ops < ops.length →
        ∃ o, ops[separablePrefixLen I ops]? = some o ∧
          (I.hasChannelCrosstalk o = true ∨ I.isDynamic o = true)) := by
  induction ops with
  | nil => exact ⟨fun i hi => absurd hi (Nat.not_lt_zero i), fun h => absurd h (Nat.lt_irrefl _)⟩
  | cons o rest ih =>
    by_cases hc : (I.hasChannelCrosstalk o || I.isDynamic o) = true
    · rw [separablePrefixLen_cons_of_crosstalk I o rest hc]
      refine ⟨fun i hi => absurd hi (Nat.not_lt_zero i), fun _ => ⟨o, by simp, ?_⟩⟩
      simpa using hc
    · simp only [Bool.not_eq_true] at hc
      rw [separablePrefixLen_cons_of_separable I o rest hc]
      have hc2 : I.hasChannelCrosstalk o = false ∧ I.isDynamic o = false := by
        simpa using hc
      constructor
      · intro i hi
        cases i with
        | zero => exact ⟨o, by simp, hc2.1, hc2.2⟩
        | succ j =>
          obtain ⟨x, hx, h1, h2⟩ := ih.1 j (by omega)
          exact ⟨x, by simpa using hx, h1, h2⟩
      · intro hlt
        obtain ⟨x, hx, h1⟩ := ih.2 (by simpa using hlt)
        exact ⟨x, by simpa using hx, h1⟩

/-- A non-zero result of `FindSeparablePrefix` is the count of the first loop, and the run
holds an operator that is neither a Matrix nor a Range. -/
theorem FindSeparablePrefix_pos (I : Externals Op) (ops : List Op) (p : Nat)
    (hp : FindSeparablePrefix I ops = .ok p) (hpos : p ≠ 0) :
    p = separablePrefixLen I ops ∧
      ∃ i, i < p ∧ ∃ o, ops[i]? = some o ∧
        I.getType o ≠ .MatrixType ∧ I.getType o ≠ .RangeType := by
  obtain ⟨q, hq, hq2⟩ := FindSeparablePrefix_ok I ops
  rw [hp] at hq
  have hpq : p = q := by simpa using hq
  subst hpq
  have hlen : p = separablePrefixLen I ops := by
    rcases hq2 with h | h
    · exact absurd h hpos
    · exact h
  refine ⟨hlen, ?_⟩
  by_contra hno
  have hcheap : ∀ o ∈ ops.takeWhile (fun o => !(I.hasChannelCrosstalk o || I.isDynamic o)),
      I.getType o = .MatrixType ∨ I.getType o = .RangeType := by
    intro o ho
    by_contra hne
    apply hno
    obtain ⟨i, hi, hio⟩ := List.getElem_of_mem ho
    have hi2 : i < p := by rw [hlen, separablePrefixLen_eq]; exact hi
    refine ⟨i, hi2, o, ?_, ?_, ?_⟩
    · have hsplit := List.takeWhile_append_dropWhile
        (fun o => !(I.hasChannelCrosstalk o || I.isDynamic o)) ops
      rw [← hsplit, List.getElem?_append_left hi, List.getElem?_eq_getElem hi, hio]
    · intro h; exact hne (Or.inl h)
    · intro h; exact hne (Or.inr h)
  have h0 := FindSeparablePrefix_cheap I ops hcheap
  rw [hp] at h0
  exact hpos (by simpa using h0)


/-- More iterations allowed do not change the result of a scan. -/
theorem pairScan_mono (test : Op → Op → Bool)
    (rw : List Op → Int → Op → Op → List Op × Int) (fuel : Nat) :
    ∀ (opVec : List Op) (i : Int) (c : Nat) (r : List Op × Nat),
      pairScan test rw fuel opVec i c = .ok r →
        pairScan test rw (fuel + 1) opVec i c = .ok r := by
  induction fuel with
  | zero => intro opVec i c r h; simp [pairScan] at h
  | succ n ih =>
    intro opVec i c r h
    unfold pairScan at h
    unfold pairScan
    split
    · rename_i hlt
      rw [if_pos hlt] at h
      split
      · rename_i op1 op2 h1 h2
        rw [h1, h2] at h
        dsimp only at h
        split
        · rename_i ht
          rw [if_pos ht] at h
          exact ih _ _ _ _ h
        · rename_i ht
          rw [if_neg ht] at h
          exact ih _ _ _ _ h
      · rename_i hno
        split at h
        · rename_i op1 op2 h1 h2
          exact absurd h2 (hno op1 op2 h1)
        · simp at h
    · rename_i hlt
      rw [if_neg hlt] at h
      exact h

theorem pairScan_mono_add (test : Op → Op → Bool)
    (rw : List Op → Int → Op → Op → List Op × Int) (fuel extra : Nat)
    (opVec : List Op) (i : Int) (c : Nat) (r : List Op × Nat)
    (h : pairScan test rw fuel opVec i c = .ok r) :
    pairScan test rw (fuel + extra) opVec i c = .ok r := by
  induction extra with
  | zero => exact h
  | succ n ih => exact pairScan_mono test rw (fuel + n) opVec i c r ih

/-- A chain with a pair at positions `k`, `k + 1`, cut around that pair. -/
theorem exists_pair_split (opVec : List Op) (k : Nat) (hk : k + 1 < opVec.length) :
    ∃ pre post a b, opVec = pre ++ a :: b :: post ∧ pre.length = k := by
  have hk0 : k < opVec.length := by omega
  refine ⟨opVec.take k, opVec.drop (k + 2), opVec[k], opVec[k + 1], ?_, ?_⟩
  · conv_lhs => rw [← List.take_append_drop k opVec]
    rw [List.drop_eq_getElem_cons hk0, List.drop_eq_getElem_cons hk]
  · rw [List.length_take]; omega

/-- After the maximal separable run, no separable run starts. -/
theorem separablePrefixLen_drop (I : Externals Op) (ops : List Op) :
    separablePrefixLen I (ops.drop (separablePrefixLen I ops)) = 0 := by
  induction ops with
  | nil => rfl
  | cons o rest ih =>
    by_cases hc : (I.hasChannelCrosstalk o || I.isDynamic o) = true
    · rw [separablePrefixLen_cons_of_crosstalk I o rest hc, List.drop_zero,
        separablePrefixLen_cons_of_crosstalk I o rest hc]
    · simp only [Bool.not_eq_true] at hc
      rw [separablePrefixLen_cons_of_separable I o rest hc, List.drop_succ_cons]
      exact ih

/-- A forward Lut1D followed by no separable operator is not fused again. -/
theorem FindSeparablePrefix_after_fusion (I : Externals Op) (lut : Op) (rest : List Op)
    (ht : I.getType lut = .Lut1DType)
    (hd : I.getDirection lut = .TRANSFORM_DIR_FORWARD)
    (hrest : separablePrefixLen I rest = 0) :
    FindSeparablePrefix I (lut :: rest) = .ok 0 := by
  unfold FindSeparablePrefix
  dsimp only
  by_cases hc : (I.hasChannelCrosstalk lut || I.isDynamic lut) = true
  · rw [separablePrefixLen_cons_of_crosstalk I lut rest hc]
    simp [expensiveOpsLoop]
  · simp only [Bool.not_eq_true] at hc
    rw [separablePrefixLen_cons_of_separable I lut rest hc, hrest]
    simp [ht, hd]

/-- `OptimizeSeparablePrefix` changes nothing in its own result when the fusion yields one
forward Lut1D. -/
theorem OptimizeSeparablePrefix_idempotent_aux (I : Externals Op)
    (hI : MakesSingleForwardLut I) (ops : List Op) (inBitDepth : BitDepth) :
    ∃ r, OptimizeSeparablePrefix I ops inBitDepth = .ok r ∧
      OptimizeSeparablePrefix I r inBitDepth = .ok r ∧
      (r = ops ∨
        ∃ lut, r = lut :: ops.drop (separablePrefixLen I ops) ∧
          I.getType lut = .Lut1DType ∧ I.getDirection lut = .TRANSFORM_DIR_FORWARD ∧
          separablePrefixLen I (ops.drop (separablePrefixLen I ops)) = 0 ∧
          FindSeparablePrefix I r = .ok 0) := by
  obtain ⟨p, hp, hp2⟩ := FindSeparablePrefix_ok I ops
  by_cases h32 : inBitDepth = .BIT_DEPTH_F32 ∨ inBitDepth = .BIT_DEPTH_UINT32
  · have hsame : OptimizeSeparablePrefix I ops inBitDepth = .ok ops := by
      unfold OptimizeSeparablePrefix
      rcases h32 with h | h <;> subst h <;> cases ops <;> simp
    exact ⟨ops, hsame, hsame, Or.inl rfl⟩
  · by_cases hp0 : p = 0
    · subst hp0
      have hsame := OptimizeSeparablePrefix_of_zero I ops inBitDepth hp
      exact ⟨ops, hsame, hsame, Or.inl rfl⟩
    · have hlen : p = separablePrefixLen I ops := by
        rcases hp2 with h | h
        · exact absurd h hp0
        · exact h
      obtain ⟨lut, hlut, ht, hd⟩ := hI inBitDepth ((ops.take p).map I.clone)
      have hfused := OptimizeSeparablePrefix_eq I ops inBitDepth p hp (by omega)
        (fun h => h32 (Or.inl h)) (fun h => h32 (Or.inr h))
      rw [hlut, hlen] at hfused
      have hdrop := separablePrefixLen_drop I ops
      have hfind := FindSeparablePrefix_after_fusion I lut _ ht hd hdrop
      exact ⟨_, hfused, OptimizeSeparablePrefix_of_zero I _ inBitDepth hfind,
        Or.inr ⟨lut, rfl, ht, hd, hdrop, hfind⟩⟩


end RuleLemmas

/-! ## Safety and termination of the pair scans -/

section ScanSafety

variable {Op : Type}

/-- Within the range of `int` the wrapped loop bound is the one the scans are embedded
with; for the empty vector it is `-1`. -/
theorem sizeMinusOneWrapped_eq (size : Nat) (h : size ≤ 2 ^ 31) :
    sizeMinusOneWrapped size = sizeMinusOne size := by
  unfold sizeMinusOneWrapped sizeMinusOne
  dsimp only
  norm_num at h ⊢
  split <;> omega

/-- A scan whose rewrites leave the cursor non-negative reads inside the vector: it returns,
or the iteration bound of the model runs out. -/
theorem pairScan_in_range (test : Op → Op → Bool)
    (rw : List Op → Int → Op → Op → List Op × Int)
    (hrw : ∀ (opVec : List Op) (k : Nat) (a b : Op), 0 ≤ (rw opVec (k : Int) a b).2)
    (fuel : Nat) :
    ∀ (opVec : List Op) (k c : Nat),
      (∃ r, pairScan test rw fuel opVec (k : Int) c = .ok r) ∨
        pairScan test rw fuel opVec (k : Int) c = .error .outOfFuel := by
  induction fuel with
  | zero => intro opVec k c; exact Or.inr rfl
  | succ n ih =>
    intro opVec k c
    rw [pairScan_succ]
    by_cases hk : k + 1 < opVec.length
    · have hk0 : k < opVec.length := by omega
      rw [if_pos hk, List.getElem?_eq_getElem hk0, List.getElem?_eq_getElem hk]
      dsimp only
      by_cases ht : test opVec[k] opVec[k + 1] = true
      · rw [if_pos ht]
        obtain ⟨k', hk'⟩ := Int.eq_ofNat_of_zero_le (hrw opVec k opVec[k] opVec[k + 1])
        rw [hk']
        exact ih _ k' _
      · rw [if_neg ht]
        exact ih _ (k + 1) _
    · rw [if_neg hk]
      exact Or.inl ⟨_, rfl⟩

theorem inverseRewrite_cursor (I : Externals Op) (opVec : List Op) (k : Nat) (a b : Op) :
    0 ≤ (inverseRewrite I opVec (k : Int) a b).2 := by
  unfold inverseRewrite
  split
  · exact le_max_left _ _
  · dsimp only; omega

theorem combineRewrite_cursor (I : Externals Op) (opVec : List Op) (k : Nat) (a b : Op) :
    0 ≤ (combineRewrite I opVec (k : Int) a b).2 := by
  unfold combineRewrite
  exact le_max_left _ _

/-- On a chain of at most one operator a scan returns at once. -/
theorem pairScan_short (test : Op → Op → Bool)
    (rw : List Op → Int → Op → Op → List Op × Int) (fuel : Nat) (opVec : List Op)
    (h : opVec.length ≤ 1) :
    pairScan test rw (fuel + 1) opVec 0 0 = .ok (opVec, 0) := by
  have := pairScan_succ test rw fuel opVec 0 0
  simp only [Nat.cast_zero] at this
  rw [this, if_neg (by omega)]

/-- The loop of `RemoveInverseOps` ends within `2 * size - firstindex + 1` tests of its
condition; every rewrite counted shortens the chain. -/
theorem RemoveInverseOpsLoop_terminates (I : Externals Op) (oFlags : OptimizationFlags)
    (fuel : Nat) :
    ∀ (opVec : List Op) (k c : Nat), k ≤ opVec.length →
      2 * opVec.length + 1 ≤ fuel + k →
      ∃ r c', RemoveInverseOpsLoop I oFlags fuel opVec (k : Int) c = .ok (r, c') ∧
        c' + r.length ≤ c + opVec.length ∧
        (opVec ≠ [] → c' + 1 ≤ c + opVec.length) ∧
        (opVec = [] → c' = c) := by
  induction fuel with
  | zero => intro opVec k c h1 h2; omega
  | succ n ih =>
    intro opVec k c h1 h2
    by_cases hk : k + 1 < opVec.length
    · obtain ⟨pre, post, a, b, hsplit, hpre⟩ := exists_pair_split opVec k hk
      subst hsplit
      subst hpre
      simp only [List.length_append, List.length_cons] at hk h1 h2
      by_cases hp : isInversePair I oFlags a b = true
      · by_cases hn : I.isNoOp (I.getIdentityReplacement a) = true
        · rw [RemoveInverseOpsLoop_erase I oFlags n pre post a b c hp hn]
          obtain ⟨r, c', hr, hA, hB, hC⟩ := ih (pre ++ post) (pre.length - 1) (c + 1)
            (by simp only [List.length_append]; omega)
            (by simp only [List.length_append]; omega)
          refine ⟨r, c', hr, ?_, ?_, ?_⟩
          · simp only [List.length_append, List.length_cons] at hA ⊢; omega
          · intro _
            simp only [List.length_append, List.length_cons]
            by_cases he : pre ++ post = []
            · have := hC he; omega
            · have := hB he
              simp only [List.length_append] at this; omega
          · intro he; simp at he
        · simp only [Bool.not_eq_true] at hn
          rw [RemoveInverseOpsLoop_replace I oFlags n pre post a b c hp hn]
          obtain ⟨r, c', hr, hA, hB, _⟩ :=
            ih (pre ++ I.getIdentityReplacement a :: post) (pre.length + 1) (c + 1)
              (by simp only [List.length_append, List.length_cons]; omega)
              (by simp only [List.length_append, List.length_cons]; omega)
          refine ⟨r, c', hr, ?_, ?_, ?_⟩
          · simp only [List.length_append, List.length_cons] at hA ⊢; omega
          · intro _
            have := hB (by simp)
            simp only [List.length_append, List.length_cons] at this ⊢; omega
          · intro he; simp at he
      · simp only [Bool.not_eq_true] at hp
        rw [RemoveInverseOpsLoop_skip I oFlags n pre post a b c hp]
        obtain ⟨r, c', hr, hA, hB, _⟩ := ih (pre ++ a :: b :: post) (pre.length + 1) c
          (by simp only [List.length_append, List.length_cons]; omega)
          (by simp only [List.length_append, List.length_cons]; omega)
        refine ⟨r, c', hr, ?_, ?_, ?_⟩
        · simp only [List.length_append, List.length_cons] at hA ⊢; omega
        · intro _
          have := hB (by simp)
          simp only [List.length_append, List.length_cons] at this ⊢; omega
        · intro he; simp at he
    · rw [RemoveInverseOpsLoop_done I oFlags n opVec k c (by omega)]
      refine ⟨opVec, c, rfl, by omega, ?_, fun _ => rfl⟩
      intro hne
      have : opVec.length ≠ 0 := fun h => hne (List.length_eq_zero.1 h)
      omega

/-- At every point of the scan of `CombineOps` no pair before the cursor can be combined;
so no pair of the result can. -/
theorem CombineOpsLoop_result_chain (I : Externals Op) (oFlags : OptimizationFlags)
    (fuel : Nat) :
    ∀ (opVec : List Op) (k c : Nat) (r : List Op) (c' : Nat),
      List.Chain' (fun a b => isCombinePair I oFlags a b = false) (opVec.take (k + 1)) →
      CombineOpsLoop I oFlags fuel opVec (k : Int) c = .ok (r, c') →
      List.Chain' (fun a b => isCombinePair I oFlags a b = false) r := by
  induction fuel with
  | zero => intro opVec k c r c' _ h; simp [CombineOpsLoop] at h
  | succ n ih =>
    intro opVec k c r c' hch h
    by_cases hk : k + 1 < opVec.length
    · obtain ⟨pre, post, a, b, hsplit, hpre⟩ := exists_pair_split opVec k hk
      subst hsplit
      subst hpre
      rw [CombineOpsLoop_step] at h
      have htake : (pre ++ a :: b :: post).take (pre.length + 1) = pre ++ [a] := by
        rw [List.take_append_eq_append_take]
        simp
      rw [htake] at hch
      by_cases hc : isCombinePair I oFlags a b = true
      · rw [if_pos hc] at h
        refine ih _ _ _ r c' ?_ h
        cases hpl : pre.length with
        | zero =>
          have hpre0 : pre = [] := List.length_eq_zero.1 hpl
          subst hpre0
          show List.Chain' _ (List.take 1 ([] ++ I.combineWith a b ++ post))
          cases hl : ([] ++ I.combineWith a b ++ post) with
          | nil => exact List.chain'_nil
          | cons x t =>
            rw [List.take_succ_cons, List.take_zero]
            exact List.chain'_singleton x
        | succ m =>
          have hsub : m + 1 - 1 + 1 = pre.length := by omega
          rw [hsub, List.append_assoc, List.take_left]
          exact (List.chain'_append.1 hch).1
      · rw [if_neg hc] at h
        simp only [Bool.not_eq_true] at hc
        refine ih _ _ _ r c' ?_ h
        have htake2 : (pre ++ a :: b :: post).take (pre.length + 1 + 1) =
            (pre ++ [a]) ++ [b] := by
          have hre : pre ++ a :: b :: post = ((pre ++ [a]) ++ [b]) ++ post := by simp
          rw [hre, List.take_left' (by simp)]
        rw [htake2]
        refine List.Chain'.append hch (List.chain'_singleton b) ?_
        intro x hx y hy
        have hlast : (pre ++ [a]).getLast? = some a := by simp
        rw [hlast] at hx
        simp only [Option.mem_def, Option.some.injEq, List.head?_cons] at hx hy
        subst hx; subst hy
        exact hc
    · rw [CombineOpsLoop_eq_pairScan, pairScan_succ, if_neg hk] at h
      simp only [Except.ok.injEq, Prod.mk.injEq] at h
      rw [← h.1]
      rw [List.take_of_length_le (by omega)] at hch
      exact hch

end ScanSafety


/-! ## Properties of `LogOpData` -/

section LogLemmas

variable {D : Type}

theorem paramAt_of_length (params : List D) (i : Fin 4) (h : params.length = 4) :
    ∃ d, params[i.val]? = some d ∧ LogOpData.paramAt params i = .ok d := by
  have hi : i.val < params.length := by rw [h]; exact i.isLt
  refine ⟨params[i.val], List.getElem?_eq_getElem hi, ?_⟩
  unfold LogOpData.paramAt
  rw [List.getElem?_eq_getElem hi]

/-- On a Log with four red parameters `isLogBase` reads inside the vector. -/
theorem isLogBase_ok (X : DoubleOps D) (a : LogOpData D) (base : D)
    (h : a.m_redParams.length = 4) : ∃ b, LogOpData.isLogBase X a base = .ok b := by
  obtain ⟨d1, _, h1⟩ := paramAt_of_length a.m_redParams X.LOG_SIDE_SLOPE h
  obtain ⟨d2, _, h2⟩ := paramAt_of_length a.m_redParams X.LIN_SIDE_SLOPE h
  obtain ⟨d3, _, h3⟩ := paramAt_of_length a.m_redParams X.LIN_SIDE_OFFSET h
  obtain ⟨d4, _, h4⟩ := paramAt_of_length a.m_redParams X.LOG_SIDE_OFFSET h
  unfold LogOpData.isLogBase
  rw [h1, h2, h3, h4]
  dsimp only
  split
  · split
    · split
      · split
        · split
          · exact ⟨_, rfl⟩
          · exact ⟨_, rfl⟩
        · exact ⟨_, rfl⟩
      · exact ⟨_, rfl⟩
    · exact ⟨_, rfl⟩
  · exact ⟨_, rfl⟩

/-- `ValidateParams` looks at the direction only to tell it from the unknown one. -/
theorem ValidateParams_direction (X : DoubleOps D) (params : List D)
    (d e : TransformDirection) (h : LogOpData.ValidateParams X params d = .ok ())
    (he : e ≠ .TRANSFORM_DIR_UNKNOWN) :
    d ≠ .TRANSFORM_DIR_UNKNOWN ∧ params.length = 4 ∧
      LogOpData.ValidateParams X params e = .ok () := by
  unfold LogOpData.ValidateParams at h ⊢
  by_cases hl : params.length ≠ 4
  · rw [if_pos hl] at h; simp at h
  · rw [if_neg hl] at h ⊢
    by_cases hd : d ≠ .TRANSFORM_DIR_UNKNOWN
    · rw [if_pos hd] at h
      rw [if_pos he]
      exact ⟨hd, by simpa using hl, h⟩
    · rw [if_neg hd] at h; simp at h

theorem GetInverseTransformDirection_known (d : TransformDirection)
    (h : d ≠ .TRANSFORM_DIR_UNKNOWN) :
    GetInverseTransformDirection d ≠ .TRANSFORM_DIR_UNKNOWN := by
  cases d <;> simp [GetInverseTransformDirection] at h ⊢

/-- What `validate` checks. -/
theorem validate_ok_iff (X : DoubleOps D) (a : LogOpData D) :
    LogOpData.validate X a = .ok () ↔
      LogOpData.ValidateParams X a.m_redParams a.m_direction = .ok () ∧
      LogOpData.ValidateParams X a.m_greenParams a.m_direction = .ok () ∧
      LogOpData.ValidateParams X a.m_blueParams a.m_direction = .ok () ∧
      X.eq a.m_base X.one = false ∧ X.le a.m_base X.zero = false := by
  unfold LogOpData.validate
  cases h1 : LogOpData.ValidateParams X a.m_redParams a.m_direction with
  | error e => simp
  | ok u1 =>
    cases h2 : LogOpData.ValidateParams X a.m_greenParams a.m_direction with
    | error e => simp
    | ok u2 =>
      cases h3 : LogOpData.ValidateParams X a.m_blueParams a.m_direction with
      | error e => simp
      | ok u3 =>
        cases hb : X.eq a.m_base X.one <;> cases hz : X.le a.m_base X.zero <;> simp

/-- The inverse of a valid Log is built and valid: it is the same Log with the inverse
direction. -/
theorem inverse_of_valid (X : DoubleOps D) (a : LogOpData D)
    (hv : LogOpData.validate X a = .ok ()) :
    a.m_direction ≠ .TRANSFORM_DIR_UNKNOWN ∧
      LogOpData.inverse X a =
        .ok { a with m_direction := GetInverseTransformDirection a.m_direction } := by
  obtain ⟨h1, h2, h3, hb, hz⟩ := (validate_ok_iff X a).1 hv
  have hd : a.m_direction ≠ .TRANSFORM_DIR_UNKNOWN :=
    (ValidateParams_direction X _ _ .TRANSFORM_DIR_FORWARD h1 (by decide)).1
  have he := GetInverseTransformDirection_known a.m_direction hd
  refine ⟨hd, ?_⟩
  have hv2 : LogOpData.validate X
      { a with m_direction := GetInverseTransformDirection a.m_direction } = .ok () := by
    rw [validate_ok_iff]
    exact ⟨(ValidateParams_direction X _ _ _ h1 he).2.2,
      (ValidateParams_direction X _ _ _ h2 he).2.2,
      (ValidateParams_direction X _ _ _ h3 he).2.2, hb, hz⟩
  unfold LogOpData.inverse LogOpData.clone
  dsimp only
  rw [hv2]

theorem vectorEq_self_of_eq (X : DoubleOps D)
    (hlaw : ∀ x y, X.eq x y = true → X.eq x x = true) :
    ∀ (xs ys : List D), LogOpData.vectorEq X xs ys = true →
      LogOpData.vectorEq X xs xs = true := by
  intro xs
  induction xs with
  | nil => intro ys _; rfl
  | cons x xs ih =>
    intro ys h
    cases ys with
    | nil => simp [LogOpData.vectorEq] at h
    | cons y ys =>
      simp only [LogOpData.vectorEq, Bool.and_eq_true] at h ⊢
      exact ⟨hlaw x y h.1, ih ys h.2⟩

theorem vectorEq_symm (X : DoubleOps D) (hsymm : ∀ x y, X.eq x y = X.eq y x) :
    ∀ (xs ys : List D), LogOpData.vectorEq X xs ys = LogOpData.vectorEq X ys xs := by
  intro xs
  induction xs with
  | nil => intro ys; cases ys <;> rfl
  | cons x xs ih =>
    intro ys
    cases ys with
    | nil => rfl
    | cons y ys => simp only [LogOpData.vectorEq, hsymm x y, ih ys]

theorem GetInverseTransformDirection_eq_comm (d e : TransformDirection) :
    decide (GetInverseTransformDirection d = e) = decide (GetInverseTransformDirection e = d) := by
  cases d <;> cases e <;> decide


end LogLemmas


/-! ## Properties of the string helpers -/

section StringLemmas

theorem strip_idempotent (str : String) :
    pystring.strip (pystring.strip str) = pystring.strip str := by
  unfold pystring.strip
  apply congrArg String.mk
  show (((str.data.dropWhile pystring.isspace).rdropWhile pystring.isspace).dropWhile
    pystring.isspace).rdropWhile pystring.isspace = _
  rw [dropWhile_rdropWhile_dropWhile, List.rdropWhile_idempotent]

/-- A string that `strip` leaves alone neither starts nor ends with white space. -/
theorem strip_fixed_ends (p : String) (h : pystring.strip p = p) :
    (∀ c, p.data.head? = some c → pystring.isspace c = false) ∧
      (∀ c, p.data.getLast? = some c → pystring.isspace c = false) := by
  have hd : (p.data.dropWhile pystring.isspace).rdropWhile pystring.isspace = p.data := by
    have := congrArg String.data h
    simpa [pystring.strip] using this
  have h1 : ((p.data.dropWhile pystring.isspace).rdropWhile pystring.isspace).length ≤
      (p.data.dropWhile pystring.isspace).length :=
    (List.rdropWhile_prefix pystring.isspace _).length_le
  have h2 : (p.data.dropWhile pystring.isspace).length ≤ p.data.length :=
    (List.dropWhile_suffix pystring.isspace).length_le
  rw [hd] at h1
  have h3 : p.data.dropWhile pystring.isspace = p.data :=
    (List.dropWhile_suffix pystring.isspace).eq_of_length (Nat.le_antisymm h2 h1)
  rw [h3] at hd
  constructor
  · intro c hc
    cases hl : p.data with
    | nil => rw [hl] at hc; simp at hc
    | cons a t =>
      rw [hl] at hc h3
      simp only [List.head?_cons, Option.some.injEq] at hc
      subst hc
      by_contra hsp
      simp only [Bool.not_eq_false] at hsp
      rw [List.dropWhile_cons_of_pos hsp] at h3
      have := (List.dropWhile_suffix pystring.isspace (l := t)).length_le
      rw [h3] at this
      simp at this
  · intro c hc
    rw [List.getLast?_eq_some_iff] at hc
    obtain ⟨t, ht⟩ := hc
    by_contra hsp
    simp only [Bool.not_eq_false] at hsp
    rw [ht, List.rdropWhile_concat_pos _ _ _ hsp] at hd
    have := (List.rdropWhile_prefix pystring.isspace t).length_le
    rw [hd] at this
    simp at this

/-- `pystring::find` of a one-character string tells whether the character occurs. -/
theorem findFrom_single (c0 : Char) :
    ∀ (l : List Char) (i : Nat), (-1 < pystring.findFrom [c0] l i) ↔ c0 ∈ l := by
  intro l
  induction l with
  | nil => intro i; simp [pystring.findFrom]
  | cons c rest ih =>
    intro i
    unfold pystring.findFrom
    by_cases hc : c0 = c
    · subst hc
      simp
      omega
    · have hne : (c0 == c) = false := by simpa using hc
      simp only [List.isPrefixOf, hne, Bool.false_and, Bool.false_eq_true, if_false, ih,
        List.mem_cons, hc, false_or]

theorem splitAux_single_ne_nil (c0 : Char) :
    ∀ (l cur : List Char), pystring.splitAux [c0] l 0 cur ≠ [] := by
  intro l
  induction l with
  | nil => intro cur; simp [pystring.splitAux]
  | cons c rest ih =>
    intro cur
    unfold pystring.splitAux
    split
    · simp
    · exact ih _

/-- The pieces of a split on one character, joined by that character, give the string. -/
theorem splitAux_single_join (c0 : Char) :
    ∀ (l cur : List Char),
      List.intercalate [c0] ((pystring.splitAux [c0] l 0 cur).map String.data) =
        cur.reverse ++ l := by
  intro l
  induction l with
  | nil => intro cur; simp [pystring.splitAux, List.intercalate]
  | cons c rest ih =>
    intro cur
    unfold pystring.splitAux
    by_cases hc : c0 = c
    · subst hc
      have hp : ([c0].isPrefixOf (c0 :: rest)) = true := by simp [List.isPrefixOf]
      rw [if_pos hp]
      have hrec := ih []
      simp only [List.length_singleton, Nat.sub_self]
      cases hs : pystring.splitAux [c0] rest 0 [] with
      | nil => exact absurd hs (splitAux_single_ne_nil c0 rest [])
      | cons y ys =>
        rw [hs] at hrec
        simp only [List.intercalate, List.map_cons, List.intersperse_cons_cons,
          List.flatten_cons] at hrec ⊢
        rw [hrec]
        simp
    · have hp : ([c0].isPrefixOf (c :: rest)) = false := by
        simp [List.isPrefixOf, hc]
      rw [if_neg (by simp [hp])]
      rw [ih (c :: cur)]
      simp

/-- No piece of a split on one character holds that character. -/
theorem splitAux_single_no_sep (c0 : Char) :
    ∀ (l cur : List Char), c0 ∉ cur →
      ∀ p ∈ pystring.splitAux [c0] l 0 cur, c0 ∉ p.data := by
  intro l
  induction l with
  | nil =>
    intro cur hcur p hp
    simp only [pystring.splitAux, List.mem_singleton] at hp
    subst hp
    simpa using hcur
  | cons c rest ih =>
    intro cur hcur p hp
    unfold pystring.splitAux at hp
    by_cases hc : c0 = c
    · subst hc
      have hpre : ([c0].isPrefixOf (c0 :: rest)) = true := by simp [List.isPrefixOf]
      rw [if_pos hpre] at hp
      simp only [List.length_singleton, Nat.sub_self, List.mem_cons] at hp
      rcases hp with hp | hp
      · subst hp; simpa using hcur
      · exact ih [] (by simp) p hp
    · have hpre : ([c0].isPrefixOf (c :: rest)) = false := by
        simp [List.isPrefixOf, hc]
      rw [if_neg (by simp [hpre])] at hp
      exact ih (c :: cur) (by simp [hc, hcur]) p hp

/-- The keys of the set built by the first loop of `IntersectStringVecsCaseIgnore`. -/
theorem mem_allvalues (vec2 : List String) :
    ∀ (acc : List String) (x : String),
      x ∈ vec2.foldl
          (fun set v => if pystring.lower v ∈ set then set else set ++ [pystring.lower v])
          acc ↔
        x ∈ acc ∨ ∃ w ∈ vec2, pystring.lower w = x := by
  induction vec2 with
  | nil => intro acc x; simp
  | cons v rest ih =>
    intro acc x
    rw [List.foldl_cons, ih]
    by_cases hv : pystring.lower v ∈ acc
    · rw [if_pos hv]
      constructor
      · rintro (h | ⟨w, hw, hx⟩)
        · exact Or.inl h
        · exact Or.inr ⟨w, List.mem_cons_of_mem _ hw, hx⟩
      · rintro (h | ⟨w, hw, hx⟩)
        · exact Or.inl h
        · rcases List.mem_cons.1 hw with hw | hw
          · subst hw; subst hx; exact Or.inl hv
          · exact Or.inr ⟨w, hw, hx⟩
    · rw [if_neg hv]
      constructor
      · rintro (h | ⟨w, hw, hx⟩)
        · rcases List.mem_append.1 h with h | h
          · exact Or.inl h
          · exact Or.inr ⟨v, List.mem_cons_self _ _, (List.mem_singleton.1 h).symm⟩
        · exact Or.inr ⟨w, List.mem_cons_of_mem _ hw, hx⟩
      · rintro (h | ⟨w, hw, hx⟩)
        · exact Or.inl (List.mem_append_left _ h)
        · rcases List.mem_cons.1 hw with hw | hw
          · subst hw; subst hx
            exact Or.inl (List.mem_append_right _ (List.mem_singleton_self _))
          · exact Or.inr ⟨w, hw, hx⟩

/-- The second loop of `IntersectStringVecsCaseIgnore` appends the entries that pass. -/
theorem foldl_push_eq_filter (keep : String → Bool) (vec1 : List String) :
    ∀ (acc : List String),
      vec1.foldl (fun newvec v => if keep v = true then newvec ++ [v] else newvec) acc =
        acc ++ vec1.filter keep := by
  induction vec1 with
  | nil => intro acc; simp
  | cons v rest ih =>
    intro acc
    rw [List.foldl_cons, ih]
    by_cases hk : keep v = true
    · rw [if_pos hk, List.filter_cons_of_pos hk]; simp
    · rw [if_neg hk, List.filter_cons_of_neg hk]

theorem IntersectStringVecsCaseIgnore_eq (vec1 vec2 : List String) :
    IntersectStringVecsCaseIgnore vec1 vec2 =
      vec1.filter (fun v => vec2.any (fun w => pystring.lower v == pystring.lower w)) := by
  unfold IntersectStringVecsCaseIgnore
  dsimp only
  have hkeep : ∀ v : String,
      (pystring.lower v ∈ vec2.foldl
          (fun set v => if pystring.lower v ∈ set then set else set ++ [pystring.lower v])
          []) ↔
        vec2.any (fun w => pystring.lower v == pystring.lower w) = true := by
    intro v
    rw [mem_allvalues]
    simp only [List.not_mem_nil, false_or, List.any_eq_true, beq_iff_eq]
    constructor
    · rintro ⟨w, hw, hx⟩; exact ⟨w, hw, hx.symm⟩
    · rintro ⟨w, hw, hx⟩; exact ⟨w, hw, hx.symm⟩
  have hfun : (fun (newvec : List String) (v : String) =>
      if pystring.lower v ∈ vec2.foldl
          (fun set v => if pystring.lower v ∈ set then set else set ++ [pystring.lower v])
          [] then newvec ++ [v] else newvec) =
      (fun newvec v =>
        if (vec2.any (fun w => pystring.lower v == pystring.lower w)) = true
        then newvec ++ [v] else newvec) := by
    funext newvec v
    by_cases h : vec2.any (fun w => pystring.lower v == pystring.lower w) = true
    · rw [if_pos h, if_pos ((hkeep v).2 h)]
    · rw [if_neg h, if_neg (fun hh => h ((hkeep v).1 hh))]
  rw [hfun, foldl_push_eq_filter]
  rfl


theorem ConvertSpecialCharToXmlToken_foldl (l : List Char) :
    ∀ (res : String),
      (l.foldl
        (fun res ch =>
          match findToken elts ch with
          | some token => res ++ token
          | none => res.push ch) res).data = res.data ++ l.flatMap xmlTokenOf := by
  induction l with
  | nil => intro res; simp
  | cons c rest ih =>
    intro res
    rw [List.foldl_cons, ih, List.flatMap_cons]
    unfold xmlTokenOf
    cases findToken elts c with
    | none => simp [String.data_push]
    | some token => simp [String.data_append]

/-- The output of `ConvertSpecialCharToXmlToken` is the concatenation of the tokens of the
characters of its input. -/
theorem ConvertSpecialCharToXmlToken_data (str : String) :
    (ConvertSpecialCharToXmlToken str).data = str.data.flatMap xmlTokenOf := by
  unfold ConvertSpecialCharToXmlToken
  rw [ConvertSpecialCharToXmlToken_foldl]
  rfl

/-- The token of a character: one of the five entities, or the character itself. -/
theorem xmlTokenOf_cases (c : Char) :
    (c = '\x22' ∧ xmlTokenOf c = ['&', 'q', 'u', 'o', 't', ';']) ∨
      (c = '\x27' ∧ xmlTokenOf c = ['&', 'a', 'p', 'o', 's', ';']) ∨
      (c = '<' ∧ xmlTokenOf c = ['&', 'l', 't', ';']) ∨
      (c = '>' ∧ xmlTokenOf c = ['&', 'g', 't', ';']) ∨
      (c = '&' ∧ xmlTokenOf c = ['&', 'a', 'm', 'p', ';']) ∨
      (c ≠ '\x22' ∧ c ≠ '\x27' ∧ c ≠ '<' ∧ c ≠ '>' ∧ c ≠ '&' ∧ xmlTokenOf c = [c]) := by
  by_cases h1 : c = '\x22'
  · subst h1; exact Or.inl ⟨rfl, by decide⟩
  by_cases h2 : c = '\x27'
  · subst h2; exact Or.inr (Or.inl ⟨rfl, by decide⟩)
  by_cases h3 : c = '<'
  · subst h3; exact Or.inr (Or.inr (Or.inl ⟨rfl, by decide⟩))
  by_cases h4 : c = '>'
  · subst h4; exact Or.inr (Or.inr (Or.inr (Or.inl ⟨rfl, by decide⟩)))
  by_cases h5 : c = '&'
  · subst h5; exact Or.inr (Or.inr (Or.inr (Or.inr (Or.inl ⟨rfl, by decide⟩))))
  refine Or.inr (Or.inr (Or.inr (Or.inr (Or.inr ⟨h1, h2, h3, h4, h5, ?_⟩))))
  have e1 : ("&quot;" = "") = False := by decide
  have e2 : ("&apos;" = "") = False := by decide
  have e3 : ("&lt;" = "") = False := by decide
  have e4 : ("&gt;" = "") = False := by decide
  have e5 : ("&amp;" = "") = False := by decide
  simp only [xmlTokenOf, elts, findToken, e1, e2, e3, e4, e5, h1, h2, h3, h4, h5, if_false,
    if_true]


theorem xmlToken_no_special (l : List Char) (x : Char) (hx : x ∈ l.flatMap xmlTokenOf) :
    x ≠ '\x22' ∧ x ≠ '\x27' ∧ x ≠ '<' ∧ x ≠ '>' := by
  obtain ⟨c, _, hc⟩ := List.mem_flatMap.1 hx
  have q1 : ∀ y ∈ ['&', 'q', 'u', 'o', 't', ';'],
      y ≠ '\x22' ∧ y ≠ '\x27' ∧ y ≠ '<' ∧ y ≠ '>' := by decide
  have q2 : ∀ y ∈ ['&', 'a', 'p', 'o', 's', ';'],
      y ≠ '\x22' ∧ y ≠ '\x27' ∧ y ≠ '<' ∧ y ≠ '>' := by decide
  have q3 : ∀ y ∈ ['&', 'l', 't', ';'],
      y ≠ '\x22' ∧ y ≠ '\x27' ∧ y ≠ '<' ∧ y ≠ '>' := by decide
  have q4 : ∀ y ∈ ['&', 'g', 't', ';'],
      y ≠ '\x22' ∧ y ≠ '\x27' ∧ y ≠ '<' ∧ y ≠ '>' := by decide
  have q5 : ∀ y ∈ ['&', 'a', 'm', 'p', ';'],
      y ≠ '\x22' ∧ y ≠ '\x27' ∧ y ≠ '<' ∧ y ≠ '>' := by decide
  rcases xmlTokenOf_cases c with ⟨_, t⟩ | ⟨_, t⟩ | ⟨_, t⟩ | ⟨_, t⟩ | ⟨_, t⟩ |
    ⟨h1, h2, h3, h4, _, t⟩
  · rw [t] at hc; exact q1 x hc
  · rw [t] at hc; exact q2 x hc
  · rw [t] at hc; exact q3 x hc
  · rw [t] at hc; exact q4 x hc
  · rw [t] at hc; exact q5 x hc
  · rw [t, List.mem_singleton] at hc
    subst hc
    exact ⟨h1, h2, h3, h4⟩

theorem amp_split (tail pre rest : List Char) (h : '&' ∉ tail)
    (heq : pre ++ '&' :: rest = '&' :: tail) : pre = [] ∧ rest = tail := by
  cases pre with
  | nil => simpa using heq
  | cons p pre' =>
    exfalso
    simp only [List.cons_append, List.cons.injEq] at heq
    apply h
    rw [← heq.2]
    simp

/-- An `&` of the output starts an entity. -/
theorem xmlToken_amp (l : List Char) :
    ∀ (pre post : List Char), l.flatMap xmlTokenOf = pre ++ '&' :: post →
      ∃ tail rest, post = tail ++ rest ∧
        tail ∈ [['q', 'u', 'o', 't', ';'], ['a', 'p', 'o', 's', ';'], ['l', 't', ';'],
          ['g', 't', ';'], ['a', 'm', 'p', ';']] := by
  induction l with
  | nil => intro pre post h; simp at h
  | cons c l ih =>
    intro pre post h
    rw [List.flatMap_cons, List.append_eq_append_iff] at h
    rcases h with ⟨a', _, h2⟩ | ⟨c', h1, h2⟩
    · exact ih a' post h2
    · cases c' with
      | nil => exact ih [] post (by simpa using h2.symm)
      | cons x c'' =>
        simp only [List.cons_append, List.cons.injEq] at h2
        obtain ⟨hx, hpost⟩ := h2
        subst hx
        rcases xmlTokenOf_cases c with ⟨_, t⟩ | ⟨_, t⟩ | ⟨_, t⟩ | ⟨_, t⟩ | ⟨_, t⟩ |
          ⟨_, _, _, _, h5, t⟩
        · rw [t] at h1
          obtain ⟨_, hr⟩ := amp_split _ pre c'' (by decide) h1.symm
          exact ⟨_, _, by rw [hpost, hr], by simp⟩
        · rw [t] at h1
          obtain ⟨_, hr⟩ := amp_split _ pre c'' (by decide) h1.symm
          exact ⟨_, _, by rw [hpost, hr], by simp⟩
        · rw [t] at h1
          obtain ⟨_, hr⟩ := amp_split _ pre c'' (by decide) h1.symm
          exact ⟨_, _, by rw [hpost, hr], by simp⟩
        · rw [t] at h1
          obtain ⟨_, hr⟩ := amp_split _ pre c'' (by decide) h1.symm
          exact ⟨_, _, by rw [hpost, hr], by simp⟩
        · rw [t] at h1
          obtain ⟨_, hr⟩ := amp_split _ pre c'' (by decide) h1.symm
          exact ⟨_, _, by rw [hpost, hr], by simp⟩
        · exfalso
          rw [t] at h1
          cases pre with
          | nil =>
            simp only [List.nil_append, List.cons.injEq] at h1
            exact h5 h1.1
          | cons p pre' =>
            have := congrArg List.length h1
            simp at this

theorem xmlToken_head (a b : Char) (A B : List Char)
    (h : xmlTokenOf a ++ A = xmlTokenOf b ++ B) : a = b ∧ A = B := by
  rcases xmlTokenOf_cases a with ⟨ha, ta⟩ | ⟨ha, ta⟩ | ⟨ha, ta⟩ | ⟨ha, ta⟩ | ⟨ha, ta⟩ |
      ⟨_, _, _, _, ha, ta⟩ <;>
    rcases xmlTokenOf_cases b with ⟨hb, tb⟩ | ⟨hb, tb⟩ | ⟨hb, tb⟩ | ⟨hb, tb⟩ | ⟨hb, tb⟩ |
      ⟨_, _, _, _, hb, tb⟩ <;>
    rw [ta, tb] at h <;>
    simp only [List.cons_append, List.nil_append, List.cons.injEq] at h <;>
    first
    | exact ⟨ha.trans hb.symm, h.2.2.2.2.2.2⟩
    | exact ⟨ha.trans hb.symm, h.2.2.2.2.2⟩
    | exact ⟨ha.trans hb.symm, h.2.2.2.2⟩
    | exact h
    | exact absurd h.1.symm hb
    | exact absurd h.1 ha
    | exact absurd h.2.1 (by decide)
    | exact absurd h.2.2.1 (by decide)

theorem xmlToken_injective (l1 : List Char) :
    ∀ (l2 : List Char), l1.flatMap xmlTokenOf = l2.flatMap xmlTokenOf → l1 = l2 := by
  induction l1 with
  | nil =>
    intro l2 h
    cases l2 with
    | nil => rfl
    | cons b l2 =>
      exfalso
      rw [List.flatMap_cons] at h
      have hl := congrArg List.length h
      rcases xmlTokenOf_cases b with ⟨_, t⟩ | ⟨_, t⟩ | ⟨_, t⟩ | ⟨_, t⟩ | ⟨_, t⟩ |
        ⟨_, _, _, _, _, t⟩ <;> rw [t] at hl <;> simp at hl
  | cons a l1 ih =>
    intro l2 h
    cases l2 with
    | nil =>
      exfalso
      rw [List.flatMap_cons] at h
      have hl := congrArg List.length h
      rcases xmlTokenOf_cases a with ⟨_, t⟩ | ⟨_, t⟩ | ⟨_, t⟩ | ⟨_, t⟩ | ⟨_, t⟩ |
        ⟨_, _, _, _, _, t⟩ <;> rw [t] at hl <;> simp at hl
    | cons b l2 =>
      rw [List.flatMap_cons, List.flatMap_cons] at h
      obtain ⟨hab, hrest⟩ := xmlToken_head a b _ _ h
      rw [hab, ih l2 hrest]

end StringLemmas


/-! ## Properties of `buildFileOps` -/

section FileLemmas

variable {OpData Op : Type}

/-- The loop that counts the index down builds what the forward loop builds on the
reversed entries. -/
theorem buildInverseLoop_eq (E : FileExternals OpData Op) (newDir : TransformDirection)
    (opDataVec : List OpData) :
    ∀ (n : Nat) (ops : List Op), n ≤ opDataVec.length →
      buildInverseLoop E newDir opDataVec n ops =
        buildForwardLoop E newDir (opDataVec.take n).reverse ops := by
  intro n
  induction n with
  | zero => intro ops _; rfl
  | succ n ih =>
    intro ops hn
    have hlt : n < opDataVec.length := by omega
    have htake : (opDataVec.take (n + 1)).reverse =
        opDataVec[n] :: (opDataVec.take n).reverse := by
      rw [List.take_succ, List.getElem?_eq_getElem hlt]
      simp
    rw [htake]
    unfold buildInverseLoop buildForwardLoop
    rw [List.getElem?_eq_getElem hlt]
    dsimp only
    cases BuildOp E ops opDataVec[n] newDir with
    | error e => rfl
    | ok ops1 => exact ih ops1 (by omega)

/-- When every call of `BuildOp` appends the operators of its operator data, the forward
loop appends them in the order of the entries. -/
theorem buildForwardLoop_append (E : FileExternals OpData Op) (newDir : TransformDirection)
    (built : OpData → List Op)
    (happ : ∀ ops opData, BuildOp E ops opData newDir = .ok (ops ++ built opData)) :
    ∀ (opDataVec : List OpData) (ops : List Op),
      buildForwardLoop E newDir opDataVec ops = .ok (ops ++ opDataVec.flatMap built) := by
  intro opDataVec
  induction opDataVec with
  | nil => intro ops; simp [buildForwardLoop]
  | cons x rest ih =>
    intro ops
    unfold buildForwardLoop
    rw [happ ops x]
    dsimp only
    rw [ih, List.flatMap_cons, List.append_assoc]

end FileLemmas


/-! ## Claims -/

section Claims

variable {Op : Type}

/-- C1: with flags equal to `OPTIMIZATION_NONE`, `OptimizeOpVec` returns, for every chain and
every input and output bit depth, exactly the input chain with the entries of type
`NoOpType` filtered out, the other entries unchanged and in order; in particular a chain
without a `NoOpType` entry is returned unchanged, whatever identities it holds. -/
theorem OptimizeOpVec_none_removes_only_NoOpType (I : Externals Op) (fuel : Nat)
    (ops : List Op) (inBitDepth outBitDepth : BitDepth) :
    OptimizeOpVec I fuel ops inBitDepth outBitDepth OPTIMIZATION_NONE =
        .ok (ops.filter (fun o => I.getType o != .NoOpType)) ∧
      ((∀ o ∈ ops, I.getType o ≠ .NoOpType) →
        OptimizeOpVec I fuel ops inBitDepth outBitDepth OPTIMIZATION_NONE = .ok ops) :=
  OptimizeOpVec_none_removes_only_NoOpType_aux I fuel ops inBitDepth outBitDepth

/-- Witness of C1: a chain of an identity matrix, an exponent 1 and a Log, none of type
`NoOpType`, comes back unchanged under `OPTIMIZATION_NONE`. -/
theorem OptimizeOpVec_none_removes_only_NoOpType_witness :
    OptimizeOpVec fx 0 [FxOp.matrix 0, FxOp.exponent 0, FxOp.log .TRANSFORM_DIR_FORWARD 1]
      .BIT_DEPTH_UINT8 .BIT_DEPTH_UINT8 OPTIMIZATION_NONE =
      .ok [FxOp.matrix 0, FxOp.exponent 0, FxOp.log .TRANSFORM_DIR_FORWARD 1] :=
  (OptimizeOpVec_none_removes_only_NoOpType fx 0
    [FxOp.matrix 0, FxOp.exponent 0, FxOp.log .TRANSFORM_DIR_FORWARD 1]
    .BIT_DEPTH_UINT8 .BIT_DEPTH_UINT8).2 (by decide)

/-- C2 fails as stated: two runs of `OptimizeOpVec` with the same bit depths and flags that
differ from one run.  (1) With `OPTIMIZATION_IDENTITY` and the separable prefix fusion
enabled and the Exponent combination disabled, 8-bit input: the first run fuses the
exponents 2 and 1/2 into one Lut1D, whose table is the identity ramp; the second run
replaces that identity Lut1D by its clamp and trims the clamp, leaving the empty chain.
(2) Nine nested levels of Log and Matrix pairs: the first run leaves its loop at the pass
cap with the outermost Log pair still in place; the second run cancels it. -/
theorem OptimizeOpVec_second_run_differs :
    (OptimizeOpVec fx 10 [FxOp.exponent 1, FxOp.exponent (-1)]
        .BIT_DEPTH_UINT8 .BIT_DEPTH_F32 (0x1 ||| 0x8000) =
        .ok [FxOp.lut1d .TRANSFORM_DIR_FORWARD true] ∧
      OptimizeOpVec fx 10 [FxOp.lut1d .TRANSFORM_DIR_FORWARD true]
        .BIT_DEPTH_UINT8 .BIT_DEPTH_F32 (0x1 ||| 0x8000) = .ok []) ∧
    (OptimizeOpVec fx 40 (fxNested 9) .BIT_DEPTH_F32 .BIT_DEPTH_F32 (0x100 ||| 0x2000) =
        .ok [FxOp.log .TRANSFORM_DIR_INVERSE 1, FxOp.log .TRANSFORM_DIR_FORWARD 1] ∧
      OptimizeOpVec fx 40 [FxOp.log .TRANSFORM_DIR_INVERSE 1, FxOp.log .TRANSFORM_DIR_FORWARD 1]
        .BIT_DEPTH_F32 .BIT_DEPTH_F32 (0x100 ||| 0x2000) = .ok []) := by
  decide

/-- C2 as amended: let a first run of `OptimizeOpVec` leave its loop on a round without
change (`passes` at most `MAX_OPTIMIZATION_PASSES`) and let its prefix fusion step change
nothing; let the chain it returns hold no `NoOpType` entry and, when the flags remove the
dynamic properties, no dynamic entry.  Then a second run with the same bit depths and flags
returns that chain, position by position. -/
theorem OptimizeOpVec_idempotent_when_settled (I : Externals Op) (fuel : Nat)
    (ops : List Op) (inBitDepth outBitDepth : BitDepth) (oFlags : OptimizationFlags)
    (t : OptimizeTrace Op)
    (hrun : OptimizeOpVecTrace I fuel ops inBitDepth outBitDepth oFlags = .ok t)
    (hpasses : t.passes ≤ MAX_OPTIMIZATION_PASSES)
    (hfusion : t.ops = t.trimmed)
    (hno : ∀ o ∈ t.ops, I.getType o ≠ .NoOpType)
    (hdyn : HasFlag oFlags I.OPTIMIZATION_NO_DYNAMIC_PROPERTIES = true →
      ∀ o ∈ t.ops, I.isDynamic o = false) :
    OptimizeOpVec I fuel ops inBitDepth outBitDepth oFlags = .ok t.ops ∧
      OptimizeOpVec I fuel t.ops inBitDepth outBitDepth oFlags = .ok t.ops := by
  have hfirst : OptimizeOpVec I fuel ops inBitDepth outBitDepth oFlags = .ok t.ops := by
    unfold OptimizeOpVec; rw [hrun]
  refine ⟨hfirst, ?_⟩
  by_cases hne : ops = []
  · subst hne
    rw [OptimizeOpVec_nil] at hfirst
    simp only [Except.ok.injEq] at hfirst
    rw [← hfirst]
    exact OptimizeOpVec_nil I fuel _ _ _
  by_cases hfl : oFlags = OPTIMIZATION_NONE
  · subst hfl
    exact (OptimizeOpVec_none_removes_only_NoOpType_aux I fuel t.ops inBitDepth outBitDepth).2 hno
  obtain ⟨looped, hloop, htrim, hfuse⟩ :=
    OptimizeOpVecTrace_run_inv I fuel ops inBitDepth outBitDepth oFlags hne hfl t hrun
  obtain ⟨f1, f2, f3, f4, f5, f6⟩ :=
    OptimizeLoop_fixed I fuel oFlags fuel _ 0 looped t.passes hloop hpasses
  have hseg : t.ops <:+: looped := by
    rw [hfusion]; exact BoundaryTrim_infix I looped t.trimmed _ _ htrim
  obtain ⟨m, hm⟩ : ∃ m, fuel = m + 1 := ⟨fuel - 1, by omega⟩
  apply OptimizeOpVec_of_settled I fuel t.ops inBitDepth outBitDepth oFlags hfl
  · exact chainBeforeLoop_of_clean I t.ops oFlags hno hdyn
  · have hlen := hseg.length_le
    have hfix := OptimizeLoop_of_fixed I fuel oFlags m t.ops 0 (Nat.zero_le _)
      (fun hf o ho => f1 hf o (hseg.subset ho))
      (fun o ho => f2 o (hseg.subset ho))
      ( List.Chain'.infix f3 hseg) ( List.Chain'.infix f4 hseg) (by omega) f6
    rw [← hm] at hfix
    exact hfix
  · rw [hfusion]
    exact BoundaryTrim_idempotent I looped t.trimmed _ _ htrim
  · intro hf
    rw [if_pos hf] at hfuse
    rw [hfusion]
    rw [hfusion] at hfuse
    exact hfuse

/-- Witness of C2 as amended: a forward/inverse Log pair is cancelled into its residual
clamp by the first run (one changing round, no fusion); the second run keeps the clamp. -/
theorem OptimizeOpVec_idempotent_when_settled_witness :
    OptimizeOpVec fx 10 [FxOp.log .TRANSFORM_DIR_FORWARD 2, FxOp.log .TRANSFORM_DIR_INVERSE 2]
        .BIT_DEPTH_F32 .BIT_DEPTH_F32 0x101 = .ok [FxOp.range (some 0) none] ∧
      OptimizeOpVec fx 10 [FxOp.range (some 0) none]
        .BIT_DEPTH_F32 .BIT_DEPTH_F32 0x101 = .ok [FxOp.range (some 0) none] :=
  OptimizeOpVec_idempotent_when_settled fx 10
    [FxOp.log .TRANSFORM_DIR_FORWARD 2, FxOp.log .TRANSFORM_DIR_INVERSE 2]
    .BIT_DEPTH_F32 .BIT_DEPTH_F32 0x101
    ⟨[FxOp.range (some 0) none], 1, [FxOp.range (some 0) none]⟩
    (by rfl) (by decide) rfl (by decide) (by decide)

/-- C4: nested cancellation in one pass.  For the chain `A1, ..., An, An', ..., A1'` (the
pairs `(Ai, Ai')` are the entries of `pairs`, `n = pairs.length ≥ 1`) in which each `Ai` and
`Ai'` have the same type with pair-inverse cancellation enabled, `Ai.isInverse(Ai')` holds,
the identity replacement of each `Ai` is a no-op and no other adjacent pair that arises
(these are the pairs `Ai, Ai+1`) is an inverse pair, a single call of `RemoveInverseOps`
(with room for its `2n` iterations) returns the empty chain and the count `n`. -/
theorem RemoveInverseOps_nested_cancellation (I : Externals Op) (oFlags : OptimizationFlags)
    (pairs : List (Op × Op)) (fuel : Nat)
    (hn : 1 ≤ pairs.length)
    (hinv : ∀ p ∈ pairs, I.getType p.1 = I.getType p.2 ∧
      IsPairInverseEnabled I (I.getType p.1) oFlags = true ∧ I.isInverse p.1 p.2 = true)
    (hnoop : ∀ p ∈ pairs, I.isNoOp (I.getIdentityReplacement p.1) = true)
    (hother : List.Chain' (fun p q => isInversePair I oFlags p.1 q.1 = false) pairs)
    (hfuel : 2 * pairs.length ≤ fuel) :
    RemoveInverseOps I fuel (pairs.map Prod.fst ++ (pairs.map Prod.snd).reverse) oFlags =
      .ok ([], pairs.length) := by
  have hne : pairs ≠ [] := by
    intro h; rw [h] at hn; simp at hn
  have hpair : ∀ p ∈ pairs, isInversePair I oFlags p.1 p.2 = true := by
    intro p hp
    obtain ⟨h1, h2, h3⟩ := hinv p hp
    unfold isInversePair
    rw [h2, h3, h1]
    simp
  have hnest := RemoveInverseOpsLoop_nest I oFlags pairs hne hpair hnoop hother
    (fuel - (2 * pairs.length - 1)) [] [] 0
  have hf : fuel - (2 * pairs.length - 1) + (2 * pairs.length - 1) = fuel := by omega
  obtain ⟨m, hm⟩ : ∃ m, fuel - (2 * pairs.length - 1) = m + 1 :=
    ⟨fuel - (2 * pairs.length - 1) - 1, by omega⟩
  rw [hf] at hnest
  simp only [List.nil_append, List.append_nil, List.length_nil, Nat.zero_add] at hnest
  unfold RemoveInverseOps
  have h0 : ((0 : Nat) : Int) = 0 := rfl
  rw [← h0, hnest, hm, RemoveInverseOpsLoop_done I oFlags m [] 0 _ (by simp)]

/-- Witness of C4: three nested Log pairs (inverse Log first, so that each identity
replacement is the identity matrix) collapse to the empty chain with count 3. -/
theorem RemoveInverseOps_nested_cancellation_witness :
    RemoveInverseOps fx 6
      ([FxOp.log .TRANSFORM_DIR_INVERSE 1, FxOp.log .TRANSFORM_DIR_INVERSE 2,
        FxOp.log .TRANSFORM_DIR_INVERSE 3] ++
       [FxOp.log .TRANSFORM_DIR_FORWARD 3, FxOp.log .TRANSFORM_DIR_FORWARD 2,
        FxOp.log .TRANSFORM_DIR_FORWARD 1]) 0x100 = .ok ([], 3) :=
  RemoveInverseOps_nested_cancellation fx 0x100
    [(FxOp.log .TRANSFORM_DIR_INVERSE 1, FxOp.log .TRANSFORM_DIR_FORWARD 1),
     (FxOp.log .TRANSFORM_DIR_INVERSE 2, FxOp.log .TRANSFORM_DIR_FORWARD 2),
     (FxOp.log .TRANSFORM_DIR_INVERSE 3, FxOp.log .TRANSFORM_DIR_FORWARD 3)] 6
    (by decide) (by decide) (by decide)
    (List.Chain.cons (by decide) (List.Chain.cons (by decide) List.Chain.nil)) (by decide)

/-- C5 fails as stated: with `A` an inverse Log, `B` a forward Log of other parameters and
`A'`, `B'` their inverses (Log pair cancellation enabled), the identity replacement of `B`
is a clamping Range, not a no-op, and `OptimizeOpVec` turns `[A, B, B', A']` into the three
operators `[A, Range, A']`: the clamp stands between `A` and `A'`, which are not cancelled. -/
theorem OptimizeOpVec_inner_clamp_keeps_outer_pair :
    fx.isInverse (FxOp.log .TRANSFORM_DIR_INVERSE 1) (FxOp.log .TRANSFORM_DIR_FORWARD 1) = true ∧
      fx.isInverse (FxOp.log .TRANSFORM_DIR_FORWARD 2) (FxOp.log .TRANSFORM_DIR_INVERSE 2) = true ∧
      IsPairInverseEnabled fx .LogType 0x100 = true ∧
      fx.isNoOp (fx.getIdentityReplacement (FxOp.log .TRANSFORM_DIR_FORWARD 2)) = false ∧
      OptimizeOpVec fx 10
        [FxOp.log .TRANSFORM_DIR_INVERSE 1, FxOp.log .TRANSFORM_DIR_FORWARD 2,
          FxOp.log .TRANSFORM_DIR_INVERSE 2, FxOp.log .TRANSFORM_DIR_FORWARD 1]
        .BIT_DEPTH_F32 .BIT_DEPTH_F32 0x100 =
        .ok [FxOp.log .TRANSFORM_DIR_INVERSE 1, FxOp.range (some 0) none,
          FxOp.log .TRANSFORM_DIR_FORWARD 1] := by
  decide

/-- C5 as amended: let `A, A'` and `B, B'` be inverse pairs of types with pair cancellation
enabled, `A, B` not such a pair, the flags not `OPTIMIZATION_NONE`, and let no other step
apply to the four operators (none is of type `NoOpType`, none is dynamic when dynamic
properties are removed, none is removed as a no-op or replaced as an identity).  Then
`OptimizeOpVec` turns `[A, B, B', A']` into the empty chain when both identity replacements
are no-ops, and into the one operator `A.getIdentityReplacement()` when the replacement of
`B` is a no-op, that of `A` is not, and the later steps leave this residual clamp alone.
When the replacement of `B` is not a no-op, `RemoveInverseOps` returns the three operators
`[A, B.getIdentityReplacement(), A']` with count 1. -/
theorem OptimizeOpVec_nested_inverse_pairs (I : Externals Op) (fuel : Nat)
    (A B B' A' : Op) (inBitDepth outBitDepth : BitDepth) (oFlags : OptimizationFlags)
    (hA : isInversePair I oFlags A A' = true) (hB : isInversePair I oFlags B B' = true)
    (hAB : isInversePair I oFlags A B = false)
    (hfl : oFlags ≠ OPTIMIZATION_NONE)
    (htype : ∀ o ∈ [A, B, B', A'], I.getType o ≠ .NoOpType)
    (hdyn : HasFlag oFlags I.OPTIMIZATION_NO_DYNAMIC_PROPERTIES = true →
      ∀ o ∈ [A, B, B', A'], I.isDynamic o = false)
    (hnoop : HasFlag oFlags I.OPTIMIZATION_IDENTITY = true →
      ∀ o ∈ [A, B, B', A'], I.isNoOp o = false)
    (hid : ∀ o ∈ [A, B, B', A'], replacesIdentity I (HasFlag oFlags I.OPTIMIZATION_IDENTITY)
      (HasFlag oFlags I.OPTIMIZATION_IDENTITY_GAMMA) o = false)
    (hfuel : 4 ≤ fuel) :
    (I.isNoOp (I.getIdentityReplacement B) = true →
        I.isNoOp (I.getIdentityReplacement A) = true →
        OptimizeOpVec I fuel [A, B, B', A'] inBitDepth outBitDepth oFlags = .ok []) ∧
      (I.isNoOp (I.getIdentityReplacement B) = true →
        I.isNoOp (I.getIdentityReplacement A) = false →
        replacesIdentity I (HasFlag oFlags I.OPTIMIZATION_IDENTITY)
          (HasFlag oFlags I.OPTIMIZATION_IDENTITY_GAMMA) (I.getIdentityReplacement A) = false →
        BoundaryTrim I [I.getIdentityReplacement A] inBitDepth outBitDepth =
          .ok [I.getIdentityReplacement A] →
        (HasFlag oFlags I.OPTIMIZATION_COMP_SEPARABLE_PREFIX = true →
          OptimizeSeparablePrefix I [I.getIdentityReplacement A] inBitDepth =
            .ok [I.getIdentityReplacement A]) →
        OptimizeOpVec I fuel [A, B, B', A'] inBitDepth outBitDepth oFlags =
          .ok [I.getIdentityReplacement A]) ∧
      (I.isNoOp (I.getIdentityReplacement B) = false →
        RemoveInverseOps I fuel [A, B, B', A'] oFlags =
          .ok ([A, I.getIdentityReplacement B, A'], 1)) := by
  obtain ⟨n, hn⟩ : ∃ n, fuel = n + 1 + 1 := ⟨fuel - 2, by omega⟩
  have hclean := chainBeforeLoop_of_clean I [A, B, B', A'] oFlags htype hdyn
  have h1 : (if HasFlag oFlags I.OPTIMIZATION_IDENTITY = true then RemoveNoOps I [A, B, B', A']
      else ([A, B, B', A'], 0)) = ([A, B, B', A'], 0) := by
    by_cases hflag : HasFlag oFlags I.OPTIMIZATION_IDENTITY = true
    · rw [if_pos hflag]; exact RemoveNoOps_of_forall I _ (hnoop hflag)
    · rw [if_neg hflag]
  have h2 := ReplaceIdentityOps_of_forall I [A, B, B', A'] oFlags hid
  refine ⟨fun hrB hrA => ?_, fun hrB hrA hres htrim hfuse => ?_, fun hrB => ?_⟩
  · have h3 := RemoveInverseOps_four I oFlags fuel A B B' A' hA hB hAB hrB hfuel
    rw [if_pos hrA] at h3
    have h4 := CombineOps_of_chain I fuel [] oFlags List.chain'_nil (by simp) (by omega)
    have hround := OptimizeLoop_round I fuel oFlags (n + 1) [A, B, B', A'] _ _ _ _ 0 _ _ _ _
      (Nat.zero_le _) h1 h2 h3 h4
    have hfix := OptimizeLoop_of_fixed I fuel oFlags n [] 1 (by decide)
      (fun _ o ho => absurd ho (List.not_mem_nil o))
      (fun o ho => absurd ho (List.not_mem_nil o))
      List.chain'_nil List.chain'_nil (by simp) (by omega)
    rw [if_neg (by decide), hfix, ← hn] at hround
    unfold OptimizeOpVec
    rw [OptimizeOpVecTrace_run I fuel _ inBitDepth outBitDepth oFlags (by simp) hfl [] 1
      (by rw [hclean]; exact hround), BoundaryTrim_nil]
    dsimp only
    by_cases hf : HasFlag oFlags I.OPTIMIZATION_COMP_SEPARABLE_PREFIX = true
    · rw [if_pos hf, OptimizeSeparablePrefix_nil]
    · rw [if_neg hf]
  · have h3 := RemoveInverseOps_four I oFlags fuel A B B' A' hA hB hAB hrB hfuel
    rw [if_neg (by simp [hrA])] at h3
    have h4 := CombineOps_of_chain I fuel [I.getIdentityReplacement A] oFlags
      (List.chain'_singleton _) (by simp; omega) (by omega)
    have hround := OptimizeLoop_round I fuel oFlags (n + 1) [A, B, B', A'] _ _ _ _ 0 _ _ _ _
      (Nat.zero_le _) h1 h2 h3 h4
    have hfix := OptimizeLoop_of_fixed I fuel oFlags n [I.getIdentityReplacement A] 1
      (by decide)
      (fun _ o ho => by rw [List.mem_singleton] at ho; rw [ho]; exact hrA)
      (fun o ho => by rw [List.mem_singleton] at ho; rw [ho]; exact hres)
      (List.chain'_singleton _) (List.chain'_singleton _) (by simp; omega) (by omega)
    rw [if_neg (by decide), hfix, ← hn] at hround
    unfold OptimizeOpVec
    rw [OptimizeOpVecTrace_run I fuel _ inBitDepth outBitDepth oFlags (by simp) hfl _ 1
      (by rw [hclean]; exact hround), htrim]
    dsimp only
    by_cases hf : HasFlag oFlags I.OPTIMIZATION_COMP_SEPARABLE_PREFIX = true
    · rw [if_pos hf, hfuse hf]
    · rw [if_neg hf]
  · exact RemoveInverseOps_four_clamp I oFlags fuel A B B' A' hB hAB hrB (by omega)

/-- Witness of C5 as amended: the outer pair is a forward Log and its inverse (residual
clamp: a Range clamping from below), the inner pair an inverse Log and its forward Log
(identity replacement: the identity matrix); the result is the one residual clamp. -/
theorem OptimizeOpVec_nested_inverse_pairs_witness :
    OptimizeOpVec fx 10
      [FxOp.log .TRANSFORM_DIR_FORWARD 1, FxOp.log .TRANSFORM_DIR_INVERSE 2,
        FxOp.log .TRANSFORM_DIR_FORWARD 2, FxOp.log .TRANSFORM_DIR_INVERSE 1]
      .BIT_DEPTH_F32 .BIT_DEPTH_F32 0x100 = .ok [FxOp.range (some 0) none] :=
  (OptimizeOpVec_nested_inverse_pairs fx 10
    (FxOp.log .TRANSFORM_DIR_FORWARD 1) (FxOp.log .TRANSFORM_DIR_INVERSE 2)
    (FxOp.log .TRANSFORM_DIR_FORWARD 2) (FxOp.log .TRANSFORM_DIR_INVERSE 1)
    .BIT_DEPTH_F32 .BIT_DEPTH_F32 0x100
    (by decide) (by decide) (by decide) (by decide) (by decide) (by decide) (by decide)
    (by decide) (by decide)).2.1 (by decide) (by decide) (by decide) (by decide) (by decide)

/-- C6, the code at a deep chain: on eight nested levels of Log and Matrix pairs, with
Log pair cancellation and Matrix combination enabled, every round of the loop changes the
chain and the loop is left with `passes = 9`: nine rounds were executed, one more than
`MAX_OPTIMIZATION_PASSES = 8`. -/
theorem OptimizeLoop_runs_nine_rounds :
    OptimizeLoop fx 40 (0x100 ||| 0x2000) 40 (fxNested 8) 0 = .ok ([], 9) ∧
      MAX_OPTIMIZATION_PASSES = 8 := by
  decide

/-- C7: when the loop of `OptimizeOpVec` is left because a round reported no change (which
is the case exactly when the final `passes` is at most `MAX_OPTIMIZATION_PASSES`, the other
exit needing `passes` above it), the chain at that point is a fixed point of every enabled
rule: `RemoveNoOps` (when `OPTIMIZATION_IDENTITY` is set), `ReplaceIdentityOps`,
`RemoveInverseOps` and `CombineOps` each return it unchanged with count 0. -/
theorem OptimizeLoop_exit_is_fixed_point (I : Externals Op) (fuel : Nat)
    (oFlags : OptimizationFlags) (n : Nat) (ops : List Op) (passes : Nat)
    (r : List Op) (p : Nat)
    (h : OptimizeLoop I fuel oFlags n ops passes = .ok (r, p))
    (hp : p ≤ MAX_OPTIMIZATION_PASSES) :
    (HasFlag oFlags I.OPTIMIZATION_IDENTITY = true → RemoveNoOps I r = (r, 0)) ∧
      ReplaceIdentityOps I r oFlags = (r, 0) ∧
      RemoveInverseOps I fuel r oFlags = .ok (r, 0) ∧
      CombineOps I fuel r oFlags = .ok (r, 0) := by
  obtain ⟨h1, h2, h3, h4, h5, h6⟩ := OptimizeLoop_fixed I fuel oFlags n ops passes r p h hp
  exact ⟨fun hf => RemoveNoOps_of_forall I r (h1 hf),
    ReplaceIdentityOps_of_forall I r oFlags h2,
    RemoveInverseOps_of_chain I fuel r oFlags h3 h5 h6,
    CombineOps_of_chain I fuel r oFlags h4 h5 h6⟩

/-- Witness of C7: the loop turns a forward/inverse Log pair into its residual clamp and
stops on a round without change; the clamp is a fixed point of the four rules. -/
theorem OptimizeLoop_exit_is_fixed_point_witness :
    (HasFlag 0x101 fx.OPTIMIZATION_IDENTITY = true →
        RemoveNoOps fx [FxOp.range (some 0) none] = ([FxOp.range (some 0) none], 0)) ∧
      ReplaceIdentityOps fx [FxOp.range (some 0) none] 0x101 =
        ([FxOp.range (some 0) none], 0) ∧
      RemoveInverseOps fx 5 [FxOp.range (some 0) none] 0x101 =
        .ok ([FxOp.range (some 0) none], 0) ∧
      CombineOps fx 5 [FxOp.range (some 0) none] 0x101 =
        .ok ([FxOp.range (some 0) none], 0) :=
  OptimizeLoop_exit_is_fixed_point fx 5 0x101 5
    [FxOp.log .TRANSFORM_DIR_FORWARD 2, FxOp.log .TRANSFORM_DIR_INVERSE 2] 0
    [FxOp.range (some 0) none] 1 (by decide) (by decide)

/-- C8 fails as stated: with both bit depths 8-bit integer and flags `OPTIMIZATION_NONE`,
`OptimizeOpVec` returns `[R1, M, R2]` (identity Ranges around a Matrix that no loop rule
rewrites) unchanged, not `[M]`. -/
theorem OptimizeOpVec_none_keeps_identity_ranges :
    isClampIdentity fx (FxOp.range (some 0) (some 1)) = true ∧
      fx.getType (FxOp.matrix 1) = .MatrixType ∧
      OptimizeLoop fx 10 OPTIMIZATION_NONE 10
        [FxOp.range (some 0) (some 1), FxOp.matrix 1, FxOp.range (some 0) (some 1)] 0 =
        .ok ([FxOp.range (some 0) (some 1), FxOp.matrix 1, FxOp.range (some 0) (some 1)], 0) ∧
      fx.IsFloatBitDepth .BIT_DEPTH_UINT8 = false ∧
      OptimizeOpVec fx 10
        [FxOp.range (some 0) (some 1), FxOp.matrix 1, FxOp.range (some 0) (some 1)]
        .BIT_DEPTH_UINT8 .BIT_DEPTH_UINT8 OPTIMIZATION_NONE =
        .ok [FxOp.range (some 0) (some 1), FxOp.matrix 1, FxOp.range (some 0) (some 1)] := by
  decide

/-- C8 as amended: let `R1` and `R2` be identity Range operators and `M` a Matrix operator,
let the flags differ from `OPTIMIZATION_NONE`, let the loop rules rewrite nothing in
`[R1, M, R2]` and, when the flags remove dynamic properties, let none of the three be
dynamic.  Then `OptimizeOpVec` returns `[M]` when neither the input nor the output bit depth
is floating point, and `[R1, M, R2]` unchanged when both are. -/
theorem OptimizeOpVec_identity_ranges_around_matrix (I : Externals Op) (fuel : Nat)
    (R1 M R2 : Op) (inBitDepth outBitDepth : BitDepth) (oFlags : OptimizationFlags)
    (hR1 : I.getType R1 = .RangeType ∧ I.dataIsIdentity R1 = true)
    (hR2 : I.getType R2 = .RangeType ∧ I.dataIsIdentity R2 = true)
    (hM : I.getType M = .MatrixType)
    (hfl : oFlags ≠ OPTIMIZATION_NONE)
    (hdyn : HasFlag oFlags I.OPTIMIZATION_NO_DYNAMIC_PROPERTIES = true →
      ∀ o ∈ [R1, M, R2], I.isDynamic o = false)
    (hloop : OptimizeLoop I fuel oFlags fuel [R1, M, R2] 0 = .ok ([R1, M, R2], 0)) :
    (I.IsFloatBitDepth inBitDepth = false → I.IsFloatBitDepth outBitDepth = false →
        OptimizeOpVec I fuel [R1, M, R2] inBitDepth outBitDepth oFlags = .ok [M]) ∧
      (I.IsFloatBitDepth inBitDepth = true → I.IsFloatBitDepth outBitDepth = true →
        OptimizeOpVec I fuel [R1, M, R2] inBitDepth outBitDepth oFlags = .ok [R1, M, R2]) := by
  have hc1 : isClampIdentity I R1 = true := by simp [isClampIdentity, hR1.1, hR1.2]
  have hc2 : isClampIdentity I R2 = true := by simp [isClampIdentity, hR2.1, hR2.2]
  have hcM : isClampIdentity I M = false := by simp [isClampIdentity, hM]
  have htype : ∀ o ∈ [R1, M, R2], I.getType o ≠ .NoOpType := by
    intro o ho
    simp only [List.mem_cons, List.mem_singleton, List.not_mem_nil, or_false] at ho
    rcases ho with rfl | rfl | rfl
    · rw [hR1.1]; decide
    · rw [hM]; decide
    · rw [hR2.1]; decide
  have hcheap : ∀ o ∈ [R1, M, R2], I.getType o = .MatrixType ∨ I.getType o = .RangeType := by
    intro o ho
    simp only [List.mem_cons, List.mem_singleton, List.not_mem_nil, or_false] at ho
    rcases ho with rfl | rfl | rfl
    · exact Or.inr hR1.1
    · exact Or.inl hM
    · exact Or.inr hR2.1
  have hclean := chainBeforeLoop_of_clean I [R1, M, R2] oFlags htype hdyn
  have hrun := OptimizeOpVecTrace_run I fuel [R1, M, R2] inBitDepth outBitDepth oFlags
    (by simp) hfl [R1, M, R2] 0 (by rw [hclean]; exact hloop)
  rw [BoundaryTrim_eq] at hrun
  dsimp only at hrun
  constructor
  · intro hin hout
    have hfuse : OptimizeSeparablePrefix I [M] inBitDepth = .ok [M] :=
      OptimizeSeparablePrefix_of_zero I _ _ (FindSeparablePrefix_cheap I [M]
        (fun o ho => hcheap o (by
          have := (List.takeWhile_prefix _).subset ho
          simp only [List.mem_singleton] at this
          simp [this])))
    have htrim : ([R1, M, R2].dropWhile (isClampIdentity I)).rdropWhile (isClampIdentity I) =
        [M] := by
      simp [List.dropWhile, List.rdropWhile, hc1, hc2, hcM]
    rw [hin, hout] at hrun
    simp only [Bool.false_eq_true, if_false] at hrun
    rw [htrim] at hrun
    unfold OptimizeOpVec
    rw [hrun]
    by_cases hf : HasFlag oFlags I.OPTIMIZATION_COMP_SEPARABLE_PREFIX = true
    · rw [if_pos hf, hfuse]
    · rw [if_neg hf]
  · intro hin hout
    have hfuse : OptimizeSeparablePrefix I [R1, M, R2] inBitDepth = .ok [R1, M, R2] :=
      OptimizeSeparablePrefix_of_zero I _ _ (FindSeparablePrefix_cheap I [R1, M, R2]
        (fun o ho => hcheap o ((List.takeWhile_prefix _).subset ho)))
    rw [hin, hout] at hrun
    simp only [if_true] at hrun
    unfold OptimizeOpVec
    rw [hrun]
    by_cases hf : HasFlag oFlags I.OPTIMIZATION_COMP_SEPARABLE_PREFIX = true
    · rw [if_pos hf, hfuse]
    · rw [if_neg hf]

/-- Witness of C8 as amended: identity Ranges around the Matrix scaling by 2, with the
identity, Matrix and Range combination and prefix fusion flags set: `[M]` at 8-bit input
and output. -/
theorem OptimizeOpVec_identity_ranges_around_matrix_witness :
    OptimizeOpVec fx 10
      [FxOp.range (some 0) (some 1), FxOp.matrix 1, FxOp.range (some 0) (some 1)]
      .BIT_DEPTH_UINT8 .BIT_DEPTH_UINT8 (0x1 ||| 0x2000 ||| 0x4000 ||| 0x8000) =
      .ok [FxOp.matrix 1] :=
  (OptimizeOpVec_identity_ranges_around_matrix fx 10
    (FxOp.range (some 0) (some 1)) (FxOp.matrix 1) (FxOp.range (some 0) (some 1))
    .BIT_DEPTH_UINT8 .BIT_DEPTH_UINT8 (0x1 ||| 0x2000 ||| 0x4000 ||| 0x8000)
    (by decide) (by decide) (by decide) (by decide) (by decide) (by decide)).1
    (by decide) (by decide)

/-- C9 fails as stated: with flags `OPTIMIZATION_NONE` and an 8-bit (not floating point)
input depth `OptimizeOpVec` returns the chain with its leading identity Range in place,
although `RemoveLeadingClampIdentity` would delete that Range. -/
theorem OptimizeOpVec_none_skips_boundary_trim :
    fx.IsFloatBitDepth .BIT_DEPTH_UINT8 = false ∧
      RemoveLeadingClampIdentity fx [FxOp.range (some 0) (some 1), FxOp.matrix 1] =
        ([FxOp.matrix 1], 1) ∧
      OptimizeOpVec fx 10 [FxOp.range (some 0) (some 1), FxOp.matrix 1]
        .BIT_DEPTH_UINT8 .BIT_DEPTH_F32 OPTIMIZATION_NONE =
        .ok [FxOp.range (some 0) (some 1), FxOp.matrix 1] := by
  decide

/-- C9 as amended: `RemoveLeadingClampIdentity` deletes the longest prefix of entries that
are of type Range with identity data, `RemoveTrailingClampIdentity` the longest such suffix;
each returns the number of deleted entries and keeps the other entries in order.  The trim
block of `OptimizeOpVec` applies the leading trim if and only if the input bit depth is not
floating point and the trailing trim if and only if the output bit depth is not floating
point; and every run of `OptimizeOpVec` on a non-empty chain with flags other than
`OPTIMIZATION_NONE` passes the chain its loop produced through that block, whereas with
`OPTIMIZATION_NONE` the chain is returned untrimmed. -/
theorem boundary_trim_removes_maximal_runs (I : Externals Op) (fuel : Nat) (ops : List Op)
    (inBitDepth outBitDepth : BitDepth) (oFlags : OptimizationFlags) :
    RemoveLeadingClampIdentity I ops =
        (ops.dropWhile (isClampIdentity I), (ops.takeWhile (isClampIdentity I)).length) ∧
      RemoveTrailingClampIdentity I ops =
        .ok (ops.rdropWhile (isClampIdentity I),
          (ops.rtakeWhile (isClampIdentity I)).length) ∧
      BoundaryTrim I ops inBitDepth outBitDepth =
        .ok (if I.IsFloatBitDepth outBitDepth = true then
            (if I.IsFloatBitDepth inBitDepth = true then ops
              else ops.dropWhile (isClampIdentity I))
          else (if I.IsFloatBitDepth inBitDepth = true then ops
              else ops.dropWhile (isClampIdentity I)).rdropWhile (isClampIdentity I)) ∧
      (ops ≠ [] → oFlags ≠ OPTIMIZATION_NONE →
        ∀ t, OptimizeOpVecTrace I fuel ops inBitDepth outBitDepth oFlags = .ok t →
          ∃ looped, OptimizeLoop I fuel oFlags fuel (chainBeforeLoop I ops oFlags) 0 =
              .ok (looped, t.passes) ∧
            BoundaryTrim I looped inBitDepth outBitDepth = .ok t.trimmed) ∧
      OptimizeOpVec I fuel ops inBitDepth outBitDepth OPTIMIZATION_NONE =
        .ok (ops.filter (fun o => I.getType o != .NoOpType)) := by
  refine ⟨RemoveLeadingClampIdentity_eq I ops, RemoveTrailingClampIdentity_eq I ops,
    BoundaryTrim_eq I ops _ _, ?_,
    (OptimizeOpVec_none_removes_only_NoOpType_aux I fuel ops inBitDepth outBitDepth).1⟩
  intro hne hfl t ht
  obtain ⟨looped, h1, h2, _⟩ :=
    OptimizeOpVecTrace_run_inv I fuel ops inBitDepth outBitDepth oFlags hne hfl t ht
  exact ⟨looped, h1, h2⟩

/-- Witness of C9 as amended: with an 8-bit input and output and `OPTIMIZATION_IDENTITY`,
the run on `[Range, Range, Matrix, Range]` has the loop result `[Range, Range, Matrix, Range]`
trimmed to `[Matrix]`. -/
theorem boundary_trim_removes_maximal_runs_witness :
    ∃ looped, OptimizeLoop fx 10 0x1 10 (chainBeforeLoop fx
          [FxOp.range (some 0) (some 1), FxOp.range (some 0) none, FxOp.matrix 1,
            FxOp.range (some 0) (some 1)] 0x1) 0 = .ok (looped, 0) ∧
      BoundaryTrim fx looped .BIT_DEPTH_UINT8 .BIT_DEPTH_UINT8 = .ok [FxOp.matrix 1] :=
  (boundary_trim_removes_maximal_runs fx 10
    [FxOp.range (some 0) (some 1), FxOp.range (some 0) none, FxOp.matrix 1,
      FxOp.range (some 0) (some 1)] .BIT_DEPTH_UINT8 .BIT_DEPTH_UINT8 0x1).2.2.2.1
    (by decide) (by decide) ⟨[FxOp.matrix 1], 0, [FxOp.matrix 1]⟩ (by rfl)

/-- C10: the separable prefix fusion does not fire on the boundary cases.  For every input
bit depth, `FindSeparablePrefix` returns 0 and `OptimizeSeparablePrefix` returns the chain
unchanged for a chain of exactly one forward Lut1D, and for every chain whose crosstalk-free,
non-dynamic prefix holds only Matrix and Range operators. -/
theorem OptimizeSeparablePrefix_boundary_cases (I : Externals Op) (inBitDepth : BitDepth) :
    (∀ lut : Op, I.getType lut = .Lut1DType →
        I.getDirection lut = .TRANSFORM_DIR_FORWARD →
        FindSeparablePrefix I [lut] = .ok 0 ∧
          OptimizeSeparablePrefix I [lut] inBitDepth = .ok [lut]) ∧
      (∀ ops : List Op,
        (∀ o ∈ ops.takeWhile (fun o => !(I.hasChannelCrosstalk o || I.isDynamic o)),
          I.getType o = .MatrixType ∨ I.getType o = .RangeType) →
        FindSeparablePrefix I ops = .ok 0 ∧
          OptimizeSeparablePrefix I ops inBitDepth = .ok ops) := by
  constructor
  · intro lut ht hd
    have h := FindSeparablePrefix_single_forward_lut I lut ht hd
    exact ⟨h, OptimizeSeparablePrefix_of_zero I _ _ h⟩
  · intro ops hops
    have h := FindSeparablePrefix_cheap I ops hops
    exact ⟨h, OptimizeSeparablePrefix_of_zero I _ _ h⟩

/-- Witness of C10: one forward Lut1D, and the chain `[Matrix, Range]`, at 8-bit input. -/
theorem OptimizeSeparablePrefix_boundary_cases_witness :
    (FindSeparablePrefix fx [FxOp.lut1d .TRANSFORM_DIR_FORWARD false] = .ok 0 ∧
      OptimizeSeparablePrefix fx [FxOp.lut1d .TRANSFORM_DIR_FORWARD false] .BIT_DEPTH_UINT8 =
        .ok [FxOp.lut1d .TRANSFORM_DIR_FORWARD false]) ∧
    (FindSeparablePrefix fx [FxOp.matrix 1, FxOp.range (some 0) (some 1)] = .ok 0 ∧
      OptimizeSeparablePrefix fx [FxOp.matrix 1, FxOp.range (some 0) (some 1)]
        .BIT_DEPTH_UINT8 = .ok [FxOp.matrix 1, FxOp.range (some 0) (some 1)]) :=
  ⟨(OptimizeSeparablePrefix_boundary_cases fx .BIT_DEPTH_UINT8).1
      (FxOp.lut1d .TRANSFORM_DIR_FORWARD false) (by decide) (by decide),
   (OptimizeSeparablePrefix_boundary_cases fx .BIT_DEPTH_UINT8).2
      [FxOp.matrix 1, FxOp.range (some 0) (some 1)] (by decide)⟩

/-- C11: for every chain, `OptimizeSeparablePrefix` with input bit depth `BIT_DEPTH_F32` or
`BIT_DEPTH_UINT32` returns the chain unchanged and raises no error, whatever the separable
prefix of the chain is. -/
theorem OptimizeSeparablePrefix_skips_32_bit_input (I : Externals Op) (ops : List Op) :
    OptimizeSeparablePrefix I ops .BIT_DEPTH_F32 = .ok ops ∧
      OptimizeSeparablePrefix I ops .BIT_DEPTH_UINT32 = .ok ops :=
  OptimizeSeparablePrefix_skip32 I ops

/-- C12: when `FindSeparablePrefix` returns `p > 0` on a chain of length `n` and the input
bit depth is neither F32 nor UINT32, then `p ≤ n` and `OptimizeSeparablePrefix` returns the
operators of the Lut1D construction (applied to the clones of the first `p` entries)
followed by the original entries at the positions `p .. n-1`, unchanged and in order; with
the Lut1D construction yielding one forward Lut1D, this is a chain of length `n - p + 1`
whose first entry is that forward Lut1D. -/
theorem OptimizeSeparablePrefix_splices_one_lut (I : Externals Op) (ops : List Op)
    (inBitDepth : BitDepth) (p : Nat)
    (hp : FindSeparablePrefix I ops = .ok p) (hpos : 0 < p)
    (h32f : inBitDepth ≠ .BIT_DEPTH_F32) (h32i : inBitDepth ≠ .BIT_DEPTH_UINT32) :
    p ≤ ops.length ∧
      OptimizeSeparablePrefix I ops inBitDepth =
        .ok (I.makeSeparableLut inBitDepth ((ops.take p).map I.clone) ++ ops.drop p) ∧
      (MakesSingleForwardLut I →
        ∃ lut, OptimizeSeparablePrefix I ops inBitDepth = .ok (lut :: ops.drop p) ∧
          I.getType lut = .Lut1DType ∧ I.getDirection lut = .TRANSFORM_DIR_FORWARD ∧
          (lut :: ops.drop p).length = ops.length - p + 1) := by
  have hle : p ≤ ops.length := by
    obtain ⟨q, hq, hq2⟩ := FindSeparablePrefix_ok I ops
    rw [hp] at hq
    simp only [Except.ok.injEq] at hq
    subst hq
    rcases hq2 with h0 | h1
    · omega
    · rw [h1]; exact separablePrefixLen_le I ops
  have heq := OptimizeSeparablePrefix_eq I ops inBitDepth p hp hpos h32f h32i
  refine ⟨hle, heq, fun hlut => ?_⟩
  obtain ⟨lut, hl, ht, hd⟩ := hlut inBitDepth ((ops.take p).map I.clone)
  refine ⟨lut, ?_, ht, hd, ?_⟩
  · rw [heq, hl]; rfl
  · simp only [List.length_cons, List.length_drop]

/-- Witness of C12: at 8-bit input the chain of the exponents 2 and 2 (both separable and
expensive, `p = 2 = n`) becomes one forward Lut1D. -/
theorem OptimizeSeparablePrefix_splices_one_lut_witness :
    ∃ lut, OptimizeSeparablePrefix fx [FxOp.exponent 1, FxOp.exponent 1] .BIT_DEPTH_UINT8 =
        .ok (lut :: [FxOp.exponent 1, FxOp.exponent 1].drop 2) ∧
      fx.getType lut = .Lut1DType ∧ fx.getDirection lut = .TRANSFORM_DIR_FORWARD ∧
      (lut :: [FxOp.exponent 1, FxOp.exponent 1].drop 2).length = 2 - 2 + 1 :=
  (OptimizeSeparablePrefix_splices_one_lut fx [FxOp.exponent 1, FxOp.exponent 1]
    .BIT_DEPTH_UINT8 2 (by decide) (by decide) (by decide) (by decide)).2.2
    fx_makesSingleForwardLut

/-- C13: for every flag set, the test of `RemoveInverseOps` fails on every adjacent pair whose
first operator is of type Matrix, Range or Exponent, whatever `isInverse` answers, so such
a pair is never rewritten; a chain made only of operators of these three types is returned
unchanged with count 0 (given room for one iteration per entry). -/
theorem RemoveInverseOps_leaves_matrix_range_exponent (I : Externals Op)
    (oFlags : OptimizationFlags) :
    (∀ op1 op2 : Op,
        (I.getType op1 = .MatrixType ∨ I.getType op1 = .RangeType ∨
          I.getType op1 = .ExponentType) →
        isInversePair I oFlags op1 op2 = false) ∧
      (∀ (fuel : Nat) (ops : List Op),
        (∀ o ∈ ops, I.getType o = .MatrixType ∨ I.getType o = .RangeType ∨
          I.getType o = .ExponentType) →
        ops.length ≤ fuel → 1 ≤ fuel →
        RemoveInverseOps I fuel ops oFlags = .ok (ops, 0)) := by
  refine ⟨fun op1 op2 h => isInversePair_of_composed_type I oFlags op1 op2 h, ?_⟩
  intro fuel ops hops hl h1
  exact RemoveInverseOps_of_chain I fuel ops oFlags
    (chain'_of_forall_left _ ops
      (fun a ha b => isInversePair_of_composed_type I oFlags a b (hops a ha))) hl h1

/-- Witness of C13: with every flag bit set, a chain of Matrix, Range and Exponent operators
comes back unchanged with count 0. -/
theorem RemoveInverseOps_leaves_matrix_range_exponent_witness :
    RemoveInverseOps fx 4
      [FxOp.matrix 1, FxOp.matrix (-1), FxOp.range (some 0) (some 1), FxOp.exponent 1]
      0x1FFFF =
      .ok ([FxOp.matrix 1, FxOp.matrix (-1), FxOp.range (some 0) (some 1), FxOp.exponent 1],
        0) :=
  (RemoveInverseOps_leaves_matrix_range_exponent fx 0x1FFFF).2 4
    [FxOp.matrix 1, FxOp.matrix (-1), FxOp.range (some 0) (some 1), FxOp.exponent 1]
    (by decide) (by decide) (by decide)

/-- C14: the gate of `CombineOps` on an adjacent pair `op1, op2` holds exactly when the type
of `op1` is one of Exponent, Gamma, Lut1D, Lut3D, Matrix, Range, the `OPTIMIZATION_COMP`
flag of that type is set and `op1.canCombineWith(op2)` holds (the type of `op2` is not
consulted); an iteration of the loop rewrites the pair under its cursor if the gate holds
and otherwise only advances the cursor; a pair whose first operator is of another type
fails the gate under all flags, and a chain of operators of other types only is returned
unchanged with count 0. -/
theorem CombineOps_rewrites_only_gated_pairs (I : Externals Op) (oFlags : OptimizationFlags) :
    (∀ op1 op2 : Op, isCombinePair I oFlags op1 op2 = true ↔
        ((I.getType op1 = .ExponentType ∧
            HasFlag oFlags I.OPTIMIZATION_COMP_EXPONENT = true) ∨
          (I.getType op1 = .GammaType ∧ HasFlag oFlags I.OPTIMIZATION_COMP_GAMMA = true) ∨
          (I.getType op1 = .Lut1DType ∧ HasFlag oFlags I.OPTIMIZATION_COMP_LUT1D = true) ∨
          (I.getType op1 = .Lut3DType ∧ HasFlag oFlags I.OPTIMIZATION_COMP_LUT3D = true) ∨
          (I.getType op1 = .MatrixType ∧ HasFlag oFlags I.OPTIMIZATION_COMP_MATRIX = true) ∨
          (I.getType op1 = .RangeType ∧ HasFlag oFlags I.OPTIMIZATION_COMP_RANGE = true)) ∧
        I.canCombineWith op1 op2 = true) ∧
      (∀ (fuel : Nat) (pre post : List Op) (a b : Op) (c : Nat),
        CombineOpsLoop I oFlags (fuel + 1) (pre ++ a :: b :: post) (pre.length : Int) c =
          if isCombinePair I oFlags a b = true then
            CombineOpsLoop I oFlags fuel (pre ++ I.combineWith a b ++ post)
              ((pre.length - 1 : Nat) : Int) (c + 1)
          else
            CombineOpsLoop I oFlags fuel (pre ++ a :: b :: post)
              ((pre.length + 1 : Nat) : Int) c) ∧
      (∀ op1 op2 : Op,
        (I.getType op1 ≠ .ExponentType ∧ I.getType op1 ≠ .GammaType ∧
          I.getType op1 ≠ .Lut1DType ∧ I.getType op1 ≠ .Lut3DType ∧
          I.getType op1 ≠ .MatrixType ∧ I.getType op1 ≠ .RangeType) →
        isCombinePair I oFlags op1 op2 = false) ∧
      (∀ (fuel : Nat) (ops : List Op),
        (∀ o ∈ ops, I.getType o ≠ .ExponentType ∧ I.getType o ≠ .GammaType ∧
          I.getType o ≠ .Lut1DType ∧ I.getType o ≠ .Lut3DType ∧
          I.getType o ≠ .MatrixType ∧ I.getType o ≠ .RangeType) →
        ops.length ≤ fuel → 1 ≤ fuel →
        CombineOps I fuel ops oFlags = .ok (ops, 0)) := by
  refine ⟨fun op1 op2 => isCombinePair_iff I oFlags op1 op2,
    fun fuel pre post a b c => CombineOpsLoop_step I oFlags fuel pre post a b c,
    fun op1 op2 h => isCombinePair_of_other_type I oFlags op1 op2 h, ?_⟩
  intro fuel ops hops hl h1
  exact CombineOps_of_chain I fuel ops oFlags
    (chain'_of_forall_left _ ops
      (fun a ha b => isCombinePair_of_other_type I oFlags a b (hops a ha))) hl h1

/-- Witness of C14: with every flag bit set, a chain of two Log operators is not combined. -/
theorem CombineOps_rewrites_only_gated_pairs_witness :
    CombineOps fx 2
      [FxOp.log .TRANSFORM_DIR_FORWARD 1, FxOp.log .TRANSFORM_DIR_FORWARD 2] 0x1FFFF =
      .ok ([FxOp.log .TRANSFORM_DIR_FORWARD 1, FxOp.log .TRANSFORM_DIR_FORWARD 2], 0) :=
  (CombineOps_rewrites_only_gated_pairs fx 0x1FFFF).2.2.2 2
    [FxOp.log .TRANSFORM_DIR_FORWARD 1, FxOp.log .TRANSFORM_DIR_FORWARD 2]
    (by decide) (by decide) (by decide)

/-- C15: `ReplaceIdentityOps` keeps the chain length and replaces an entry by its
`getIdentityReplacement()` exactly when the entry reports `isIdentity()`, its type is not
Range, and either its type is Gamma and `OPTIMIZATION_IDENTITY_GAMMA` is set or its type is
not Gamma and `OPTIMIZATION_IDENTITY` is set; every other entry is left unchanged, the
returned count is the number of entries meeting the condition, and an entry of type Range
never meets it, whatever the flags. -/
theorem ReplaceIdentityOps_replaces_exactly (I : Externals Op) (ops : List Op)
    (oFlags : OptimizationFlags) :
    (ReplaceIdentityOps I ops oFlags).1 =
        ops.map (fun o =>
          if (I.isIdentity o && (I.getType o != .RangeType) &&
              ((I.getType o == .GammaType && HasFlag oFlags I.OPTIMIZATION_IDENTITY_GAMMA) ||
                (I.getType o != .GammaType && HasFlag oFlags I.OPTIMIZATION_IDENTITY))) = true
          then I.getIdentityReplacement o else o) ∧
      (ReplaceIdentityOps I ops oFlags).2 =
        ops.countP (fun o =>
          I.isIdentity o && (I.getType o != .RangeType) &&
            ((I.getType o == .GammaType && HasFlag oFlags I.OPTIMIZATION_IDENTITY_GAMMA) ||
              (I.getType o != .GammaType && HasFlag oFlags I.OPTIMIZATION_IDENTITY))) ∧
      (ReplaceIdentityOps I ops oFlags).1.length = ops.length ∧
      (∀ o : Op, I.getType o = .RangeType →
        (I.isIdentity o && (I.getType o != .RangeType) &&
          ((I.getType o == .GammaType && HasFlag oFlags I.OPTIMIZATION_IDENTITY_GAMMA) ||
            (I.getType o != .GammaType && HasFlag oFlags I.OPTIMIZATION_IDENTITY))) =
          false) := by
  have hfun : replacesIdentity I (HasFlag oFlags I.OPTIMIZATION_IDENTITY)
        (HasFlag oFlags I.OPTIMIZATION_IDENTITY_GAMMA) =
      (fun o => I.isIdentity o && (I.getType o != .RangeType) &&
        ((I.getType o == .GammaType && HasFlag oFlags I.OPTIMIZATION_IDENTITY_GAMMA) ||
          (I.getType o != .GammaType && HasFlag oFlags I.OPTIMIZATION_IDENTITY))) :=
    funext (fun o => replacesIdentity_eq I oFlags o)
  rw [ReplaceIdentityOps_eq_map, hfun]
  refine ⟨rfl, rfl, by simp, ?_⟩
  intro o ho
  simp [ho]

/-- Witness of C15: with every flag bit set, an identity Range does not meet the condition
of replacement. -/
theorem ReplaceIdentityOps_replaces_exactly_witness :
    (fx.isIdentity (FxOp.range (some 0) (some 1)) &&
        (fx.getType (FxOp.range (some 0) (some 1)) != .RangeType) &&
        ((fx.getType (FxOp.range (some 0) (some 1)) == .GammaType &&
            HasFlag 0x1FFFF fx.OPTIMIZATION_IDENTITY_GAMMA) ||
          (fx.getType (FxOp.range (some 0) (some 1)) != .GammaType &&
            HasFlag 0x1FFFF fx.OPTIMIZATION_IDENTITY))) = false :=
  (ReplaceIdentityOps_replaces_exactly fx [FxOp.range (some 0) (some 1)] 0x1FFFF).2.2.2
    (FxOp.range (some 0) (some 1)) (by decide)

/-- C16: for a chain `[op1, op2]` (and room for two iterations), `RemoveInverseOps` returns
count 1 and the empty chain when the types are equal, pair cancellation is enabled for the
type, `op1.isInverse(op2)` holds and `op1.getIdentityReplacement()` is a no-op; count 1 and
the chain `[op1.getIdentityReplacement()]` when the replacement is not a no-op; and the
chain unchanged with count 0 when the types differ, the type is not enabled or `isInverse`
is false. -/
theorem RemoveInverseOps_on_two_entries (I : Externals Op) (oFlags : OptimizationFlags)
    (fuel : Nat) (op1 op2 : Op) (hfuel : 2 ≤ fuel) :
    (I.getType op1 = I.getType op2 → IsPairInverseEnabled I (I.getType op1) oFlags = true →
        I.isInverse op1 op2 = true →
        (I.isNoOp (I.getIdentityReplacement op1) = true →
          RemoveInverseOps I fuel [op1, op2] oFlags = .ok ([], 1)) ∧
        (I.isNoOp (I.getIdentityReplacement op1) = false →
          RemoveInverseOps I fuel [op1, op2] oFlags =
            .ok ([I.getIdentityReplacement op1], 1))) ∧
      ((I.getType op1 ≠ I.getType op2 ∨
          IsPairInverseEnabled I (I.getType op1) oFlags = false ∨
          I.isInverse op1 op2 = false) →
        RemoveInverseOps I fuel [op1, op2] oFlags = .ok ([op1, op2], 0)) := by
  have h2 := RemoveInverseOps_two I oFlags fuel op1 op2 hfuel
  constructor
  · intro ht he hi
    have hpair : isInversePair I oFlags op1 op2 = true := by
      unfold isInversePair; rw [he, hi, ht]; simp
    rw [if_pos hpair] at h2
    constructor
    · intro hn; rw [h2, if_pos hn]
    · intro hn; rw [h2, if_neg (by simp [hn])]
  · intro h
    have hpair : ¬ isInversePair I oFlags op1 op2 = true := by
      unfold isInversePair
      rcases h with h | h | h
      · simp [h]
      · simp [h]
      · simp [h]
    rw [h2, if_neg hpair]

/-- Witness of C16: a forward Log followed by its inverse becomes the residual clamp of the
forward Log, with count 1. -/
theorem RemoveInverseOps_on_two_entries_witness :
    RemoveInverseOps fx 2
      [FxOp.log .TRANSFORM_DIR_FORWARD 1, FxOp.log .TRANSFORM_DIR_INVERSE 1] 0x100 =
      .ok ([FxOp.range (some 0) none], 1) :=
  ((RemoveInverseOps_on_two_entries fx 0x100 2
    (FxOp.log .TRANSFORM_DIR_FORWARD 1) (FxOp.log .TRANSFORM_DIR_INVERSE 1) (by decide)).1
    (by decide) (by decide) (by decide)).2 (by decide)

/-- C17: for every chain, bit depths and flags, the chain returned by `OptimizeOpVec`
contains no entry of type `NoOpType`, the operators handed back by the contract methods
being real operators (`ProducesNoNoOpType`). -/
theorem OptimizeOpVec_result_has_no_NoOpType (I : Externals Op) (hI : ProducesNoNoOpType I)
    (fuel : Nat) (ops : List Op) (inBitDepth outBitDepth : BitDepth)
    (oFlags : OptimizationFlags) (r : List Op)
    (h : OptimizeOpVec I fuel ops inBitDepth outBitDepth oFlags = .ok r) :
    ∀ o ∈ r, I.getType o ≠ .NoOpType :=
  OptimizeOpVec_no_NoOpType_aux I hI fuel ops inBitDepth outBitDepth oFlags r h

/-- Witness of C17: a chain with two placeholders of type `NoOpType` and an identity matrix,
optimized with `OPTIMIZATION_IDENTITY`, comes back as `[Log, Matrix]`; neither entry is of
type `NoOpType`. -/
theorem OptimizeOpVec_result_has_no_NoOpType_witness :
    fx.getType (FxOp.log .TRANSFORM_DIR_FORWARD 1) ≠ .NoOpType ∧
      fx.getType (FxOp.matrix 1) ≠ .NoOpType :=
  ⟨OptimizeOpVec_result_has_no_NoOpType fx fx_producesNoNoOpType 10
      [FxOp.noop, FxOp.matrix 0, FxOp.log .TRANSFORM_DIR_FORWARD 1, FxOp.noop, FxOp.matrix 1]
      .BIT_DEPTH_F32 .BIT_DEPTH_F32 0x1
      [FxOp.log .TRANSFORM_DIR_FORWARD 1, FxOp.matrix 1] (by decide)
      (FxOp.log .TRANSFORM_DIR_FORWARD 1) (by decide),
    OptimizeOpVec_result_has_no_NoOpType fx fx_producesNoNoOpType 10
      [FxOp.noop, FxOp.matrix 0, FxOp.log .TRANSFORM_DIR_FORWARD 1, FxOp.noop, FxOp.matrix 1]
      .BIT_DEPTH_F32 .BIT_DEPTH_F32 0x1
      [FxOp.log .TRANSFORM_DIR_FORWARD 1, FxOp.matrix 1] (by decide)
      (FxOp.matrix 1) (by decide)⟩

/-- C18: debug logging does not interfere with the result: for every chain, bit depths and
flags, the chain returned by `OptimizeOpVec` (or its failure) when `IsDebugLoggingEnabled()`
answers true is the one returned when it answers false. -/
theorem OptimizeOpVec_chain_independent_of_logging (I : Externals Op) (fuel : Nat)
    (ops : List Op) (inBitDepth outBitDepth : BitDepth) (oFlags : OptimizationFlags) :
    (OptimizeOpVecLogged I true fuel ops inBitDepth outBitDepth oFlags).map Prod.fst =
      (OptimizeOpVecLogged I false fuel ops inBitDepth outBitDepth oFlags).map Prod.fst := by
  rw [OptimizeOpVecLogged_chain, OptimizeOpVecLogged_chain]

/-- C19, the code at two deep chains (Log pair cancellation and Matrix combination
enabled).  On eight nested levels of Log and Matrix pairs every round changes the chain,
the loop is left through its condition with `passes = 9`, and `OptimizeOpVec` returns the
chain without handing the "max number of passes" message to `LogDebug`.  On seven nested
levels the loop is left on a round without change with `passes = 8`, and the message is
logged. -/
theorem OptimizeOpVec_pass_cap_is_not_reported :
    (OptimizeLoop fx 40 (0x100 ||| 0x2000) 40 (fxNested 8) 0 = .ok ([], 9) ∧
      OptimizeOpVecLogged fx false 40 (fxNested 8) .BIT_DEPTH_F32 .BIT_DEPTH_F32
        (0x100 ||| 0x2000) = .ok ([], [])) ∧
    (OptimizeLoop fx 40 (0x100 ||| 0x2000) 40 (fxNested 7) 0 = .ok ([], 8) ∧
      OptimizeOpVecLogged fx false 40 (fxNested 7) .BIT_DEPTH_F32 .BIT_DEPTH_F32
        (0x100 ||| 0x2000) = .ok ([], [LogMessage.maxPassesReached 8])) := by
  decide

/-- C20: the defensive failure is unreachable.  The answers of `hasChannelCrosstalk()` and
`isDynamic()` are functions of the operator, hence stable; then for every chain
`FindSeparablePrefix` returns a length (0 or the length of the counted prefix, at most the
chain length) and never raises "Non-separable op.", because every operator of the counted
prefix was found crosstalk-free; hence `OptimizeSeparablePrefix` returns a chain for every
chain and input bit depth. -/
theorem FindSeparablePrefix_never_throws (I : Externals Op) (ops : List Op)
    (inBitDepth : BitDepth) :
    (∃ p, FindSeparablePrefix I ops = .ok p ∧ p ≤ ops.length) ∧
      FindSeparablePrefix I ops ≠ .error (.exception "Non-separable op.") ∧
      (∃ r, OptimizeSeparablePrefix I ops inBitDepth = .ok r) := by
  obtain ⟨p, hp, hp2⟩ := FindSeparablePrefix_ok I ops
  refine ⟨⟨p, hp, ?_⟩, ?_, OptimizeSeparablePrefix_ok I ops inBitDepth⟩
  · rcases hp2 with h | h
    · omega
    · rw [h]; exact separablePrefixLen_le I ops
  · rw [hp]
    intro h
    cases h

/-- C21: `LogOpData::getIdentityReplacement` on a Log with its four red parameters.  For the
forward direction it returns `RangeOpData(b, EmptyValue, b, EmptyValue)`, the Range with the
lower bound `b` for input and output and no upper bound, where `b` is `0.0` when
`isLog2()` or `isLog10()` holds and `-linSideOffset / linSideSlope` of the red channel
otherwise; for the inverse direction it returns `MatrixOpData()`, the identity Matrix. -/
theorem getIdentityReplacement_of_Log {D : Type} (X : DoubleOps D) (a : LogOpData D)
    (h4 : a.m_redParams.length = 4) :
    ∃ (l2 l10 : Bool) (linSideOffset linSideSlope : D),
      LogOpData.isLog2 X a = .ok l2 ∧ LogOpData.isLog10 X a = .ok l10 ∧
      a.m_redParams[X.LIN_SIDE_OFFSET.val]? = some linSideOffset ∧
      a.m_redParams[X.LIN_SIDE_SLOPE.val]? = some linSideSlope ∧
      (a.m_direction = .TRANSFORM_DIR_FORWARD →
        LogOpData.getIdentityReplacement X a =
          .ok (.RangeOpData
            (.value (if (l2 || l10) = true then X.zero
              else X.div (X.neg linSideOffset) linSideSlope))
            .EmptyValue
            (.value (if (l2 || l10) = true then X.zero
              else X.div (X.neg linSideOffset) linSideSlope))
            .EmptyValue)) ∧
      (a.m_direction = .TRANSFORM_DIR_INVERSE →
        LogOpData.getIdentityReplacement X a = .ok .MatrixOpData) := by
  obtain ⟨l2, hl2⟩ := isLogBase_ok X a X.two h4
  obtain ⟨l10, hl10⟩ := isLogBase_ok X a X.ten h4
  obtain ⟨off, hoff, hoff2⟩ := paramAt_of_length a.m_redParams X.LIN_SIDE_OFFSET h4
  obtain ⟨sl, hsl, hsl2⟩ := paramAt_of_length a.m_redParams X.LIN_SIDE_SLOPE h4
  refine ⟨l2, l10, off, sl, hl2, hl10, hoff, hsl, ?_, ?_⟩
  · intro hd
    unfold LogOpData.getIdentityReplacement
    unfold LogOpData.isLog2 LogOpData.isLog10
    rw [hl2, hl10, hoff2, hsl2, hd]
    cases l2 <;> cases l10 <;> simp
  · intro hd
    unfold LogOpData.getIdentityReplacement
    unfold LogOpData.isLog2 LogOpData.isLog10
    rw [hl2, hl10, hd]
    cases l2 <;> cases l10 <;> simp

theorem getIdentityReplacement_of_Log_witness :
    LogOpData.getIdentityReplacement exactDouble
        (defaultLog (some 10) .TRANSFORM_DIR_FORWARD) =
        .ok (.RangeOpData (.value (some 0)) .EmptyValue (.value (some 0)) .EmptyValue) ∧
      LogOpData.getIdentityReplacement exactDouble
        (defaultLog (some 10) .TRANSFORM_DIR_INVERSE) = .ok .MatrixOpData ∧
      ∃ (l2 l10 : Bool) (linSideOffset linSideSlope : Option ℚ),
        LogOpData.isLog2 exactDouble
          ⟨[some 1, some 0, some 2, some 1], [some 1, some 0, some 2, some 1],
            [some 1, some 0, some 2, some 1], some 10, .TRANSFORM_DIR_FORWARD⟩ = .ok l2 ∧
        LogOpData.isLog10 exactDouble
          ⟨[some 1, some 0, some 2, some 1], [some 1, some 0, some 2, some 1],
            [some 1, some 0, some 2, some 1], some 10, .TRANSFORM_DIR_FORWARD⟩ = .ok l10 ∧
        [some (1 : ℚ), some 0, some 2, some 1][exactDouble.LIN_SIDE_OFFSET.val]? =
          some linSideOffset ∧
        [some (1 : ℚ), some 0, some 2, some 1][exactDouble.LIN_SIDE_SLOPE.val]? =
          some linSideSlope ∧
        (TransformDirection.TRANSFORM_DIR_FORWARD = .TRANSFORM_DIR_FORWARD →
          LogOpData.getIdentityReplacement exactDouble
            ⟨[some 1, some 0, some 2, some 1], [some 1, some 0, some 2, some 1],
              [some 1, some 0, some 2, some 1], some 10, .TRANSFORM_DIR_FORWARD⟩ =
            .ok (.RangeOpData
              (.value (if (l2 || l10) = true then exactDouble.zero
                else exactDouble.div (exactDouble.neg linSideOffset) linSideSlope))
              .EmptyValue
              (.value (if (l2 || l10) = true then exactDouble.zero
                else exactDouble.div (exactDouble.neg linSideOffset) linSideSlope))
              .EmptyValue)) ∧
        (TransformDirection.TRANSFORM_DIR_FORWARD = .TRANSFORM_DIR_INVERSE →
          LogOpData.getIdentityReplacement exactDouble
            ⟨[some 1, some 0, some 2, some 1], [some 1, some 0, some 2, some 1],
              [some 1, some 0, some 2, some 1], some 10, .TRANSFORM_DIR_FORWARD⟩ =
            .ok .MatrixOpData) :=
  ⟨by decide, by decide,
    getIdentityReplacement_of_Log exactDouble
      ⟨[some 1, some 0, some 2, some 1], [some 1, some 0, some 2, some 1],
        [some 1, some 0, some 2, some 1], some 10, .TRANSFORM_DIR_FORWARD⟩ rfl⟩

/-- C22 fails as stated: `validate` lets a base that is not a number through (both of its
tests, `m_base == 1.0` and `m_base <= 0.0`, are false for it), and `isInverse` compares the
bases with `==`.  The Log with the default parameters on all three channels and such a base
is valid, its channels are equal, its `inverse()` is built, and it is not reported as the
inverse of its own `inverse()`. -/
theorem isInverse_fails_for_base_not_a_number :
    LogOpData.validate exactDouble (defaultLog none .TRANSFORM_DIR_FORWARD) = .ok () ∧
      LogOpData.allComponentsEqual exactDouble (defaultLog none .TRANSFORM_DIR_FORWARD) =
        true ∧
      LogOpData.inverse exactDouble (defaultLog none .TRANSFORM_DIR_FORWARD) =
        .ok (defaultLog none .TRANSFORM_DIR_INVERSE) ∧
      LogOpData.isInverse exactDouble (defaultLog none .TRANSFORM_DIR_FORWARD)
        (defaultLog none .TRANSFORM_DIR_INVERSE) = false := by
  decide

/-- C22 as amended: for every valid `LogOpData` `a` whose base is a number (it compares
equal to itself; `==` on `double` makes a value equal to itself whenever it is equal to
anything), `a.inverse()` is built and `a.isInverse(a.inverse())` holds if and only if
`a.allComponentsEqual()`, the red parameters comparing equal to the green and to the blue
ones.  A Log whose channels differ in this sense is not reported as the inverse of any Log,
nor any Log as its inverse. -/
theorem isInverse_of_own_inverse {D : Type} (X : DoubleOps D) (a : LogOpData D)
    (hv : LogOpData.validate X a = .ok ())
    (hbase : X.eq a.m_base a.m_base = true)
    (hlaw : ∀ x y, X.eq x y = true → X.eq x x = true) :
    ∃ inv, LogOpData.inverse X a = .ok inv ∧
      (LogOpData.isInverse X a inv = true ↔ LogOpData.allComponentsEqual X a = true) ∧
      (LogOpData.allComponentsEqual X a = false →
        ∀ r, LogOpData.isInverse X a r = false ∧ LogOpData.isInverse X r a = false) := by
  obtain ⟨_, hinv⟩ := inverse_of_valid X a hv
  refine ⟨_, hinv, ?_, ?_⟩
  · constructor
    · intro h
      simp only [LogOpData.isInverse, Bool.and_eq_true] at h
      exact h.1.1.1.2
    · intro h
      have h2 := h
      simp only [LogOpData.allComponentsEqual, Bool.and_eq_true] at h2
      have hred := vectorEq_self_of_eq X hlaw _ _ h2.1
      simp only [LogOpData.isInverse, Bool.and_eq_true, decide_eq_true_eq]
      refine ⟨⟨⟨⟨trivial, h⟩, ?_⟩, hred⟩, hbase⟩
      simpa [LogOpData.allComponentsEqual] using h2
  · intro h r
    constructor
    · simp [LogOpData.isInverse, h]
    · simp [LogOpData.isInverse, h]

theorem isInverse_of_own_inverse_witness :
    LogOpData.validate exactDouble (defaultLog (some 10) .TRANSFORM_DIR_FORWARD) = .ok () ∧
      LogOpData.isInverse exactDouble (defaultLog (some 10) .TRANSFORM_DIR_FORWARD)
        (defaultLog (some 10) .TRANSFORM_DIR_INVERSE) = true ∧
      ∃ inv, LogOpData.inverse exactDouble (defaultLog (some 10) .TRANSFORM_DIR_FORWARD) =
          .ok inv ∧
        (LogOpData.isInverse exactDouble (defaultLog (some 10) .TRANSFORM_DIR_FORWARD) inv =
            true ↔
          LogOpData.allComponentsEqual exactDouble
            (defaultLog (some 10) .TRANSFORM_DIR_FORWARD) = true) ∧
        (LogOpData.allComponentsEqual exactDouble
            (defaultLog (some 10) .TRANSFORM_DIR_FORWARD) = false →
          ∀ r, LogOpData.isInverse exactDouble
              (defaultLog (some 10) .TRANSFORM_DIR_FORWARD) r = false ∧
            LogOpData.isInverse exactDouble r
              (defaultLog (some 10) .TRANSFORM_DIR_FORWARD) = false) :=
  ⟨by decide, by decide,
    isInverse_of_own_inverse exactDouble (defaultLog (some 10) .TRANSFORM_DIR_FORWARD)
      (by decide) (by decide)
      (by
        intro x y h
        cases x with
        | none => simp [exactDouble] at h
        | some p => simp [exactDouble])⟩

/-- C23: `RemoveDynamicProperties` keeps the length and the order of the chain: the entry at
every position is the old entry itself when `isDynamic()` is false, and otherwise its clone
with `removeDynamicProperties()` applied.  In `OptimizeOpVec` the step is applied exactly
when the flags are not `OPTIMIZATION_NONE` and contain
`OPTIMIZATION_NO_DYNAMIC_PROPERTIES`: the rest of the function then works on
`RemoveDynamicProperties (RemoveNoOpTypes ops)`, and on `RemoveNoOpTypes ops` otherwise (on
an empty chain the function returns at once; the step would change nothing there). -/
theorem RemoveDynamicProperties_frame_and_gate (I : Externals Op) (ops : List Op) :
    (RemoveDynamicProperties I ops).length = ops.length ∧
      (∀ (i : Nat) (h : i < ops.length),
        (RemoveDynamicProperties I ops)[i]? =
          some (if I.isDynamic ops[i] = true then I.removeDynamicProperties (I.clone ops[i])
            else ops[i])) ∧
      RemoveDynamicProperties I ([] : List Op) = [] ∧
      (∀ (fuel : Nat) (inBitDepth outBitDepth : BitDepth) (oFlags : OptimizationFlags),
        OptimizeOpVecTrace I fuel ops inBitDepth outBitDepth oFlags =
          if ops.isEmpty = true then .ok ⟨[], 0, []⟩
          else if oFlags = OPTIMIZATION_NONE then
            .ok ⟨RemoveNoOpTypes I ops, 0, RemoveNoOpTypes I ops⟩
          else if HasFlag oFlags I.OPTIMIZATION_NO_DYNAMIC_PROPERTIES = true then
            OptimizeOpVecAfterDynamic I fuel (RemoveDynamicProperties I (RemoveNoOpTypes I ops))
              inBitDepth outBitDepth oFlags
          else
            OptimizeOpVecAfterDynamic I fuel (RemoveNoOpTypes I ops)
              inBitDepth outBitDepth oFlags) := by
  refine ⟨by simp [RemoveDynamicProperties], ?_, rfl, ?_⟩
  · intro i h
    simp [RemoveDynamicProperties, List.getElem?_map, List.getElem?_eq_getElem h]
  · intro fuel inBitDepth outBitDepth oFlags
    unfold OptimizeOpVecTrace OptimizeOpVecAfterDynamic
    cases ops with
    | nil => simp
    | cons a l =>
      by_cases hfl : oFlags = OPTIMIZATION_NONE
      · simp [hfl]
      · have h2 : (oFlags == OPTIMIZATION_NONE) = false := by simpa using hfl
        simp only [List.isEmpty_cons, Bool.false_eq_true, if_false, h2, reduceCtorEq, hfl]
        by_cases hd : HasFlag oFlags I.OPTIMIZATION_NO_DYNAMIC_PROPERTIES = true
        · simp only [hd, if_true]
        · simp only [hd]
          simp

/-- C24: transform directions round-trip through their names:
`TransformDirectionFromString(TransformDirectionToString(d)) = d` for forward, inverse and
unknown; and parsing ignores letter case: two strings with the same lower-cased form are
parsed alike, a string is parsed as forward (inverse) exactly when its lower-cased form is
"forward" ("inverse"), whatever the case of its letters. -/
theorem TransformDirection_name_round_trip :
    (∀ d, TransformDirectionFromString (TransformDirectionToString d) = d) ∧
      (∀ s t, pystring.lower s = pystring.lower t →
        TransformDirectionFromString s = TransformDirectionFromString t) ∧
      (∀ s, TransformDirectionFromString s = .TRANSFORM_DIR_FORWARD ↔
        pystring.lower s = "forward") ∧
      (∀ s, TransformDirectionFromString s = .TRANSFORM_DIR_INVERSE ↔
        pystring.lower s = "inverse") ∧
      TransformDirectionFromString "FORWARD" = .TRANSFORM_DIR_FORWARD ∧
      TransformDirectionFromString "Inverse" = .TRANSFORM_DIR_INVERSE ∧
      TransformDirectionFromString "UnKnown" = .TRANSFORM_DIR_UNKNOWN := by
  refine ⟨?_, ?_, ?_, ?_, by decide, by decide, by decide⟩
  · intro d
    cases d <;> decide
  · intro s t h
    unfold TransformDirectionFromString
    rw [h]
  · intro s
    unfold TransformDirectionFromString
    dsimp only
    by_cases h1 : pystring.lower s = "forward"
    · simp [h1]
    · by_cases h2 : pystring.lower s = "inverse"
      · simp [h1, h2]
      · simp [h1, h2]
  · intro s
    unfold TransformDirectionFromString
    dsimp only
    by_cases h1 : pystring.lower s = "forward"
    · rw [if_pos h1, h1]; decide
    · by_cases h2 : pystring.lower s = "inverse"
      · simp [h1, h2]
      · simp [h1, h2]

/-- C25: `ExposureContrastStyleFromString` throws if and only if the lower-cased input is
none of "linear", "video", "log"; the message is then "Unknown exposure contrast style"
followed by ": " and the input as given.  Otherwise it returns the style of that name, and
`ExposureContrastStyleFromString(ExposureContrastStyleToString(s)) = s` for each of the
three styles. -/
theorem ExposureContrastStyleFromString_throws_iff_unknown (style : String) :
    ((∃ e, ExposureContrastStyleFromString style = .error e) ↔
        (pystring.lower style ≠ "linear" ∧ pystring.lower style ≠ "video" ∧
          pystring.lower style ≠ "log")) ∧
      (∀ e, ExposureContrastStyleFromString style = .error e →
        e = .exception ("Unknown exposure contrast style" ++ (": " ++ style))) ∧
      (pystring.lower style = "linear" →
        ExposureContrastStyleFromString style = .ok .EXPOSURE_CONTRAST_LINEAR) ∧
      (pystring.lower style = "video" →
        ExposureContrastStyleFromString style = .ok .EXPOSURE_CONTRAST_VIDEO) ∧
      (pystring.lower style = "log" →
        ExposureContrastStyleFromString style = .ok .EXPOSURE_CONTRAST_LOGARITHMIC) ∧
      (∀ s, ExposureContrastStyleFromString (ExposureContrastStyleToString s) = .ok s) := by
  have hmsg : "Unknown exposure contrast style" ++ (": " ++ style) =
      "Unknown exposure contrast style: " ++ style := by
    rw [← String.append_assoc]; rfl
  unfold ExposureContrastStyleFromString
  simp only [EC_STYLE_LINEAR, EC_STYLE_VIDEO, EC_STYLE_LOGARITHMIC]
  refine ⟨?_, ?_, ?_, ?_, ?_, ?_⟩
  · by_cases h1 : pystring.lower style = "linear"
    · simp [h1]
    · by_cases h2 : pystring.lower style = "video"
      · simp [h1, h2]
      · by_cases h3 : pystring.lower style = "log"
        · simp [h1, h2, h3]
        · simp [h1, h2, h3]
  · intro e he
    rw [hmsg]
    by_cases h1 : pystring.lower style = "linear"
    · simp [h1] at he
    · by_cases h2 : pystring.lower style = "video"
      · simp [h1, h2] at he
      · by_cases h3 : pystring.lower style = "log"
        · simp [h1, h2, h3] at he
        · simp only [h1, h2, h3, if_false, Except.error.injEq] at he
          exact he.symm
  · intro h; simp [h]
  · intro h
    rw [h, if_neg (by decide), if_pos rfl]
  · intro h
    rw [h, if_neg (by decide), if_neg (by decide), if_pos rfl]
  · intro s
    cases s <;> decide

/-- C26: `SplitStringEnvStyle` on a string that is not null, into an empty vector, with `s`
the string stripped of its white space.  If `s` holds a `,` the result is the pieces of `s`
between the commas, each stripped (the pieces joined by `,` give `s` back and none holds a
`,`, so every `:` stays inside its piece); otherwise, if `s` holds a `:`, the same with `:`;
otherwise the result is the single string `s`.  In every case each returned part is left
alone by `strip` and neither starts nor ends with white space; `" sRGB_3, sRGB_2"` gives
`["sRGB_3", "sRGB_2"]`. -/
theorem SplitStringEnvStyle_splits_on_comma_then_colon (str : String) :
    (',' ∈ (pystring.strip str).data →
        SplitStringEnvStyle [] (some str) =
          (pystring.split (pystring.strip str) ",").map pystring.strip ∧
        List.intercalate [','] ((pystring.split (pystring.strip str) ",").map String.data) =
          (pystring.strip str).data ∧
        ∀ p ∈ pystring.split (pystring.strip str) ",", ',' ∉ p.data) ∧
      (',' ∉ (pystring.strip str).data → ':' ∈ (pystring.strip str).data →
        SplitStringEnvStyle [] (some str) =
          (pystring.split (pystring.strip str) ":").map pystring.strip ∧
        List.intercalate [':'] ((pystring.split (pystring.strip str) ":").map String.data) =
          (pystring.strip str).data ∧
        ∀ p ∈ pystring.split (pystring.strip str) ":", ':' ∉ p.data) ∧
      (',' ∉ (pystring.strip str).data → ':' ∉ (pystring.strip str).data →
        SplitStringEnvStyle [] (some str) = [pystring.strip str]) ∧
      (∀ p ∈ SplitStringEnvStyle [] (some str),
        pystring.strip p = p ∧
        (∀ c, p.data.head? = some c → pystring.isspace c = false) ∧
        (∀ c, p.data.getLast? = some c → pystring.isspace c = false)) ∧
      SplitStringEnvStyle [] (some " sRGB_3, sRGB_2") = ["sRGB_3", "sRGB_2"] := by
  have hcomma : (-1 < pystring.find (pystring.strip str) ",") ↔
      ',' ∈ (pystring.strip str).data := findFrom_single ',' _ 0
  have hcolon : (-1 < pystring.find (pystring.strip str) ":") ↔
      ':' ∈ (pystring.strip str).data := findFrom_single ':' _ 0
  have hparts : ∀ p ∈ SplitStringEnvStyle [] (some str), pystring.strip p = p := by
    intro p hp
    unfold SplitStringEnvStyle at hp
    dsimp only at hp
    obtain ⟨q, _, hq⟩ := List.mem_map.1 hp
    rw [← hq, strip_idempotent]
  refine ⟨?_, ?_, ?_, ?_, by decide⟩
  · intro h
    refine ⟨?_, ?_, ?_⟩
    · unfold SplitStringEnvStyle
      dsimp only
      rw [if_pos (by exact hcomma.2 h)]
    · exact splitAux_single_join ',' _ []
    · exact splitAux_single_no_sep ',' _ [] (by simp)
  · intro h1 h2
    refine ⟨?_, ?_, ?_⟩
    · unfold SplitStringEnvStyle
      dsimp only
      rw [if_neg (by exact fun hh => h1 (hcomma.1 hh)), if_pos (by exact hcolon.2 h2)]
    · exact splitAux_single_join ':' _ []
    · exact splitAux_single_no_sep ':' _ [] (by simp)
  · intro h1 h2
    unfold SplitStringEnvStyle
    dsimp only
    rw [if_neg (by exact fun hh => h1 (hcomma.1 hh)),
      if_neg (by exact fun hh => h2 (hcolon.1 hh))]
    simp [strip_idempotent]
  · intro p hp
    have hfix := hparts p hp
    exact ⟨hfix, strip_fixed_ends p hfix⟩

theorem SplitStringEnvStyle_splits_on_comma_then_colon_witness :
    ',' ∈ (pystring.strip " a:b , c ").data ∧
      (SplitStringEnvStyle [] (some " a:b , c ") =
          (pystring.split (pystring.strip " a:b , c ") ",").map pystring.strip ∧
        List.intercalate [',']
            ((pystring.split (pystring.strip " a:b , c ") ",").map String.data) =
          (pystring.strip " a:b , c ").data ∧
        ∀ p ∈ pystring.split (pystring.strip " a:b , c ") ",", ',' ∉ p.data) ∧
      SplitStringEnvStyle [] (some " a:b , c ") = ["a:b", "c"] ∧
      SplitStringEnvStyle [] (some " a:b ") = ["a", "b"] ∧
      SplitStringEnvStyle [] (some " ab ") = ["ab"] :=
  ⟨by decide,
    (SplitStringEnvStyle_splits_on_comma_then_colon " a:b , c ").1 (by decide),
    by decide, by decide, by decide⟩

/-- C27: `IntersectStringVecsCaseIgnore(vec1, vec2)` is the subsequence of `vec1`, in the
order and with the capitalization of `vec1` and with its duplicates, of the elements whose
lower-cased form is the lower-cased form of some element of `vec2`. -/
theorem IntersectStringVecsCaseIgnore_is_filter_of_first (vec1 vec2 : List String) :
    IntersectStringVecsCaseIgnore vec1 vec2 =
        vec1.filter (fun v => vec2.any (fun w => pystring.lower v == pystring.lower w)) ∧
      List.Sublist (IntersectStringVecsCaseIgnore vec1 vec2) vec1 ∧
      (∀ v, v ∈ IntersectStringVecsCaseIgnore vec1 vec2 ↔
        v ∈ vec1 ∧ ∃ w ∈ vec2, pystring.lower v = pystring.lower w) ∧
      IntersectStringVecsCaseIgnore ["View_3", "VIEW_1", "other", "view_3"]
        ["view_1", "View_3", "View_2"] = ["View_3", "VIEW_1", "view_3"] := by
  rw [IntersectStringVecsCaseIgnore_eq]
  refine ⟨rfl, List.filter_sublist _, ?_, by decide⟩
  intro v
  simp only [List.mem_filter, List.any_eq_true, beq_iff_eq]

/-- C28 fails as stated for `RemoveInverseOps`: with `A` an inverse Log, `B` a forward Log of
other parameters and `A'`, `B'` their inverses (Log pair cancellation enabled), the pair
`B, B'` at positions 1, 2 of `[A, B, B', A']` is rewritten into one entry, the clamping Range,
and the cursor moves on to position 2, not back to `max(0, 1 - 1) = 0`: the scan is over
after three tests of the loop condition, and in this run the pairs `A, Range` and
`Range, A'` are not examined. -/
theorem RemoveInverseOps_replacement_advances_cursor :
    isInversePair fx 0x100 (FxOp.log .TRANSFORM_DIR_FORWARD 2)
        (FxOp.log .TRANSFORM_DIR_INVERSE 2) = true ∧
      fx.isNoOp (fx.getIdentityReplacement (FxOp.log .TRANSFORM_DIR_FORWARD 2)) = false ∧
      inverseRewrite fx
        [FxOp.log .TRANSFORM_DIR_INVERSE 1, FxOp.log .TRANSFORM_DIR_FORWARD 2,
          FxOp.log .TRANSFORM_DIR_INVERSE 2, FxOp.log .TRANSFORM_DIR_FORWARD 1] 1
        (FxOp.log .TRANSFORM_DIR_FORWARD 2) (FxOp.log .TRANSFORM_DIR_INVERSE 2) =
        ([FxOp.log .TRANSFORM_DIR_INVERSE 1, FxOp.range (some 0) none,
          FxOp.log .TRANSFORM_DIR_FORWARD 1], 2) ∧
      max (0 : Int) (1 - 1) ≠ 2 ∧
      RemoveInverseOps fx 3
        [FxOp.log .TRANSFORM_DIR_INVERSE 1, FxOp.log .TRANSFORM_DIR_FORWARD 2,
          FxOp.log .TRANSFORM_DIR_INVERSE 2, FxOp.log .TRANSFORM_DIR_FORWARD 1] 0x100 =
        .ok ([FxOp.log .TRANSFORM_DIR_INVERSE 1, FxOp.range (some 0) none,
          FxOp.log .TRANSFORM_DIR_FORWARD 1], 1) := by
  decide

/-- C28 as amended: one iteration of either scan with the cursor on the pair `a, b` at
positions `i, i+1` (`i` the length of `pre`).  `CombineOps`: a pair that is combined is
replaced by the entries of `combineWith` (any number of them) and the cursor goes to
`max(0, i-1)`; otherwise the cursor advances.  `RemoveInverseOps`: an inverse pair whose
identity replacement is a no-op is erased and the cursor goes to `max(0, i-1)`; an inverse
pair whose identity replacement is not a no-op is replaced by that one entry and the cursor
advances to `i+1`; otherwise the cursor advances. -/
theorem pair_scans_cursor_after_rewrite (I : Externals Op) (oFlags : OptimizationFlags)
    (fuel : Nat) (pre post : List Op) (a b : Op) (c : Nat) :
    CombineOpsLoop I oFlags (fuel + 1) (pre ++ a :: b :: post) (pre.length : Int) c =
        (if isCombinePair I oFlags a b = true then
          CombineOpsLoop I oFlags fuel (pre ++ I.combineWith a b ++ post)
            (max 0 ((pre.length : Int) - 1)) (c + 1)
        else
          CombineOpsLoop I oFlags fuel (pre ++ a :: b :: post) ((pre.length : Int) + 1) c) ∧
      RemoveInverseOpsLoop I oFlags (fuel + 1) (pre ++ a :: b :: post) (pre.length : Int) c =
        (if isInversePair I oFlags a b = true then
          (if I.isNoOp (I.getIdentityReplacement a) = true then
            RemoveInverseOpsLoop I oFlags fuel (pre ++ post)
              (max 0 ((pre.length : Int) - 1)) (c + 1)
          else
            RemoveInverseOpsLoop I oFlags fuel (pre ++ I.getIdentityReplacement a :: post)
              ((pre.length : Int) + 1) (c + 1))
        else
          RemoveInverseOpsLoop I oFlags fuel (pre ++ a :: b :: post)
            ((pre.length : Int) + 1) c) := by
  constructor
  · rw [CombineOpsLoop_step, pred_cast]
    simp only [Nat.cast_add, Nat.cast_one]
  · by_cases h : isInversePair I oFlags a b = true
    · rw [if_pos h]
      by_cases hn : I.isNoOp (I.getIdentityReplacement a) = true
      · rw [if_pos hn, RemoveInverseOpsLoop_erase I oFlags fuel pre post a b c h hn, pred_cast]
      · rw [if_neg hn]
        simp only [Bool.not_eq_true] at hn
        rw [RemoveInverseOpsLoop_replace I oFlags fuel pre post a b c h hn]
        simp only [Nat.cast_add, Nat.cast_one]
    · rw [if_neg h]
      simp only [Bool.not_eq_true] at h
      rw [RemoveInverseOpsLoop_skip I oFlags fuel pre post a b c h]
      simp only [Nat.cast_add, Nat.cast_one]

/-- C29: `FindSeparablePrefix` returns (it never throws) either 0 or the length `p` of the
maximal leading run of operators without channel crosstalk that are not dynamic: `p` is at
most the chain length, every entry at a position below `p` has no crosstalk and is not
dynamic, and if `p` is smaller than the chain length the entry at position `p` has
crosstalk or is dynamic.  A non-zero `p` is returned only if some entry of the run has a
type that is neither Matrix nor Range. -/
theorem FindSeparablePrefix_zero_or_maximal_run (I : Externals Op) (ops : List Op) :
    ∃ p, FindSeparablePrefix I ops = .ok p ∧
      (p = 0 ∨
        (p ≤ ops.length ∧
          (∀ i, i < p →
            ∃ o, ops[i]? = some o ∧ I.hasChannelCrosstalk o = false ∧
              I.isDynamic o = false) ∧
          (p < ops.length →
            ∃ o, ops[p]? = some o ∧ (I.hasChannelCrosstalk o = true ∨ I.isDynamic o = true)) ∧
          ∃ i, i < p ∧ ∃ o, ops[i]? = some o ∧
            I.getType o ≠ .MatrixType ∧ I.getType o ≠ .RangeType)) := by
  obtain ⟨p, hp, _⟩ := FindSeparablePrefix_ok I ops
  refine ⟨p, hp, ?_⟩
  by_cases hpos : p = 0
  · exact Or.inl hpos
  · right
    obtain ⟨hlen, hexp⟩ := FindSeparablePrefix_pos I ops p hp hpos
    have hspec := separablePrefixLen_spec I ops
    rw [← hlen] at hspec
    exact ⟨by rw [hlen]; exact separablePrefixLen_le I ops, hspec.1, hspec.2, hexp⟩

/-- C31: prefix fusion cannot loop.  When the Lut1D construction of the fusion yields one
forward Lut1D, `OptimizeSeparablePrefix` returns for every chain and input bit depth, and
applied to its own result it changes nothing: either the first call changed nothing, or
its result is one forward Lut1D followed by the entries after the separable run, the first
of which (if any) has crosstalk or is dynamic, and `FindSeparablePrefix` returns 0 for it. -/
theorem OptimizeSeparablePrefix_cannot_loop (I : Externals Op)
    (hI : MakesSingleForwardLut I) (ops : List Op) (inBitDepth : BitDepth) :
    ∃ r, OptimizeSeparablePrefix I ops inBitDepth = .ok r ∧
      OptimizeSeparablePrefix I r inBitDepth = .ok r ∧
      (r = ops ∨
        ∃ lut, r = lut :: ops.drop (separablePrefixLen I ops) ∧
          I.getType lut = .Lut1DType ∧ I.getDirection lut = .TRANSFORM_DIR_FORWARD ∧
          separablePrefixLen I (ops.drop (separablePrefixLen I ops)) = 0 ∧
          FindSeparablePrefix I r = .ok 0) :=
  OptimizeSeparablePrefix_idempotent_aux I hI ops inBitDepth

theorem OptimizeSeparablePrefix_cannot_loop_witness :
    OptimizeSeparablePrefix fx [FxOp.exponent 1, FxOp.matrix 1] .BIT_DEPTH_UINT8 =
        .ok [FxOp.lut1d .TRANSFORM_DIR_FORWARD false] ∧
      OptimizeSeparablePrefix fx [FxOp.lut1d .TRANSFORM_DIR_FORWARD false] .BIT_DEPTH_UINT8 =
        .ok [FxOp.lut1d .TRANSFORM_DIR_FORWARD false] ∧
      ∃ r, OptimizeSeparablePrefix fx [FxOp.exponent 1, FxOp.matrix 1] .BIT_DEPTH_UINT8 =
          .ok r ∧
        OptimizeSeparablePrefix fx r .BIT_DEPTH_UINT8 = .ok r ∧
        (r = [FxOp.exponent 1, FxOp.matrix 1] ∨
          ∃ lut, r = lut :: [FxOp.exponent 1, FxOp.matrix 1].drop
              (separablePrefixLen fx [FxOp.exponent 1, FxOp.matrix 1]) ∧
            fx.getType lut = .Lut1DType ∧ fx.getDirection lut = .TRANSFORM_DIR_FORWARD ∧
            separablePrefixLen fx ([FxOp.exponent 1, FxOp.matrix 1].drop
              (separablePrefixLen fx [FxOp.exponent 1, FxOp.matrix 1])) = 0 ∧
            FindSeparablePrefix fx r = .ok 0) :=
  ⟨by decide, by decide,
    OptimizeSeparablePrefix_cannot_loop fx fx_makesSingleForwardLut
      [FxOp.exponent 1, FxOp.matrix 1] .BIT_DEPTH_UINT8⟩

/-- C32: `CombineTransformDirections(d1, d2)` is `TRANSFORM_DIR_UNKNOWN` if and only if `d1`
or `d2` is unknown; for known directions it is `TRANSFORM_DIR_FORWARD` when `d1 = d2` and
`TRANSFORM_DIR_INVERSE` when they differ. -/
theorem CombineTransformDirections_unknown_iff (d1 d2 : TransformDirection) :
    (CombineTransformDirections d1 d2 = .TRANSFORM_DIR_UNKNOWN ↔
        (d1 = .TRANSFORM_DIR_UNKNOWN ∨ d2 = .TRANSFORM_DIR_UNKNOWN)) ∧
      (d1 ≠ .TRANSFORM_DIR_UNKNOWN → d2 ≠ .TRANSFORM_DIR_UNKNOWN → d1 = d2 →
        CombineTransformDirections d1 d2 = .TRANSFORM_DIR_FORWARD) ∧
      (d1 ≠ .TRANSFORM_DIR_UNKNOWN → d2 ≠ .TRANSFORM_DIR_UNKNOWN → d1 ≠ d2 →
        CombineTransformDirections d1 d2 = .TRANSFORM_DIR_INVERSE) := by
  cases d1 <;> cases d2 <;> decide

theorem CombineTransformDirections_unknown_iff_witness :
    (CombineTransformDirections .TRANSFORM_DIR_INVERSE .TRANSFORM_DIR_INVERSE =
          .TRANSFORM_DIR_UNKNOWN ↔
        (TransformDirection.TRANSFORM_DIR_INVERSE = .TRANSFORM_DIR_UNKNOWN ∨
          TransformDirection.TRANSFORM_DIR_INVERSE = .TRANSFORM_DIR_UNKNOWN)) ∧
      CombineTransformDirections .TRANSFORM_DIR_INVERSE .TRANSFORM_DIR_INVERSE =
        .TRANSFORM_DIR_FORWARD ∧
      CombineTransformDirections .TRANSFORM_DIR_FORWARD .TRANSFORM_DIR_INVERSE =
        .TRANSFORM_DIR_INVERSE :=
  ⟨(CombineTransformDirections_unknown_iff .TRANSFORM_DIR_INVERSE .TRANSFORM_DIR_INVERSE).1,
    (CombineTransformDirections_unknown_iff .TRANSFORM_DIR_INVERSE
      .TRANSFORM_DIR_INVERSE).2.1 (by decide) (by decide) rfl,
    (CombineTransformDirections_unknown_iff .TRANSFORM_DIR_FORWARD
      .TRANSFORM_DIR_INVERSE).2.2 (by decide) (by decide) (by decide)⟩

/-- C33: `LocalFileFormat::buildFileOps` on a cached file with the operator data
`opDataVec`, with `newDir = CombineTransformDirections(dir, fileTransform.getDirection())`.
When `newDir` is unknown it throws, whatever the builders would do, so that no operator is
built.  When `newDir` is forward it calls `BuildOp` on the entries in file order, and when
`newDir` is inverse on the entries in exactly the reverse order; in particular, when every
call of `BuildOp` appends the operators of its entry, the operators of the entries stand
in `ops` in file order, respectively in the reverse order. -/
theorem buildFileOps_order_follows_direction {OpData Op : Type}
    (E : FileExternals OpData Op) (ops : List Op) (opDataVec : List OpData)
    (fileTransformDirection dir : TransformDirection) :
    (CombineTransformDirections dir fileTransformDirection = .TRANSFORM_DIR_UNKNOWN →
        ∀ E2 : FileExternals OpData Op,
          buildFileOps E2 ops (some opDataVec) fileTransformDirection dir =
            .error (.exception
              "Cannot build file format transform, unspecified transform direction.")) ∧
      (CombineTransformDirections dir fileTransformDirection = .TRANSFORM_DIR_FORWARD →
        buildFileOps E ops (some opDataVec) fileTransformDirection dir =
            buildForwardLoop E .TRANSFORM_DIR_FORWARD opDataVec ops ∧
          ∀ built : OpData → List Op,
            (∀ ops1 opData, BuildOp E ops1 opData .TRANSFORM_DIR_FORWARD =
              .ok (ops1 ++ built opData)) →
            buildFileOps E ops (some opDataVec) fileTransformDirection dir =
              .ok (ops ++ opDataVec.flatMap built)) ∧
      (CombineTransformDirections dir fileTransformDirection = .TRANSFORM_DIR_INVERSE →
        buildFileOps E ops (some opDataVec) fileTransformDirection dir =
            buildForwardLoop E .TRANSFORM_DIR_INVERSE opDataVec.reverse ops ∧
          ∀ built : OpData → List Op,
            (∀ ops1 opData, BuildOp E ops1 opData .TRANSFORM_DIR_INVERSE =
              .ok (ops1 ++ built opData)) →
            buildFileOps E ops (some opDataVec) fileTransformDirection dir =
              .ok (ops ++ opDataVec.reverse.flatMap built)) := by
  refine ⟨?_, ?_, ?_⟩
  · intro h E2
    unfold buildFileOps
    dsimp only
    rw [if_pos h]
  · intro h
    have h1 : buildFileOps E ops (some opDataVec) fileTransformDirection dir =
        buildForwardLoop E .TRANSFORM_DIR_FORWARD opDataVec ops := by
      unfold buildFileOps
      dsimp only
      rw [h, if_neg (by decide), if_pos rfl]
    refine ⟨h1, fun built happ => ?_⟩
    rw [h1, buildForwardLoop_append E _ built happ]
  · intro h
    have h1 : buildFileOps E ops (some opDataVec) fileTransformDirection dir =
        buildForwardLoop E .TRANSFORM_DIR_INVERSE opDataVec.reverse ops := by
      unfold buildFileOps
      dsimp only
      rw [h, if_neg (by decide), if_neg (by decide),
        buildInverseLoop_eq E _ opDataVec opDataVec.length ops (Nat.le_refl _),
        List.take_length]
    refine ⟨h1, fun built happ => ?_⟩
    rw [h1, buildForwardLoop_append E _ built happ]

theorem buildFileOps_order_follows_direction_witness :
    buildFileOps fileFx [] (some [1, 2, 3]) .TRANSFORM_DIR_FORWARD .TRANSFORM_DIR_FORWARD =
        .ok [(1, .TRANSFORM_DIR_FORWARD), (2, .TRANSFORM_DIR_FORWARD),
          (3, .TRANSFORM_DIR_FORWARD)] ∧
      buildFileOps fileFx [] (some [1, 2, 3]) .TRANSFORM_DIR_FORWARD .TRANSFORM_DIR_INVERSE =
        .ok [(3, .TRANSFORM_DIR_INVERSE), (2, .TRANSFORM_DIR_INVERSE),
          (1, .TRANSFORM_DIR_INVERSE)] ∧
      buildFileOps fileFx [] (some [1, 2, 3]) .TRANSFORM_DIR_UNKNOWN .TRANSFORM_DIR_INVERSE =
        .error (.exception
          "Cannot build file format transform, unspecified transform direction.") ∧
      (buildFileOps fileFx [] (some [1, 2, 3]) .TRANSFORM_DIR_INVERSE .TRANSFORM_DIR_FORWARD =
          buildForwardLoop fileFx .TRANSFORM_DIR_INVERSE [1, 2, 3].reverse [] ∧
        ∀ built : Nat → List (Nat × TransformDirection),
          (∀ ops1 opData, BuildOp fileFx ops1 opData .TRANSFORM_DIR_INVERSE =
            .ok (ops1 ++ built opData)) →
          buildFileOps fileFx [] (some [1, 2, 3]) .TRANSFORM_DIR_INVERSE
              .TRANSFORM_DIR_FORWARD =
            .ok ([] ++ [1, 2, 3].reverse.flatMap built)) :=
  ⟨by decide, by decide, by decide,
    (buildFileOps_order_follows_direction fileFx [] [1, 2, 3] .TRANSFORM_DIR_INVERSE
      .TRANSFORM_DIR_FORWARD).2.2 (by decide)⟩

/-- C34: `RemoveInverseOps` terminates on every finite chain.  A rewrite either erases the
pair (two entries fewer, cursor one back) or replaces it by the identity replacement (one
entry fewer, cursor one on); any other step advances the cursor.  For a chain of `n`
operators the loop condition is tested at most `2 * n + 1` times, the returned count is at
most `n` minus the length of the result, at most `n - 1` when the chain is not empty, and
0 when it is. -/
theorem RemoveInverseOps_terminates_with_bounded_count (I : Externals Op)
    (oFlags : OptimizationFlags) (ops : List Op) :
    (∃ r count,
        (∀ fuel, 2 * ops.length + 1 ≤ fuel →
          RemoveInverseOps I fuel ops oFlags = .ok (r, count)) ∧
        count + r.length ≤ ops.length ∧
        (ops ≠ [] → count + 1 ≤ ops.length) ∧
        (ops = [] → count = 0)) ∧
      (∀ (pre post : List Op) (a b : Op),
        inverseRewrite I (pre ++ a :: b :: post) (pre.length : Int) a b =
          if I.isNoOp (I.getIdentityReplacement a) = true then
            (pre ++ post, max 0 ((pre.length : Int) - 1))
          else (pre ++ I.getIdentityReplacement a :: post, (pre.length : Int) + 1)) := by
  constructor
  · obtain ⟨r, count, hr, hA, hB, hC⟩ :=
      RemoveInverseOpsLoop_terminates I oFlags (2 * ops.length + 1) ops 0 0
        (Nat.zero_le _) (by omega)
    refine ⟨r, count, ?_, by omega, ?_, hC⟩
    · intro fuel hf
      obtain ⟨extra, rfl⟩ : ∃ extra, fuel = 2 * ops.length + 1 + extra :=
        ⟨fuel - (2 * ops.length + 1), by omega⟩
      unfold RemoveInverseOps
      rw [RemoveInverseOpsLoop_eq_pairScan] at hr ⊢
      exact pairScan_mono_add _ _ _ extra ops _ 0 (r, count) hr
    · intro hne
      have := hB hne
      omega
  · intro pre post a b
    unfold inverseRewrite
    by_cases hn : I.isNoOp (I.getIdentityReplacement a) = true
    · rw [if_pos hn, if_pos hn]
      simp only [Int.toNat_ofNat, eraseRange_pair]
    · rw [if_neg hn, if_neg hn]
      simp only [Int.toNat_ofNat, eraseAt_set_pair]

/-- C35: whenever `CombineOps` returns, no adjacent pair `op1, op2` of its result passes the
test of the scan (`IsCombineEnabled` for the type of `op1` and `op1.canCombineWith(op2)`);
consequently a second call with the same flags returns the count 0 and leaves the chain
unchanged. -/
theorem CombineOps_result_has_no_combinable_pair (I : Externals Op)
    (oFlags : OptimizationFlags) (fuel : Nat) (ops r : List Op) (count : Nat)
    (h : CombineOps I fuel ops oFlags = .ok (r, count)) :
    List.Chain'
        (fun op1 op2 =>
          ¬ (IsCombineEnabled I (I.getType op1) oFlags = true ∧
            I.canCombineWith op1 op2 = true)) r ∧
      ∀ fuel2, r.length ≤ fuel2 → 1 ≤ fuel2 → CombineOps I fuel2 r oFlags = .ok (r, 0) := by
  have hch : List.Chain' (fun a b => isCombinePair I oFlags a b = false) r := by
    unfold CombineOps at h
    refine CombineOpsLoop_result_chain I oFlags fuel ops 0 0 r count ?_ h
    cases ops with
    | nil => exact List.chain'_nil
    | cons x t => exact List.chain'_singleton x
  refine ⟨?_, fun fuel2 hl h1 => CombineOps_of_chain I fuel2 r oFlags hch hl h1⟩
  refine List.Chain'.imp ?_ hch
  intro a b hab
  simpa [isCombinePair] using hab

theorem CombineOps_result_has_no_combinable_pair_witness :
    CombineOps fx 7 [FxOp.matrix 1, FxOp.matrix 2, FxOp.exponent 1, FxOp.exponent 2] 0x2000 =
        .ok ([FxOp.matrix 3, FxOp.exponent 1, FxOp.exponent 2], 1) ∧
      List.Chain'
        (fun op1 op2 =>
          ¬ (IsCombineEnabled fx (fx.getType op1) 0x2000 = true ∧
            fx.canCombineWith op1 op2 = true))
        [FxOp.matrix 3, FxOp.exponent 1, FxOp.exponent 2] ∧
      ∀ fuel2, [FxOp.matrix 3, FxOp.exponent 1, FxOp.exponent 2].length ≤ fuel2 →
        1 ≤ fuel2 →
        CombineOps fx fuel2 [FxOp.matrix 3, FxOp.exponent 1, FxOp.exponent 2] 0x2000 =
          .ok ([FxOp.matrix 3, FxOp.exponent 1, FxOp.exponent 2], 0) :=
  ⟨by decide,
    CombineOps_result_has_no_combinable_pair fx 0x2000 7
      [FxOp.matrix 1, FxOp.matrix 2, FxOp.exponent 1, FxOp.exponent 2]
      [FxOp.matrix 3, FxOp.exponent 1, FxOp.exponent 2] 1 (by decide)⟩

/-- C36: the pair scans never read outside of the vector.  The cursor is never negative, and
whenever the loop condition holds both `opVec[firstindex]` and `opVec[firstindex + 1]` are
entries of the vector, so `RemoveInverseOps` and `CombineOps` either return or are still
running when the iteration bound of the model is used up.  The loop bound
`static_cast<int>(opVec.size() - 1)`, computed with the unsigned wrap-around and the cast,
is `-1` for the empty vector, `0` for one entry and `size - 1` for every size within the
range of `int`; on a chain of length 0 or 1 both scans return the count 0 and the chain
unchanged.  `RemoveTrailingClampIdentity` returns on every chain, the empty one included,
and when the leading trim has emptied the chain the trailing trim and
`OptimizeSeparablePrefix` leave it empty. -/
theorem pair_scans_stay_in_range (I : Externals Op) (oFlags : OptimizationFlags)
    (ops : List Op) :
    (∀ fuel, (∃ r, RemoveInverseOps I fuel ops oFlags = .ok r) ∨
        RemoveInverseOps I fuel ops oFlags = .error .outOfFuel) ∧
      (∀ fuel, (∃ r, CombineOps I fuel ops oFlags = .ok r) ∨
        CombineOps I fuel ops oFlags = .error .outOfFuel) ∧
      (∀ (opVec : List Op) (k : Nat) (a b : Op),
        0 ≤ (inverseRewrite I opVec (k : Int) a b).2 ∧
          0 ≤ (combineRewrite I opVec (k : Int) a b).2) ∧
      (∀ i : Int, 0 ≤ i → i < sizeMinusOne ops.length →
        ∃ a b, opAt ops i = some a ∧ opAt ops (i + 1) = some b) ∧
      sizeMinusOneWrapped 0 = -1 ∧ sizeMinusOneWrapped 1 = 0 ∧
      (ops.length ≤ 2 ^ 31 → sizeMinusOneWrapped ops.length = sizeMinusOne ops.length) ∧
      (ops.length ≤ 1 → ∀ fuel,
        RemoveInverseOps I (fuel + 1) ops oFlags = .ok (ops, 0) ∧
          CombineOps I (fuel + 1) ops oFlags = .ok (ops, 0)) ∧
      (∃ r, RemoveTrailingClampIdentity I ops = .ok r) ∧
      RemoveTrailingClampIdentity I ([] : List Op) = .ok ([], 0) ∧
      (∀ inBitDepth, OptimizeSeparablePrefix I ([] : List Op) inBitDepth = .ok []) ∧
      (∀ inBitDepth outBitDepth, (∀ o ∈ ops, isClampIdentity I o = true) →
        I.IsFloatBitDepth inBitDepth = false →
        (RemoveLeadingClampIdentity I ops).1 = [] ∧
          BoundaryTrim I ops inBitDepth outBitDepth = .ok []) := by
  refine ⟨?_, ?_, ?_, ?_, by decide, by decide, sizeMinusOneWrapped_eq ops.length, ?_,
    ⟨_, RemoveTrailingClampIdentity_eq I ops⟩, ?_, OptimizeSeparablePrefix_nil I, ?_⟩
  · intro fuel
    unfold RemoveInverseOps
    rw [RemoveInverseOpsLoop_eq_pairScan]
    exact pairScan_in_range _ _ (inverseRewrite_cursor I) fuel ops 0 0
  · intro fuel
    unfold CombineOps
    rw [CombineOpsLoop_eq_pairScan]
    exact pairScan_in_range _ _ (combineRewrite_cursor I) fuel ops 0 0
  · intro opVec k a b
    exact ⟨inverseRewrite_cursor I opVec k a b, combineRewrite_cursor I opVec k a b⟩
  · intro i h0 hlt
    unfold sizeMinusOne at hlt
    obtain ⟨k, rfl⟩ := Int.eq_ofNat_of_zero_le h0
    have hk : k + 1 < ops.length := by omega
    have hk0 : k < ops.length := by omega
    refine ⟨ops[k], ops[k + 1], ?_, ?_⟩
    · unfold opAt
      simp [List.getElem?_eq_getElem hk0]
    · unfold opAt
      have hnn : ¬ ((k : Int) + 1 < 0) := by omega
      rw [if_neg hnn]
      have : ((k : Int) + 1).toNat = k + 1 := by omega
      rw [this, List.getElem?_eq_getElem hk]
  · intro hl fuel
    unfold RemoveInverseOps CombineOps
    rw [RemoveInverseOpsLoop_eq_pairScan, CombineOpsLoop_eq_pairScan]
    exact ⟨pairScan_short _ _ fuel ops hl, pairScan_short _ _ fuel ops hl⟩
  · rw [RemoveTrailingClampIdentity_eq]; simp [List.rdropWhile, List.rtakeWhile]
  · intro inBitDepth outBitDepth hall hin
    have hdrop : ops.dropWhile (isClampIdentity I) = [] :=
      List.dropWhile_eq_nil_iff.2 hall
    constructor
    · rw [RemoveLeadingClampIdentity_eq]; exact hdrop
    · rw [BoundaryTrim_eq, hin]
      simp [hdrop, List.rdropWhile]

theorem pair_scans_stay_in_range_witness :
    RemoveInverseOps fx 1 [FxOp.log .TRANSFORM_DIR_FORWARD 1] 0x100 =
        .ok ([FxOp.log .TRANSFORM_DIR_FORWARD 1], 0) ∧
      CombineOps fx 1 [FxOp.matrix 1] 0x2000 = .ok ([FxOp.matrix 1], 0) ∧
      RemoveInverseOps fx 1 [] 0x100 = .ok ([], 0) ∧
      ((RemoveLeadingClampIdentity fx [FxOp.range (some 0) none, FxOp.range none none]).1 =
          [] ∧
        BoundaryTrim fx [FxOp.range (some 0) none, FxOp.range none none]
          .BIT_DEPTH_UINT8 .BIT_DEPTH_UINT8 = .ok []) :=
  ⟨by decide, by decide, by decide,
    (pair_scans_stay_in_range fx 0x100
      [FxOp.range (some 0) none, FxOp.range none none]).2.2.2.2.2.2.2.2.2.2.2
      .BIT_DEPTH_UINT8 .BIT_DEPTH_UINT8 (by decide) (by decide)⟩

/-- C37: `LogOpData::isInverse` is symmetric, `a.isInverse(b) = b.isInverse(a)` for all
`LogOpData` `a` and `b` (the comparison `==` of `double` being symmetric), and a Log whose
direction is forward or inverse is not its own inverse. -/
theorem isInverse_symmetric {D : Type} (X : DoubleOps D)
    (hsymm : ∀ x y, X.eq x y = X.eq y x) (a b : LogOpData D) :
    LogOpData.isInverse X a b = LogOpData.isInverse X b a ∧
      (a.m_direction ≠ .TRANSFORM_DIR_UNKNOWN → LogOpData.isInverse X a a = false) := by
  constructor
  · unfold LogOpData.isInverse
    rw [GetInverseTransformDirection_eq_comm a.m_direction b.m_direction,
      vectorEq_symm X hsymm a.m_redParams b.m_redParams, hsymm a.m_base b.m_base]
    generalize decide (GetInverseTransformDirection b.m_direction = a.m_direction) = p
    generalize LogOpData.allComponentsEqual X a = q
    generalize LogOpData.allComponentsEqual X b = r
    cases p <;> cases q <;> cases r <;> rfl
  · intro hd
    unfold LogOpData.isInverse
    have hne : decide (GetInverseTransformDirection a.m_direction = a.m_direction) = false := by
      cases h : a.m_direction with
      | TRANSFORM_DIR_UNKNOWN => exact absurd h hd
      | TRANSFORM_DIR_FORWARD => decide
      | TRANSFORM_DIR_INVERSE => decide
    rw [hne]
    simp

theorem isInverse_symmetric_witness :
    (∀ x y, exactDouble.eq x y = exactDouble.eq y x) ∧
      LogOpData.isInverse exactDouble (defaultLog (some 2) .TRANSFORM_DIR_FORWARD)
        (defaultLog (some 2) .TRANSFORM_DIR_INVERSE) = true ∧
      (LogOpData.isInverse exactDouble (defaultLog (some 2) .TRANSFORM_DIR_FORWARD)
          (defaultLog (some 2) .TRANSFORM_DIR_INVERSE) =
        LogOpData.isInverse exactDouble (defaultLog (some 2) .TRANSFORM_DIR_INVERSE)
          (defaultLog (some 2) .TRANSFORM_DIR_FORWARD) ∧
      (TransformDirection.TRANSFORM_DIR_FORWARD ≠ .TRANSFORM_DIR_UNKNOWN →
        LogOpData.isInverse exactDouble (defaultLog (some 2) .TRANSFORM_DIR_FORWARD)
          (defaultLog (some 2) .TRANSFORM_DIR_FORWARD) = false)) := by
  have hsymm : ∀ x y, exactDouble.eq x y = exactDouble.eq y x := by
    intro x y
    cases x <;> cases y <;> simp [exactDouble, eq_comm]
  exact ⟨hsymm, by decide,
    isInverse_symmetric exactDouble hsymm (defaultLog (some 2) .TRANSFORM_DIR_FORWARD)
      (defaultLog (some 2) .TRANSFORM_DIR_INVERSE)⟩

/-- C38: `CombineTransformDirections` is commutative and associative, with
`TRANSFORM_DIR_FORWARD` as neutral element on both sides; combining with
`TRANSFORM_DIR_INVERSE` is `GetInverseTransformDirection`; and
`GetInverseTransformDirection` is an involution that fixes `TRANSFORM_DIR_UNKNOWN` (and
exchanges the two known directions). -/
theorem CombineTransformDirections_algebra :
    (∀ d1 d2, CombineTransformDirections d1 d2 = CombineTransformDirections d2 d1) ∧
      (∀ d1 d2 d3, CombineTransformDirections (CombineTransformDirections d1 d2) d3 =
        CombineTransformDirections d1 (CombineTransformDirections d2 d3)) ∧
      (∀ d, CombineTransformDirections .TRANSFORM_DIR_FORWARD d = d) ∧
      (∀ d, CombineTransformDirections d .TRANSFORM_DIR_FORWARD = d) ∧
      (∀ d, CombineTransformDirections d .TRANSFORM_DIR_INVERSE =
        GetInverseTransformDirection d) ∧
      (∀ d, GetInverseTransformDirection (GetInverseTransformDirection d) = d) ∧
      GetInverseTransformDirection .TRANSFORM_DIR_UNKNOWN = .TRANSFORM_DIR_UNKNOWN ∧
      GetInverseTransformDirection .TRANSFORM_DIR_FORWARD = .TRANSFORM_DIR_INVERSE ∧
      GetInverseTransformDirection .TRANSFORM_DIR_INVERSE = .TRANSFORM_DIR_FORWARD := by
  refine ⟨?_, ?_, ?_, ?_, ?_, ?_, by decide, by decide, by decide⟩
  · intro d1 d2; cases d1 <;> cases d2 <;> decide
  · intro d1 d2 d3; cases d1 <;> cases d2 <;> cases d3 <;> decide
  · intro d; cases d <;> decide
  · intro d; cases d <;> decide
  · intro d; cases d <;> decide
  · intro d; cases d <;> decide

/-- C39: `ConvertSpecialCharToXmlToken` maps each character on its own: the double quote to
"&quot;", the apostrophe to "&apos;", `<` to "&lt;", `>` to "&gt;", `&` to "&amp;" and every
other character, the space of the last table entry included, to itself.  Hence it
distributes over concatenation, its output holds no double quote, apostrophe, `<` or `>`,
every `&` of the output is followed by the rest of one of the five entities, and it is
injective. -/
theorem ConvertSpecialCharToXmlToken_maps_each_character :
    (∀ c : Char, ConvertSpecialCharToXmlToken (String.singleton c) =
        if c = '\x22' then "&quot;" else if c = '\x27' then "&apos;"
        else if c = '<' then "&lt;" else if c = '>' then "&gt;"
        else if c = '&' then "&amp;" else String.singleton c) ∧
      ConvertSpecialCharToXmlToken " " = " " ∧
      (∀ s t : String, ConvertSpecialCharToXmlToken (s ++ t) =
        ConvertSpecialCharToXmlToken s ++ ConvertSpecialCharToXmlToken t) ∧
      (∀ (s : String) (x : Char), x ∈ (ConvertSpecialCharToXmlToken s).data →
        x ≠ '\x22' ∧ x ≠ '\x27' ∧ x ≠ '<' ∧ x ≠ '>') ∧
      (∀ (s : String) (pre post : List Char),
        (ConvertSpecialCharToXmlToken s).data = pre ++ '&' :: post →
        ∃ tail rest, post = tail ++ rest ∧
          tail ∈ ["quot;".data, "apos;".data, "lt;".data, "gt;".data, "amp;".data]) ∧
      Function.Injective ConvertSpecialCharToXmlToken := by
  refine ⟨?_, by decide, ?_, ?_, ?_, ?_⟩
  · intro c
    apply String.ext
    rw [ConvertSpecialCharToXmlToken_data]
    show [c].flatMap xmlTokenOf = _
    rw [List.flatMap_cons, List.flatMap_nil, List.append_nil]
    rcases xmlTokenOf_cases c with ⟨h, t⟩ | ⟨h, t⟩ | ⟨h, t⟩ | ⟨h, t⟩ | ⟨h, t⟩ |
      ⟨h1, h2, h3, h4, h5, t⟩
    · rw [t, if_pos h]
    · subst h; rw [t]; decide
    · subst h; rw [t]; decide
    · subst h; rw [t]; decide
    · subst h; rw [t]; decide
    · rw [t, if_neg h1, if_neg h2, if_neg h3, if_neg h4, if_neg h5]; rfl
  · intro s t
    apply String.ext
    rw [String.data_append, ConvertSpecialCharToXmlToken_data,
      ConvertSpecialCharToXmlToken_data, ConvertSpecialCharToXmlToken_data,
      String.data_append, List.flatMap_append]
  · intro s x hx
    rw [ConvertSpecialCharToXmlToken_data] at hx
    exact xmlToken_no_special s.data x hx
  · intro s pre post h
    rw [ConvertSpecialCharToXmlToken_data] at h
    exact xmlToken_amp s.data pre post h
  · intro s t h
    apply String.ext
    apply xmlToken_injective
    rw [← ConvertSpecialCharToXmlToken_data, ← ConvertSpecialCharToXmlToken_data, h]

theorem ConvertSpecialCharToXmlToken_maps_each_character_witness :
    ConvertSpecialCharToXmlToken "a <b> & \x22c\x22 &amp;" =
        "a &lt;b&gt; &amp; &quot;c&quot; &amp;amp;" ∧
      (ConvertSpecialCharToXmlToken "R&D").data = ['R'] ++ '&' :: "amp;D".data ∧
      ∃ tail rest, "amp;D".data = tail ++ rest ∧
        tail ∈ ["quot;".data, "apos;".data, "lt;".data, "gt;".data, "amp;".data] :=
  ⟨by decide, by decide,
    ConvertSpecialCharToXmlToken_maps_each_character.2.2.2.2.1 "R&D" ['R'] "amp;D".data
      (by decide)⟩

/-- C40: `InterpolationFromString(InterpolationToString(i)) = i` for `INTERP_NEAREST`,
`INTERP_LINEAR`, `INTERP_TETRAHEDRAL`, `INTERP_BEST` and `INTERP_UNKNOWN`, whereas
`INTERP_DEFAULT` is written as "default", which is parsed as `INTERP_UNKNOWN`: the round trip
holds for every value except `INTERP_DEFAULT`. -/
theorem Interpolation_name_round_trip_except_default :
    (∀ i, i ≠ .INTERP_DEFAULT → InterpolationFromString (InterpolationToString i) = i) ∧
      InterpolationToString .INTERP_DEFAULT = "default" ∧
      InterpolationFromString "default" = .INTERP_UNKNOWN ∧
      InterpolationFromString (InterpolationToString .INTERP_DEFAULT) ≠ .INTERP_DEFAULT := by
  refine ⟨?_, by decide, by decide, by decide⟩
  intro i hi
  cases i <;> first | decide | exact absurd rfl hi

theorem Interpolation_name_round_trip_except_default_witness :
    InterpolationFromString (InterpolationToString .INTERP_TETRAHEDRAL) =
        .INTERP_TETRAHEDRAL ∧
      InterpolationFromString (InterpolationToString .INTERP_UNKNOWN) = .INTERP_UNKNOWN :=
  ⟨Interpolation_name_round_trip_except_default.1 .INTERP_TETRAHEDRAL (by decide),
    Interpolation_name_round_trip_except_default.1 .INTERP_UNKNOWN (by decide)⟩

end Claims


end OCIO
